import Mathlib

/-!
# Power Tab Editor: the MIDI playback engine and the system model

A shallow embedding of `source/midiplayer.cpp` and of the barline queries, the position
arithmetic and the changes of a system of `source/powertabdocument/system.cpp`.

Conventions of the embedding:

* values of type `double` (timestamps, durations, tempi) are exact rationals: rounding is
  not part of the embedding, and a quotient of doubles whose divisor is zero, which is
  infinite or not a number in the program, is written as the same quotient of rationals
  and has no numeric meaning here; the numeric examples have divisors that are not zero;
* a quotient of integers whose divisor is zero makes the function return `none`;
* values of type `int` are integers: the overflow of an `int`, which is undefined in the
  program, is not part of the embedding;
* fields of type `uint8_t` are elements of `Fin 256`; 32-bit indices are natural numbers
  where the program only compares them, and are reduced modulo `2 ^ 32` where it computes;
* the classes of the document model that are declared outside of these sources (`Score`,
  `Staff`, `Position`, `Note`, `Guitar`, `TempoMarker`, `Barline`, `TimeSignature`) are
  records of the values their accessors return; constants and helpers declared outside of
  the sources are the fields of `Externals`.
-/

namespace PowerTab

/-- Values of the C++ types `uint8_t` and `quint8`. -/
abbrev Byte := Fin 256

/-! ## Document model -/

/-- The part of `TimeSignature` that the playback engine reads. -/
structure TimeSignature where
  /-- Value of `GetBeatsPerMeasure()`. -/
  beatsPerMeasure : Byte := 4
  /-- Value of `GetBeatAmount()`. -/
  beatAmount : Byte := 4
  /-- Value of `GetPulses()`. -/
  pulses : Byte := 4
  /-- Value of `GetWidth()`. -/
  width : Int := 0

/-- The part of `KeySignature` that the system queries read. -/
structure KeySignature where
  /-- Value of `GetWidth()`. -/
  width : Int := 0

/-- The part of `Barline` that the playback engine and the system queries read. -/
structure Barline where
  /-- Value of `GetPosition()`. -/
  position : Nat := 0
  /-- Value of `GetTimeSignatureConstRef()`. -/
  timeSignature : TimeSignature := {}
  /-- Value of `GetKeySignatureConstRef()`. -/
  keySignature : KeySignature := {}
  /-- Value of `GetKeyAndTimeSignatureWidth()`. -/
  keyAndTimeSignatureWidth : Int := 0
  /-- Value of `IsBar()`: the barline is a standard bar. -/
  isBar : Bool := true
  /-- Value of `GetType()`. -/
  type : Byte := 0
  /-- Value of `GetRepeatCount()`. -/
  repeatCount : Byte := 0

/-- A `TempoMarker` of the score. -/
structure TempoMarker where
  /-- Value of `GetSystem()`. -/
  system : Nat
  /-- Value of `GetPosition()`. -/
  position : Nat
  /-- Value of `GetBeatsPerMinute()`. -/
  beatsPerMinute : Nat
  /-- Value of `GetBeatType()`. -/
  beatType : Nat
  /-- Value of `IsAlterationOfPace()`. -/
  isAlterationOfPace : Bool := false
deriving DecidableEq

/-- A `Note` of a position. -/
structure Note where
  /-- Value of `GetString()`. -/
  string : Nat
  /-- Value of `GetFretNumber()`. -/
  fretNumber : Byte
  /-- Value of `IsNaturalHarmonic()`. -/
  isNaturalHarmonic : Bool := false
  /-- The tapped fret that `GetTappedHarmonic` stores when `HasTappedHarmonic()` holds. -/
  tappedHarmonic : Option Byte := none
  /-- The key, key variation and octave difference that `GetArtificialHarmonic` stores when
  `HasArtificialHarmonic()` holds. -/
  artificialHarmonic : Option (Byte × Byte × Byte) := none
  /-- Value of `IsMuted()`. -/
  isMuted : Bool := false
  /-- Value of `IsGhostNote()`. -/
  isGhostNote : Bool := false
  /-- Value of `IsTied()`. -/
  isTied : Bool := false
  /-- Value of `HasTieWrap()`. -/
  hasTieWrap : Bool := false
deriving DecidableEq

/-- A `Position` of a staff voice. -/
structure Position where
  /-- Value of `GetPosition()`. -/
  position : Nat
  /-- Value of `GetDurationType()`; 1 is a whole note. -/
  durationType : Nat
  /-- Value of `GetDuration()`, the notated duration in beats. -/
  duration : ℚ
  /-- Value of `IsRest()`. -/
  isRest : Bool := false
  /-- Value of `IsAcciaccatura()`. -/
  isAcciaccatura : Bool := false
  /-- Value of `IsStaccato()`. -/
  isStaccato : Bool := false
  /-- Value of `HasArpeggioDown()`. -/
  hasArpeggioDown : Bool := false
  /-- Value of `HasArpeggioUp()`. -/
  hasArpeggioUp : Bool := false
  /-- Value of `HasVibrato()`. -/
  hasVibrato : Bool := false
  /-- Value of `HasWideVibrato()`. -/
  hasWideVibrato : Bool := false
  /-- The measure count that `GetMultibarRest` stores when `HasMultibarRest()` holds. -/
  multibarRest : Option Byte := none
  /-- The notes, in the order of `GetNote(0)`, ..., `GetNote(GetNoteCount() - 1)`. -/
  notes : List Note := []

/-- A `Staff`: for each voice, the array of its positions. -/
structure Staff where
  /-- The positions `GetPosition(voice, 0)`, ..., of each voice. -/
  positionArrays : Nat → List Position

/-- A `Guitar`: its tuning and capo. -/
structure Guitar where
  /-- Value of `GetTuning().GetNote(string)`. -/
  tuning : Nat → Byte
  /-- Value of `GetCapo()`. -/
  capo : Byte := 0

/-- A `Direction` of a system: the value of `GetPosition()`. -/
structure Direction where
  /-- Value of `GetPosition()`. -/
  position : Nat

/-- A `ChordText` of a system: the value of `GetPosition()`. -/
structure ChordText where
  /-- Value of `GetPosition()`. -/
  position : Nat

/-- A `RhythmSlash` of a system: the value of `GetPosition()`. -/
structure RhythmSlash where
  /-- Value of `GetPosition()`. -/
  position : Nat

/-- A `System`: `m_startBar`, `m_barlineArray`, `m_endBar` and `m_staffArray`, the width of
`m_rect` and `m_positionSpacing`, and the arrays of directions, chord texts and rhythm
slashes. -/
structure System where
  /-- Value of `m_rect.GetWidth()`; the default rectangle is 750 wide. -/
  rectWidth : Int := 750
  /-- Field `m_positionSpacing`, the value of `GetPositionSpacing()`. -/
  positionSpacing : Byte := 20
  /-- Field `m_startBar`. -/
  startBar : Barline := {}
  /-- Field `m_barlineArray`. -/
  barlineArray : List Barline := []
  /-- Field `m_endBar`. -/
  endBar : Barline := {}
  /-- Field `m_staffArray`. -/
  staffArray : List Staff := []
  /-- Field `m_directionArray`. -/
  directionArray : List Direction := []
  /-- Field `m_chordTextArray`. -/
  chordTextArray : List ChordText := []
  /-- Field `m_rhythmSlashArray`. -/
  rhythmSlashArray : List RhythmSlash := []

/-- A `Score`: its systems, tempo markers and guitars. -/
structure Score where
  /-- The systems `GetSystem(0)`, ..., `GetSystem(GetSystemCount() - 1)`. -/
  systems : List System := []
  /-- The markers `GetTempoMarker(0)`, ..., `GetTempoMarker(GetTempoMarkerCount() - 1)`. -/
  tempoMarkers : List TempoMarker := []
  /-- Value of `GetGuitar(i)`. -/
  guitar : Nat → Guitar

/-- Constants and helpers that `midiplayer.cpp` and `system.cpp` use and that are declared
outside of the sources. -/
structure Externals where
  /-- Constant `GRACE_NOTE_DURATION`. -/
  GRACE_NOTE_DURATION : ℚ
  /-- Constant `ARPEGGIO_OFFSET`. -/
  ARPEGGIO_OFFSET : ℚ
  /-- Constant `METRONOME_CHANNEL`. -/
  METRONOME_CHANNEL : Nat
  /-- Constant `MetronomeEvent::METRONOME_PITCH`. -/
  METRONOME_PITCH : Nat
  /-- Constant `MetronomeEvent::STRONG_ACCENT`. -/
  STRONG_ACCENT : Nat
  /-- Constant `MetronomeEvent::WEAK_ACCENT`. -/
  WEAK_ACCENT : Nat
  /-- Constant `PlayNoteEvent::DEFAULT_VELOCITY`. -/
  DEFAULT_VELOCITY : Nat
  /-- Constant `PlayNoteEvent::MUTED_VELOCITY`. -/
  MUTED_VELOCITY : Nat
  /-- Constant `PlayNoteEvent::GHOST_VELOCITY`. -/
  GHOST_VELOCITY : Nat
  /-- Constant `Staff::NUM_STAFF_VOICES`. -/
  NUM_STAFF_VOICES : Nat
  /-- Constant `TempoMarker::DEFAULT_BEATS_PER_MINUTE`. -/
  DEFAULT_BEATS_PER_MINUTE : Nat
  /-- Constant `TempoMarker::DEFAULT_BEAT_TYPE`. -/
  DEFAULT_BEAT_TYPE : Nat
  /-- Constant `TempoMarker::quarter`. -/
  quarter : Nat
  /-- Function `midi::GetMidiNoteOctave`. -/
  GetMidiNoteOctave : Nat → Int
  /-- Function `Staff::IsOnlyPositionInBar(position, system)`, evaluated on the staff and system
  as they are when the generation starts. -/
  IsOnlyPositionInBar : Staff → Position → System → Bool
  /-- Function `Staff::GetLastPosition()`; `none` is the null pointer. -/
  GetLastPosition : Staff → Option Position
  /-- Function `Staff::GetPositionsInRange(positions, voice, first, last)`: the positions
  that the call stores in `positions`, for the staff, the voice and the two bounds. -/
  GetPositionsInRange : Staff → Nat → Nat → Nat → List Position
  /-- The place of vibrato events in the order of the event kinds, which breaks ties
  between events of equal start time. -/
  vibratoRank : Nat

/-! ## System queries (`system.cpp`) -/

/-- The search `std::find_if(m_barlineArray.rbegin(), m_barlineArray.rend(), compareToPosition)`
with `CompareBarlineToPosition`: the last barline of the array whose position is at most
`position`; `none` is the end iterator `rend()`. -/
def System.findLastBarlineAtOrBefore (s : System) (position : Nat) : Option Barline :=
  s.barlineArray.reverse.find? (fun barline => decide (barline.position ≤ position))

/-- The method `System::GetPrecedingBarline`. The search is entered only when the first barline
of the array lies at or before `position`, so it finds an element and the iterator that the
function dereferences is never the end iterator. -/
def System.GetPrecedingBarline (s : System) (position : Nat) : Barline :=
  match h : s.barlineArray with
  | [] => s.startBar
  | first :: rest =>
    if hlt : position < first.position then s.startBar
    else
      (s.findLastBarlineAtOrBefore position).get (by
        unfold System.findLastBarlineAtOrBefore
        rw [List.find?_isSome]
        exact ⟨first, by simp [h], by simpa using hlt⟩)

/-- The method `System::GetBarlines`: the start bar, the internal barlines, the end bar. -/
def System.GetBarlines (s : System) : List Barline :=
  [s.startBar] ++ s.barlineArray ++ [s.endBar]

/-- The method `System::GetNextBarline`. The search with `CompareBarlineToPosition` runs from
the last barline of the array backwards; the barlines that it passes over are the ones at
the end of the array whose position is greater than `position`, and `--barline` steps back
to the one of them that it passed last. The result is `none` when the search passed over no
barline, where the step leaves the array. -/
def System.GetNextBarline (s : System) (position : Nat) : Option Barline :=
  match s.barlineArray.getLast? with
  | none => some s.endBar
  | some last =>
    if position ≥ last.position then some s.endBar
    else
      match s.barlineArray.head? with
      | none => some s.endBar
      | some first =>
        if position < first.position then some first
        else
          (s.barlineArray.reverse.takeWhile
            (fun barline => !decide (barline.position ≤ position))).getLast?

/-- The loop of `System::GetCumulativeInternalKeyAndTimeSignatureWidth` over the barlines;
it ends at the first barline that is not before `position`, unless all barlines are
asked for. -/
def cumulativeWidthLoop (bAllBarlines : Bool) (position : Int) : List Barline → Int → Int
  | [], returnValue => returnValue
  | barline :: rest, returnValue =>
    let barlinePosition : Int := barline.position
    if bAllBarlines = true ∨ barlinePosition < position then
      cumulativeWidthLoop bAllBarlines position rest
        (if barline.position > 0 then returnValue + barline.keyAndTimeSignatureWidth
          else returnValue)
    else returnValue

/-- The method `System::GetCumulativeInternalKeyAndTimeSignatureWidth`; the call without
argument is the call with the position -1, for all barlines. -/
def System.GetCumulativeInternalKeyAndTimeSignatureWidth (s : System) (position : Int) :
    Int :=
  cumulativeWidthLoop (decide (position = -1)) position s.barlineArray 0

/-- The constant `System::MIN_POSITION_SPACING`. -/
def MIN_POSITION_SPACING : Int := 3

/-- The method `System::CalculatePositionCount`. -/
def System.CalculatePositionCount (s : System) (positionSpacing : Int) : Int :=
  if positionSpacing < MIN_POSITION_SPACING then 0
  else
    let width := s.rectWidth
    let width := width - s.GetCumulativeInternalKeyAndTimeSignatureWidth (-1)
    let width := width - positionSpacing
    if width ≥ positionSpacing then Int.tdiv width positionSpacing else 0

/-- The method `System::GetPositionCount`. -/
def System.GetPositionCount (s : System) : Int :=
  s.CalculatePositionCount s.positionSpacing.val

/-- The method `System::IsValidPosition`. -/
def System.IsValidPosition (s : System) (position : Int) : Bool :=
  decide (position ≥ 0) && decide (position ≤ s.GetPositionCount)

/-- The method `System::GetFirstPositionX`. -/
def System.GetFirstPositionX (s : System) : Int :=
  let returnValue : Int := 22
  let keySignatureWidth := s.startBar.keySignature.width
  let returnValue := returnValue + keySignatureWidth
  let timeSignatureWidth := s.startBar.timeSignature.width
  let returnValue := returnValue + timeSignatureWidth
  let returnValue :=
    if keySignatureWidth > 0 ∧ timeSignatureWidth > 0 then returnValue + 3 else returnValue
  let barlineWidth : Int := if s.startBar.isBar then 1 else s.positionSpacing.val
  returnValue + barlineWidth

/-- The method `System::GetPositionX`; `CHECK_THAT` returns the x co-ordinate of the first
position for a position that is not valid. -/
def System.GetPositionX (s : System) (position : Int) : Int :=
  let returnValue := s.GetFirstPositionX
  if s.IsValidPosition position = false then returnValue
  else
    let keyAndTimeSignatureWidth := s.GetCumulativeInternalKeyAndTimeSignatureWidth position
    returnValue + ((position + 1) * s.positionSpacing.val + keyAndTimeSignatureWidth)

/-- The loop of `System::GetPositionFromX` from the position `i` on, with `remaining` passes
to go until `i` reaches `GetPositionCount()`. -/
def positionFromXLoop (s : System) (x : Int) : Nat → Int → Int
  | 0, _ => s.GetPositionCount - 1
  | remaining + 1, i =>
    if s.GetPositionX i ≥ x then i - 1
    else positionFromXLoop s x remaining (i + 1)

/-- The method `System::GetPositionFromX`: the value that it returns, before the conversion
to `size_t`. -/
def System.GetPositionFromX (s : System) (x : Int) : Int :=
  if s.GetPositionX 0 ≥ x then 0
  else positionFromXLoop s x (s.GetPositionCount - 1).toNat 1

/-- The method `System::GetBarlineAtPosition`; `none` is the null pointer. The position count
is not negative, and its conversion to `uint32_t` keeps its value. -/
def System.GetBarlineAtPosition (s : System) (position : Nat) : Option Barline :=
  if position = 0 then some s.startBar
  else
    match s.barlineArray.find? (fun barline => decide (barline.position = position)) with
    | some barline => some barline
    | none =>
      if position = s.GetPositionCount.toNat then some s.endBar
      else none

/-- The loop of `System::IsValidPositionSpacing` over the staves. The variable
`maxNumPositions` is a `uint32_t`, and so is the difference `maxNumPositions - 1`, which is
reduced modulo `2 ^ 32`. -/
def isValidPositionSpacingLoop (c : Externals) (maxNumPositions : Int) : List Staff → Bool
  | [] => true
  | staff :: rest =>
    match c.GetLastPosition staff with
    | some lastPositionInStaff =>
      if (lastPositionInStaff.position : Int) ≥ (maxNumPositions - 1) % 2 ^ 32 then false
      else isValidPositionSpacingLoop c maxNumPositions rest
    | none => isValidPositionSpacingLoop c maxNumPositions rest

/-- The method `System::IsValidPositionSpacing`. -/
def System.IsValidPositionSpacing (c : Externals) (s : System) (positionSpacing : Int) :
    Bool :=
  if positionSpacing < MIN_POSITION_SPACING then false
  else
    let maxNumPositions : Int := s.CalculatePositionCount positionSpacing % 2 ^ 32
    isValidPositionSpacingLoop c maxNumPositions s.staffArray

/-- The method `System::SetPositionSpacing`: the value that it returns and the system after
the call. -/
def System.SetPositionSpacing (c : Externals) (s : System) (positionSpacing : Byte) :
    Bool × System :=
  if s.IsValidPositionSpacing c positionSpacing.val = false then (false, s)
  else (true, { s with positionSpacing := positionSpacing })

/-- The call operator of the functor `ShiftPosition` with the comparison
`std::greater_equal<uint32_t>`: the position that the item has after the call. The sum of
the position and the offset is a `uint32_t`, and `SetPosition`, which is declared outside
of the sources, is taken to store the value that it is given. -/
def ShiftPosition (positionIndex : Nat) (offset : Int) (position : Nat) : Nat :=
  if position ≥ positionIndex then (((position : Int) + offset) % 2 ^ 32).toNat
  else position

/-- The method `System::PerformPositionShift`: the system after the call, or `none` when the
call throws `std::out_of_range`. The argument of `SetPositionSpacing` is a `uint8_t`, and
the loop over the positions of a staff is the loop over `GetPosition(0, j)` for `j` below
`GetPositionCount(0)`. -/
def System.PerformPositionShift (c : Externals) (s : System) (positionIndex : Nat)
    (offset : Int) : Option System :=
  if s.IsValidPosition positionIndex = false then none
  else
    let spacing : Byte :=
      ⟨(((s.positionSpacing.val : Int) - offset) % 256).toNat % 256,
        Nat.mod_lt _ (by decide)⟩
    let s := (s.SetPositionSpacing c spacing).2
    some
      { s with
        barlineArray := s.barlineArray.map
          (fun item => { item with position := ShiftPosition positionIndex offset item.position })
        directionArray := s.directionArray.map
          (fun item => { item with position := ShiftPosition positionIndex offset item.position })
        chordTextArray := s.chordTextArray.map
          (fun item => { item with position := ShiftPosition positionIndex offset item.position })
        rhythmSlashArray := s.rhythmSlashArray.map
          (fun item => { item with position := ShiftPosition positionIndex offset item.position })
        staffArray := s.staffArray.map
          (fun staff =>
            { staff with
              positionArrays := fun voice =>
                if voice = 0 then
                  (staff.positionArrays 0).map
                    (fun item =>
                      { item with
                        position := ShiftPosition positionIndex offset item.position })
                else staff.positionArrays voice }) }

/-- The functor `CompareBarlinesByPosition`. -/
def CompareBarlinesByPosition (bar1 bar2 : Barline) : Bool :=
  decide (bar1.position < bar2.position)

/-- The call `std::sort(first, last, comp)` of the standard library: the range is reordered
so that no element is put before an element that `comp` puts before it. The library leaves
open the order of the elements that `comp` does not tell apart; here they keep their
order. -/
def stdSort {α : Type} (comp : α → α → Bool) (l : List α) : List α :=
  l.insertionSort (fun a b => comp b a = false)

/-- The method `System::InsertBarline`: the value that it returns and the system after the
call. -/
def System.InsertBarline (s : System) (barline : Barline) : Bool × System :=
  let barlineArray := s.barlineArray ++ [barline]
  (true, { s with barlineArray := stdSort CompareBarlinesByPosition barlineArray })

/-- The method `System::HasMultiBarRest`: the value that it returns and `measureCount`
after the call; `none` when `GetNextBarline` leaves the barline array. The positions that
the loops pass over are the ones that `GetPositionsInRange` stores, for each staff and
each pass of the loop over the voices; the call has the voice 0 as its argument. -/
def System.HasMultiBarRest (c : Externals) (s : System) (startBar : Barline) :
    Option (Bool × Byte) :=
  let measureCount : Byte := 1
  match s.GetNextBarline startBar.position with
  | none => none
  | some nextBar =>
    let visited := s.staffArray.flatMap (fun staff =>
      (List.range c.NUM_STAFF_VOICES).flatMap (fun _voice =>
        c.GetPositionsInRange staff 0 startBar.position nextBar.position))
    match visited.findSome? (fun pos => pos.multibarRest) with
    | some count => some (true, count)
    | none => some (false, measureCount)

/-- The byte `endBar` that `System::Serialize` writes for the end bar: the type, shifted by five
bits, with the repeat count, converted to `uint8_t`. -/
def System.serializedEndBar (s : System) : Byte :=
  ⟨((s.endBar.type.val <<< 5) ||| s.endBar.repeatCount.val) % 256, Nat.mod_lt _ (by decide)⟩

/-- The two arguments of the call `m_endBar->SetBarlineData` in `System::Deserialize`, for a
file of version 1.5 and up: the type and the repeat count that are read from the byte
`endBar`, each converted to `uint8_t`. -/
def deserializedEndBar (endBar : Byte) : Byte × Byte :=
  (⟨((endBar.val &&& 0xe0) >>> 5) % 256, Nat.mod_lt _ (by decide)⟩,
    ⟨(endBar.val &&& 0x1f) % 256, Nat.mod_lt _ (by decide)⟩)

/-! ## Tempo resolver -/

/-- The method `MidiPlayer::getCurrentTempoMarker`; `currentSystemIndex` is the member that
`run` sets, `none` is the null pointer. -/
def getCurrentTempoMarker (score : Score) (currentSystemIndex positionIndex : Nat) :
    Option TempoMarker :=
  score.tempoMarkers.foldl
    (fun currentTempoMarker temp =>
      if temp.system ≤ currentSystemIndex ∧ temp.position ≤ positionIndex ∧
          temp.isAlterationOfPace = false then some temp
      else currentTempoMarker)
    none

/-- The assertion `Q_ASSERT(bpm != 0)` of `MidiPlayer::getCurrentTempo`, which is reached only
when a tempo marker was found. -/
def getCurrentTempoAssertion (score : Score) (currentSystemIndex positionIndex : Nat) : Bool :=
  match getCurrentTempoMarker score currentSystemIndex positionIndex with
  | none => true
  | some tempoMarker => decide (tempoMarker.beatsPerMinute ≠ 0)

/-- The value that `MidiPlayer::getCurrentTempo` returns: the length of a beat in
milliseconds. -/
def getCurrentTempo (c : Externals) (score : Score) (currentSystemIndex positionIndex : Nat) :
    ℚ :=
  let tempoMarker := getCurrentTempoMarker score currentSystemIndex positionIndex
  let bpm : ℚ :=
    match tempoMarker with
    | none => c.DEFAULT_BEATS_PER_MINUTE
    | some marker => marker.beatsPerMinute
  let beatType : ℚ :=
    match tempoMarker with
    | none => c.DEFAULT_BEAT_TYPE
    | some marker => marker.beatType
  60 / bpm * 1000 * (c.quarter / beatType)

/-- The method `MidiPlayer::calculateNoteDuration`. -/
def calculateNoteDuration (c : Externals) (score : Score) (currentSystemIndex : Nat)
    (currentPosition : Position) : ℚ :=
  let tempo := getCurrentTempo c score currentSystemIndex currentPosition.position
  currentPosition.duration * tempo

/-- The method `MidiPlayer::getWholeRestDuration`. -/
def getWholeRestDuration (c : Externals) (score : Score) (currentSystemIndex : Nat)
    (system : System) (staff : Staff) (position : Position) (originalDuration : ℚ) : ℚ :=
  let prevBarline := system.GetPrecedingBarline position.position
  if c.IsOnlyPositionInBar staff position system = false then originalDuration
  else
    let currentTimeSignature := prevBarline.timeSignature
    let tempo := getCurrentTempo c score currentSystemIndex position.position
    let beatDuration : ℚ := currentTimeSignature.beatAmount.val
    let duration := tempo * 4 / beatDuration
    let numBeats : ℤ := currentTimeSignature.beatsPerMeasure.val
    duration * numBeats

/-! ## Pitch resolver -/

/-- Modelled from the spec: the entries of the table `harmonicPitches` that
`MidiPlayer::initHarmonicPitches` does not assign, which the spec takes to be zero (the table
is a member that is declared outside of the sources). The other entries are the ones that
`initHarmonicPitches` assigns. -/
def harmonicPitches (fret : Nat) : Nat :=
  match fret with
  | 3 => 31
  | 4 => 28
  | 9 => 28
  | 16 => 28
  | 28 => 28
  | 5 => 24
  | 24 => 24
  | 7 => 19
  | 19 => 19
  | 12 => 12
  | _ => 0

/-- The method `MidiPlayer::getHarmonicPitch`; both arguments and the result are `quint8`. -/
def getHarmonicPitch (basePitch fretOffset : Nat) : Nat :=
  (basePitch % 256 + harmonicPitches (fretOffset % 256)) % 256

/-- The pitch that `generateEventsForSystem` computes for a note (the `quint32` variable
`pitch` after the three harmonic adjustments). -/
def notePitch (c : Externals) (guitar : Guitar) (note : Note) : Nat :=
  let openStringPitch : Nat := (guitar.tuning note.string).val + guitar.capo.val
  let pitch : Nat := openStringPitch + note.fretNumber.val
  let pitch : Nat :=
    if note.isNaturalHarmonic then getHarmonicPitch openStringPitch note.fretNumber.val
    else pitch
  let pitch : Nat :=
    match note.tappedHarmonic with
    | some tappedFret =>
      getHarmonicPitch pitch ((tappedFret.val + 256 - note.fretNumber.val) % 256)
    | none => pitch
  let pitch : Nat :=
    match note.artificialHarmonic with
    | some (key, _, octaveDiff) =>
      (((c.GetMidiNoteOctave pitch + (octaveDiff.val : ℤ) + 2) * 12 + (key.val : ℤ))
        % (2 ^ 32 : ℤ)).toNat
    | none => pitch
  pitch

/-- The velocity that `generateEventsForSystem` computes for a note. -/
def noteVelocity (c : Externals) (note : Note) : Nat :=
  let velocity := c.DEFAULT_VELOCITY
  let velocity := if note.isMuted then c.MUTED_VELOCITY else velocity
  let velocity := if note.isGhostNote then c.GHOST_VELOCITY else velocity
  velocity

/-! ## Events -/

/-- The enumeration `VibratoEvent::VibratoType`. -/
inductive VibratoType
  | NORMAL_VIBRATO
  | WIDE_VIBRATO
deriving DecidableEq

/-- The enumeration `VibratoEvent::EventType`. -/
inductive VibratoEventType
  | VIBRATO_ON
  | VIBRATO_OFF
deriving DecidableEq

/-- The four classes of events, each with the constructor arguments that are not passed on to
the base class `MidiEvent`. -/
inductive EventKind
  /-- A `PlayNoteEvent`: pitch, guitar, muted flag, velocity. -/
  | playNote (pitch : Nat) (guitar : Guitar) (isMuted : Bool) (velocity : Nat)
  /-- A `VibratoEvent`: on or off, and the vibrato type when the call gives one. -/
  | vibrato (eventType : VibratoEventType) (vibratoType : Option VibratoType)
  /-- A `StopNoteEvent`: pitch. -/
  | stopNote (pitch : Nat)
  /-- A `MetronomeEvent`: velocity. -/
  | metronome (velocity : Nat)

/-- A `MidiEvent`: the members of the base class and the kind of the event. -/
structure MidiEvent where
  /-- Channel of the event. -/
  channel : Nat
  /-- Value of `getStartTime()`, in milliseconds. -/
  startTime : ℚ
  /-- Value of `getDuration()` for the events that are built with a duration. -/
  duration : Option ℚ
  /-- Value of `getPositionIndex()`. -/
  positionIndex : Nat
  /-- Value of `getSystemIndex()`. -/
  systemIndex : Nat
  /-- Class of the event and its own members. -/
  kind : EventKind

/-- The event is a `PlayNoteEvent`. -/
def MidiEvent.isPlayNote (e : MidiEvent) : Bool :=
  match e.kind with
  | .playNote _ _ _ _ => true
  | _ => false

/-- The event is a `StopNoteEvent`. -/
def MidiEvent.isStopNote (e : MidiEvent) : Bool :=
  match e.kind with
  | .stopNote _ => true
  | _ => false

/-- The pitch of a `PlayNoteEvent` or `StopNoteEvent`. -/
def MidiEvent.pitch? (e : MidiEvent) : Option Nat :=
  match e.kind with
  | .playNote pitch _ _ _ => some pitch
  | .stopNote pitch => some pitch
  | _ => none

/-- The event is a `VibratoEvent` that turns the vibrato on. -/
def MidiEvent.isVibratoOn (e : MidiEvent) : Bool :=
  match e.kind with
  | .vibrato .VIBRATO_ON _ => true
  | _ => false

/-- The event is a `VibratoEvent` that turns the vibrato off. -/
def MidiEvent.isVibratoOff (e : MidiEvent) : Bool :=
  match e.kind with
  | .vibrato .VIBRATO_OFF _ => true
  | _ => false

/-! ## Event generator -/

/-- Modelled from the spec: `Position::SortNotesDown`, whose body is not part of the sources;
the spec has the notes reordered by string, ascending for an arpeggio down. -/
def Position.SortNotesDown (position : Position) : Position :=
  { position with notes := position.notes.insertionSort (fun a b => a.string ≤ b.string) }

/-- Modelled from the spec: `Position::SortNotesUp`, whose body is not part of the sources;
the spec has the notes reordered by string, descending for an arpeggio up. -/
def Position.SortNotesUp (position : Position) : Position :=
  { position with notes := position.notes.insertionSort (fun a b => b.string ≤ a.string) }

/-- The position as `generateEventsForSystem` leaves it: an arpeggio position has its notes
sorted in place before they are played. -/
def Position.sortForArpeggio (position : Position) : Position :=
  if position.hasArpeggioDown then position.SortNotesDown
  else if position.hasArpeggioUp then position.SortNotesUp
  else position

/-- Modelled from the spec: `Staff::GetAdjacentNoteOnString(Staff::NextNote, position, note,
voice)`, whose body is not part of the sources; the spec has it return the adjacent note on
the same string in the next position. The position is given by its index `j` in the array of
the voice; `none` is the null pointer. -/
def Staff.GetAdjacentNoteOnString (staff : Staff) (voice j : Nat) (note : Note) :
    Option Note :=
  match (staff.positionArrays voice)[j + 1]? with
  | none => none
  | some nextPosition => nextPosition.notes.find? (fun other => other.string == note.string)

/-- The variables that the loop over the notes of a position updates. -/
structure NoteLoopState where
  /-- Variable `startTime`. -/
  startTime : ℚ
  /-- Variable `duration`. -/
  duration : ℚ
  /-- Argument `eventList`. -/
  eventList : List MidiEvent

/-- The local `tiedToNextNote` of `generateEventsForSystem`. -/
def tiedToNextNote (staff : Staff) (voice j : Nat) (note : Note) : Bool :=
  match staff.GetAdjacentNoteOnString voice j note with
  | some nextNote => nextNote.isTied
  | none => false

/-- The events that one pass of the loop over the notes pushes for `note`, which starts at
`startTime` and lasts `duration` (both already adjusted for an arpeggio): `i` is the index of
the staff, `j` the index of the position in its voice. -/
def noteEvents (c : Externals) (staff : Staff) (voice j i systemIndex : Nat) (guitar : Guitar)
    (position : Position) (startTime duration : ℚ) (note : Note) : List MidiEvent :=
  let positionIndex := position.position
  let pitch := notePitch c guitar note
  let velocity := noteVelocity c note
  let noteEvent : List MidiEvent :=
    if note.isTied = false then
      [⟨i, startTime, some duration, positionIndex, systemIndex,
        .playNote pitch guitar note.isMuted velocity⟩]
    else []
  let vibratoEvents : List MidiEvent :=
    if position.hasVibrato || position.hasWideVibrato then
      let type :=
        if position.hasVibrato then VibratoType.NORMAL_VIBRATO else VibratoType.WIDE_VIBRATO
      [⟨i, startTime, none, positionIndex, systemIndex, .vibrato .VIBRATO_ON (some type)⟩,
       ⟨i, startTime + duration, none, positionIndex, systemIndex, .vibrato .VIBRATO_OFF none⟩]
    else []
  let stopEvent : List MidiEvent :=
    if note.hasTieWrap = false ∧ tiedToNextNote staff voice j note = false then
      let noteLength := if position.isStaccato then duration / 2 else duration
      [⟨i, startTime + noteLength, none, positionIndex, systemIndex, .stopNote pitch⟩]
    else []
  noteEvent ++ vibratoEvents ++ stopEvent

/-- One pass of the loop over the notes of a position (`for k`). -/
def noteLoopBody (c : Externals) (staff : Staff) (voice j i systemIndex : Nat)
    (guitar : Guitar) (position : Position) (st : NoteLoopState) (note : Note) :
    NoteLoopState :=
  let arpeggio := position.hasArpeggioDown || position.hasArpeggioUp
  let startTime := if arpeggio then st.startTime + c.ARPEGGIO_OFFSET else st.startTime
  let duration := if arpeggio then st.duration - c.ARPEGGIO_OFFSET else st.duration
  { startTime := startTime
    duration := duration
    eventList := st.eventList ++
      noteEvents c staff voice j i systemIndex guitar position startTime duration note }

/-- The variables that the loop over the positions of a voice updates. -/
structure VoiceLoopState where
  /-- Variable `startTime`. -/
  startTime : ℚ
  /-- Variable `endTime`. -/
  endTime : ℚ
  /-- Argument `eventList`. -/
  eventList : List MidiEvent

/-- One pass of the loop over the positions of a voice (`for j`). -/
def positionLoopBody (c : Externals) (score : Score) (currentSystemIndex : Nat)
    (system : System) (staff : Staff) (voice i systemIndex : Nat) (guitar : Guitar)
    (st : VoiceLoopState) (j : Nat) (position : Position) : VoiceLoopState :=
  let duration := calculateNoteDuration c score currentSystemIndex position
  if position.isRest then
    let duration :=
      if position.durationType = 1 then
        getWholeRestDuration c score currentSystemIndex system staff position duration
      else duration
    { st with startTime := st.startTime + duration }
  else
    let duration := if position.isAcciaccatura then c.GRACE_NOTE_DURATION else duration
    let startTime := if position.isAcciaccatura then st.startTime - duration else st.startTime
    let sorted := position.sortForArpeggio
    let notesDone := sorted.notes.foldl
      (noteLoopBody c staff voice j i systemIndex guitar sorted)
      { startTime := startTime, duration := duration, eventList := st.eventList }
    let startTime := notesDone.startTime + notesDone.duration
    { startTime := startTime
      endTime := max st.endTime startTime
      eventList := notesDone.eventList }

/-- The loop over the positions of one voice, from the position of index `j` on. -/
def positionLoop (c : Externals) (score : Score) (currentSystemIndex : Nat)
    (system : System) (staff : Staff) (voice i systemIndex : Nat) (guitar : Guitar) :
    Nat → List Position → VoiceLoopState → VoiceLoopState
  | _, [], st => st
  | j, position :: rest, st =>
    positionLoop c score currentSystemIndex system staff voice i systemIndex guitar (j + 1) rest
      (positionLoopBody c score currentSystemIndex system staff voice i systemIndex guitar
        st j position)

/-- One pass of the loop over the voices of a staff (`for voice`): the start time is set back
to the start of the system, the end time and the events are carried on. -/
def voiceLoopBody (c : Externals) (score : Score) (currentSystemIndex : Nat)
    (system : System) (staff : Staff) (i systemIndex : Nat) (guitar : Guitar)
    (systemStartTime : ℚ) (acc : ℚ × List MidiEvent) (voice : Nat) : ℚ × List MidiEvent :=
  let st := positionLoop c score currentSystemIndex system staff voice i systemIndex guitar 0
    (staff.positionArrays voice)
    { startTime := systemStartTime, endTime := acc.1, eventList := acc.2 }
  (st.endTime, st.eventList)

/-- One pass of the loop over the staves of a system (`for i`). -/
def staffLoopBody (c : Externals) (score : Score) (currentSystemIndex : Nat)
    (system : System) (systemIndex : Nat) (systemStartTime : ℚ)
    (acc : ℚ × List MidiEvent) (indexed : Nat × Staff) : ℚ × List MidiEvent :=
  let i := indexed.1
  let staff := indexed.2
  let guitar := score.guitar i
  (List.range c.NUM_STAFF_VOICES).foldl
    (voiceLoopBody c score currentSystemIndex system staff i systemIndex guitar systemStartTime)
    acc

/-- The method `MidiPlayer::generateEventsForSystem`, for `system = GetSystem(systemIndex)`:
the end time that it returns and the event list after the call. -/
def generateEventsForSystem (c : Externals) (score : Score) (currentSystemIndex : Nat)
    (system : System) (systemIndex : Nat) (systemStartTime : ℚ)
    (eventList : List MidiEvent) : ℚ × List MidiEvent :=
  system.staffArray.enum.foldl
    (staffLoopBody c score currentSystemIndex system systemIndex systemStartTime)
    (systemStartTime, eventList)

/-- The loop over the pulses of one bar in `generateMetronome` (`for j`), from pulse `j` on
with `remaining` pulses to go: the start time and the event list after the loop. -/
def pulseLoop (c : Externals) (duration : ℚ) (position systemIndex : Nat) :
    Nat → Nat → ℚ → List MidiEvent → ℚ × List MidiEvent
  | _, 0, startTime, eventList => (startTime, eventList)
  | j, remaining + 1, startTime, eventList =>
    let velocity := if j = 0 then c.STRONG_ACCENT else c.WEAK_ACCENT
    let eventList := eventList ++
      [⟨c.METRONOME_CHANNEL, startTime, some duration, position, systemIndex,
        .metronome velocity⟩]
    let startTime := startTime + duration
    let eventList := eventList ++
      [⟨c.METRONOME_CHANNEL, startTime, none, position, systemIndex,
        .stopNote c.METRONOME_PITCH⟩]
    pulseLoop c duration position systemIndex (j + 1) remaining startTime eventList

/-- The loop over the barlines in `generateMetronome` (`for i`). The quotient
`beatsPerMeasure / numPulses` is a quotient of integers, and the result is `none` when
`numPulses` is zero, where the program divides an integer by zero. -/
def barlineLoop (c : Externals) (score : Score) (currentSystemIndex systemIndex : Nat) :
    List Barline → ℚ → List MidiEvent → Option (ℚ × List MidiEvent)
  | [], startTime, eventList => some (startTime, eventList)
  | barline :: rest, startTime, eventList =>
    let timeSig := barline.timeSignature
    let numPulses := timeSig.pulses.val
    let beatsPerMeasure := timeSig.beatsPerMeasure.val
    let beatValue := timeSig.beatAmount.val
    if numPulses = 0 then none
    else
      let tempo := getCurrentTempo c score currentSystemIndex barline.position
      let duration : ℚ := tempo * 4 / (beatValue : ℚ)
      let duration : ℚ := duration * ((beatsPerMeasure / numPulses : Nat) : ℚ)
      let position := barline.position
      let pulses := pulseLoop c duration position systemIndex 0 numPulses startTime eventList
      barlineLoop c score currentSystemIndex systemIndex rest pulses.1 pulses.2

/-- The method `MidiPlayer::generateMetronome`, for `system = GetSystem(systemIndex)`: the
event list after the call, or `none` when the call divides by zero. -/
def generateMetronome (c : Externals) (score : Score) (currentSystemIndex : Nat)
    (system : System) (systemIndex : Nat) (startTime : ℚ) (eventList : List MidiEvent) :
    Option (List MidiEvent) :=
  let barlines := system.GetBarlines.dropLast
  match barlineLoop c score currentSystemIndex systemIndex barlines startTime eventList with
  | none => none
  | some (startTime, eventList) =>
    some (eventList ++
      [⟨c.METRONOME_CHANNEL, startTime, none, system.endBar.position, systemIndex,
        .stopNote c.METRONOME_PITCH⟩])

/-- The loop over the systems in `MidiPlayer::run`, from the system of index
`currentSystemIndex` on. -/
def systemLoop (c : Externals) (score : Score) :
    Nat → List System → ℚ → List MidiEvent → Option (List MidiEvent)
  | _, [], _, eventList => some eventList
  | currentSystemIndex, system :: rest, timeStamp, eventList =>
    match generateMetronome c score currentSystemIndex system currentSystemIndex timeStamp
        eventList with
    | none => none
    | some eventList =>
      let generated := generateEventsForSystem c score currentSystemIndex system
        currentSystemIndex timeStamp eventList
      systemLoop c score (currentSystemIndex + 1) rest generated.1 generated.2

/-- The position as one pass of the loop over the positions leaves it: a rest is not
touched, and another position has its notes sorted in place when it has an arpeggio. -/
def Position.afterGeneration (position : Position) : Position :=
  if position.isRest then position else position.sortForArpeggio

/-- The staff as `generateEventsForSystem` leaves it: the loop passes over the positions of
the voices below `NUM_STAFF_VOICES`. -/
def Staff.afterGeneration (c : Externals) (staff : Staff) : Staff :=
  { positionArrays := fun voice =>
      if voice < c.NUM_STAFF_VOICES then
        (staff.positionArrays voice).map Position.afterGeneration
      else staff.positionArrays voice }

/-- The system as `generateEventsForSystem` leaves it. -/
def System.afterGeneration (c : Externals) (system : System) : System :=
  { system with staffArray := system.staffArray.map (Staff.afterGeneration c) }

/-- The score as the loop of `run` over the systems leaves it, when the loop comes to its
end. -/
def Score.afterGeneration (c : Externals) (score : Score) : Score :=
  { score with systems := score.systems.map (System.afterGeneration c) }

/-- The position of index `j` in the voice `voice` of the staff `i` of the system `s`. -/
def Score.positionAt (score : Score) (s i voice j : Nat) : Option Position :=
  match score.systems[s]? with
  | none => none
  | some system =>
    match system.staffArray[i]? with
    | none => none
    | some staff => (staff.positionArrays voice)[j]?

/-- The running start time of a voice after its first `n` positions: the variable
`startTime` of `generateEventsForSystem`, which is set to the start time of the system
before the first position of the voice, after `n` passes of the loop over the positions. -/
def runningStartTime (c : Externals) (score : Score) (currentSystemIndex : Nat)
    (system : System) (staff : Staff) (voice i systemIndex : Nat) (guitar : Guitar)
    (systemStartTime : ℚ) (n : Nat) : ℚ :=
  (positionLoop c score currentSystemIndex system staff voice i systemIndex guitar 0
    ((staff.positionArrays voice).take n)
    { startTime := systemStartTime, endTime := systemStartTime, eventList := [] }).startTime

/-- The local `duration` of `generateMetronome` for a barline, the duration of a pulse: the
quotient `beatsPerMeasure / numPulses` is a quotient of integers. -/
def metronomePulseDuration (c : Externals) (score : Score) (currentSystemIndex : Nat)
    (barline : Barline) : ℚ :=
  let timeSig := barline.timeSignature
  let numPulses := timeSig.pulses.val
  let beatsPerMeasure := timeSig.beatsPerMeasure.val
  let beatValue := timeSig.beatAmount.val
  let tempo := getCurrentTempo c score currentSystemIndex barline.position
  let duration : ℚ := tempo * 4 / (beatValue : ℚ)
  duration * ((beatsPerMeasure / numPulses : Nat) : ℚ)

/-- The metronome ticks of one bar, as the specification has them: for each pulse `k` below
`numPulses`, a `MetronomeEvent` at `startTime + k * duration`, with the strong accent for the
pulse 0 and the weak accent for the others, and then a `StopNoteEvent` of the metronome
pitch one pulse later, both on the metronome channel. -/
def metronomeTicks (c : Externals) (duration : ℚ) (position systemIndex numPulses : Nat)
    (startTime : ℚ) : List MidiEvent :=
  (List.range numPulses).flatMap (fun k =>
    [⟨c.METRONOME_CHANNEL, startTime + (k : ℚ) * duration, some duration, position,
        systemIndex, .metronome (if k = 0 then c.STRONG_ACCENT else c.WEAK_ACCENT)⟩,
      ⟨c.METRONOME_CHANNEL, startTime + ((k : ℚ) + 1) * duration, none, position,
        systemIndex, .stopNote c.METRONOME_PITCH⟩])

/-- The time at which the metronome ticks of a list of bars end, when the first bar starts
at `startTime`: each bar lasts its number of pulses times the duration of its pulse. -/
def metronomeEndTime (c : Externals) (score : Score) (currentSystemIndex : Nat) :
    List Barline → ℚ → ℚ
  | [], startTime => startTime
  | barline :: rest, startTime =>
    metronomeEndTime c score currentSystemIndex rest
      (startTime + (barline.timeSignature.pulses.val : ℚ) *
        metronomePulseDuration c score currentSystemIndex barline)

/-- The metronome ticks of a list of bars, as the specification has them: the ticks of each
bar, in the order of the bars, each bar starting when the bar before it ends. -/
def metronomeTicksOfBars (c : Externals) (score : Score)
    (currentSystemIndex systemIndex : Nat) : List Barline → ℚ → List MidiEvent
  | [], _ => []
  | barline :: rest, startTime =>
    metronomeTicks c (metronomePulseDuration c score currentSystemIndex barline)
        barline.position systemIndex barline.timeSignature.pulses.val startTime ++
      metronomeTicksOfBars c score currentSystemIndex systemIndex rest
        (startTime + (barline.timeSignature.pulses.val : ℚ) *
          metronomePulseDuration c score currentSystemIndex barline)

/-! ## Event scheduler -/

/-- Modelled from the spec: the rank of the kind of an event in the order that breaks ties
between events of equal start time, which the spec has as stop before play before
metronome; the comparison of events is declared outside of the sources. -/
def MidiEvent.kindRank (c : Externals) (e : MidiEvent) : Nat :=
  match e.kind with
  | .stopNote _ => 0
  | .playNote _ _ _ _ => 1
  | .metronome _ => 2
  | .vibrato _ _ => c.vibratoRank

/-- Modelled from the spec: `MidiEvent::operator<`, which is declared in
`audio/midievent.h`, outside of the sources. The spec has the events ordered by start
timestamp, with the order of the kinds (stop before play before metronome) as tie-break. -/
def MidiEvent.lt (c : Externals) (event1 event2 : MidiEvent) : Bool :=
  decide (event1.startTime < event2.startTime) ||
    (decide (event1.startTime = event2.startTime) &&
      decide (event1.kindRank c < event2.kindRank c))

/-- The functor `CompareEvents`. -/
def CompareEvents (c : Externals) (event1 event2 : MidiEvent) : Bool :=
  MidiEvent.lt c event1 event2

/-- The call `std::list::sort(comp)` of the standard library: a stable sort, where an element
stays before the elements that `comp` does not put before it. -/
def listSort {α : Type} (comp : α → α → Bool) (l : List α) : List α :=
  l.insertionSort (fun a b => comp b a = false)

/-- The event list that `MidiPlayer::run` passes to `playMidiEvents`; `none` when the
generation divides by zero. -/
def runEventList (c : Externals) (score : Score) : Option (List MidiEvent) :=
  match systemLoop c score 0 score.systems 0 [] with
  | none => none
  | some eventList => some (listSort (CompareEvents c) eventList)

/-! ## Playback loop -/

/-- What `playMidiEvents` does to the outside: the signals it emits, the events it hands to
the MIDI transport, and its sleeps. -/
inductive Signal
  /-- The signal `playbackPositionChanged`. -/
  | playbackPositionChanged (position : Nat)
  /-- The signal `playbackSystemChanged`. -/
  | playbackSystemChanged (system : Nat)
  /-- The call `activeEvent->performEvent(rtMidiWrapper)`. -/
  | performEvent (event : MidiEvent)
  /-- The call `usleep(1000 * sleepDuration)` before the next event; the argument of the
  constructor is `sleepDuration`. -/
  | usleepUntilNext (sleepDuration : ℤ)
  /-- The call `usleep(1000 * activeEvent->getDuration())` after the last event; the argument
  of the constructor is the duration of the event. -/
  | usleepDuration (duration : Option ℚ)

/-- The conversion of a `double` to `int`, which drops the fractional part. -/
def truncateToInt (x : ℚ) : ℤ :=
  if 0 ≤ x then ⌊x⌋ else ⌈x⌉

/-- The variables of `playMidiEvents`; `playbackPos` is the index of the event under the
cursor, and `repeatController` the state of the `RepeatController`. -/
structure PlaybackState (σ : Type) where
  /-- Iterator `playbackPos`, as an index into the event list. -/
  playbackPos : Nat
  /-- Argument `startSystem`. -/
  startSystem : Nat
  /-- Argument `startPos`. -/
  startPos : Nat
  /-- Variable `currentPosition`. -/
  currentPosition : Nat
  /-- Variable `currentSystem`. -/
  currentSystem : Nat
  /-- State of the local `repeatController`. -/
  repeatController : σ

/-- The outcome of one test of the loop condition and one pass of the loop body. -/
inductive LoopStep (σ : Type)
  /-- The cursor is at the end of the list: the loop ends. -/
  | finished
  /-- The flag `isPlaying` is false: the function returns. -/
  | stopped
  /-- The pass ran, emitted `out` and left the variables `st`. -/
  | next (st : PlaybackState σ) (out : List Signal)

/-- One pass of the `while` loop of `playMidiEvents`. `checkForRepeat` is the method of the
`RepeatController`, which is declared outside of the sources: from its state and the current
system and position it gives its next state and, when it redirects, the new system and
position. `isPlaying` is the value of the flag when the pass reads it. -/
def playbackIteration {σ : Type} (checkForRepeat : σ → Nat → Nat → σ × Option (Nat × Nat))
    (eventList : List MidiEvent) (isPlaying : Bool) (st : PlaybackState σ) : LoopStep σ :=
  match eventList[st.playbackPos]? with
  | none => .finished
  | some activeEvent =>
    if isPlaying = false then .stopped
    else
      let eventPosition := activeEvent.positionIndex
      let eventSystemIndex := activeEvent.systemIndex
      if eventSystemIndex < st.startSystem ∨ eventPosition < st.startPos then
        .next { st with playbackPos := st.playbackPos + 1 } []
      else
        let positionChanged := decide (eventPosition > st.currentPosition)
        let currentPosition := if positionChanged then eventPosition else st.currentPosition
        let out1 :=
          if positionChanged then [Signal.playbackPositionChanged currentPosition] else []
        let systemChanged := decide (eventSystemIndex ≠ st.currentSystem)
        let currentSystem := if systemChanged then eventSystemIndex else st.currentSystem
        let currentPosition := if systemChanged then 0 else currentPosition
        let out2 := if systemChanged then [Signal.playbackSystemChanged currentSystem] else []
        match checkForRepeat st.repeatController currentSystem currentPosition with
        | (controller, some (newSystem, newPos)) =>
          .next
            { playbackPos := 0
              startSystem := newSystem
              startPos := newPos
              currentPosition := 0
              currentSystem := 0
              repeatController := controller }
            (out1 ++ out2 ++
              [Signal.playbackSystemChanged newSystem, Signal.playbackPositionChanged newPos])
        | (controller, none) =>
          let sleep :=
            match eventList[st.playbackPos + 1]? with
            | some nextEvent =>
              Signal.usleepUntilNext (truncateToInt (nextEvent.startTime - activeEvent.startTime))
            | none => Signal.usleepDuration activeEvent.duration
          .next
            { playbackPos := st.playbackPos + 1
              startSystem := 0
              startPos := 0
              currentPosition := currentPosition
              currentSystem := currentSystem
              repeatController := controller }
            (out1 ++ out2 ++ [Signal.performEvent activeEvent, sleep])

/-- How a run of `playMidiEvents` ends. -/
inductive PlaybackEnd
  /-- The cursor passed the last event. -/
  | finished
  /-- The flag `isPlaying` was found false. -/
  | stopped
  /-- The run was cut after the given number of passes. -/
  | cut
deriving DecidableEq

/-- The `while` loop of `playMidiEvents`, run for at most `fuel` passes from the pass of
number `n` on: the signals, calls and sleeps in the order in which they happen, and how the
run ends. The flag `isPlaying` belongs to another thread; `isPlaying n` is its value when the
pass of number `n` reads it. -/
def playbackLoop {σ : Type} (checkForRepeat : σ → Nat → Nat → σ × Option (Nat × Nat))
    (isPlaying : Nat → Bool) (eventList : List MidiEvent) :
    Nat → Nat → PlaybackState σ → List Signal × PlaybackEnd
  | 0, _, _ => ([], .cut)
  | fuel + 1, n, st =>
    match playbackIteration checkForRepeat eventList (isPlaying n) st with
    | .finished => ([], .finished)
    | .stopped => ([], .stopped)
    | .next st1 out =>
      let later := playbackLoop checkForRepeat isPlaying eventList fuel (n + 1) st1
      (out ++ later.1, later.2)

/-- The method `MidiPlayer::playMidiEvents`, run for at most `fuel` passes of its loop;
`controller` is the state of the `RepeatController` that it builds from the score. -/
def playMidiEvents {σ : Type} (checkForRepeat : σ → Nat → Nat → σ × Option (Nat × Nat))
    (controller : σ) (isPlaying : Nat → Bool) (eventList : List MidiEvent)
    (startSystem startPos : Nat) (fuel : Nat) : List Signal × PlaybackEnd :=
  playbackLoop checkForRepeat isPlaying eventList fuel 0
    { playbackPos := 0
      startSystem := startSystem
      startPos := startPos
      currentPosition := 0
      currentSystem := 0
      repeatController := controller }

/-- The events that a run of the playback loop handed to the MIDI transport, in order. -/
def performedEvents (signals : List Signal) : List MidiEvent :=
  signals.filterMap (fun signal =>
    match signal with
    | .performEvent event => some event
    | _ => none)

/-- The test by which `playMidiEvents` skips an event before the resume point is reached. -/
def skippedBeforeResume (startSystem startPos : Nat) (e : MidiEvent) : Bool :=
  decide (e.systemIndex < startSystem ∨ e.positionIndex < startPos)

/-! ## Sample data

Inputs on which the definitions are evaluated. -/

/-- A choice of the constants and helpers of `Externals`: two voices, the default tempo of
120 quarter beats per minute, and a position that is alone in its bar when it is the only
position of the first voice of its staff. The last position of a staff is the last one of
its first voice, and the positions of a voice in a range are the ones whose position lies
between the two bounds. -/
def sampleExternals : Externals :=
  { GRACE_NOTE_DURATION := 60
    ARPEGGIO_OFFSET := 30
    METRONOME_CHANNEL := 15
    METRONOME_PITCH := 76
    STRONG_ACCENT := 127
    WEAK_ACCENT := 80
    DEFAULT_VELOCITY := 127
    MUTED_VELOCITY := 60
    GHOST_VELOCITY := 50
    NUM_STAFF_VOICES := 2
    DEFAULT_BEATS_PER_MINUTE := 120
    DEFAULT_BEAT_TYPE := 2
    quarter := 2
    GetMidiNoteOctave := fun note => (note / 12 : Nat) - 1
    IsOnlyPositionInBar := fun staff _ _ => (staff.positionArrays 0).length == 1
    GetLastPosition := fun staff => (staff.positionArrays 0).getLast?
    GetPositionsInRange := fun staff voice first last =>
      (staff.positionArrays voice).filter
        (fun position => decide (first ≤ position.position ∧ position.position ≤ last))
    vibratoRank := 3 }

/-- A guitar whose first string is tuned to the MIDI note 64 and the others to 40. -/
def standardGuitar : Guitar :=
  { tuning := fun string => if string = 0 then 64 else 40, capo := 0 }

/-- A tempo marker of 90 beats per minute at position 10 of the first system. -/
def lateMarker : TempoMarker :=
  { system := 0, position := 10, beatsPerMinute := 90, beatType := 2 }

/-- A score whose only tempo marker is `lateMarker`. -/
def lateMarkerScore : Score :=
  { tempoMarkers := [lateMarker], guitar := fun _ => standardGuitar }

/-- A tempo marker of 120 beats per minute at the start of the score. -/
def firstMarker : TempoMarker :=
  { system := 0, position := 0, beatsPerMinute := 120, beatType := 2 }

/-- A whole rest at position 0. -/
def wholeRest : Position :=
  { position := 0, durationType := 1, duration := 4, isRest := true }

/-- A quarter note at position 1: the open first string. -/
def quarterNote : Position :=
  { position := 1, durationType := 4, duration := 1,
    notes := [{ string := 0, fretNumber := 0 }] }

/-- A staff whose first voice holds a whole rest only. -/
def restStaff : Staff :=
  { positionArrays := fun voice => if voice = 0 then [wholeRest] else [] }

/-- A system of one bar in 4/4 with the staff `restStaff`. -/
def restSystem : System :=
  { endBar := { position := 8 }, staffArray := [restStaff] }

/-- A score of one system, `restSystem`, at 120 beats per minute. -/
def restScore : Score :=
  { systems := [restSystem], tempoMarkers := [firstMarker], guitar := fun _ => standardGuitar }

/-- A repeat controller that never redirects. -/
def neverRepeat (controller : Unit) (_currentSystem _currentPosition : Nat) :
    Unit × Option (Nat × Nat) :=
  (controller, none)

/-- The open first string, neither tied nor with a harmonic. -/
def noteX : Note :=
  { string := 0, fretNumber := 0 }

/-- A quarter rest at position 0. -/
def quarterRest : Position :=
  { position := 0, durationType := 4, duration := 1, isRest := true }

/-- A quarter note at position 0: the open first string. -/
def openingNote : Position :=
  { position := 0, durationType := 4, duration := 1, notes := [noteX] }

/-- A staff of two voices: a quarter rest and a quarter note in the first, a quarter note in
the second. -/
def twoVoiceStaff : Staff :=
  { positionArrays := fun voice =>
      if voice = 0 then [quarterRest, quarterNote] else if voice = 1 then [openingNote] else [] }

/-- A system of one bar with one metronome pulse and the staff `twoVoiceStaff`. -/
def twoVoiceSystem : System :=
  { startBar := { timeSignature := { pulses := 1 } }, endBar := { position := 2 },
    staffArray := [twoVoiceStaff] }

/-- A score of one system, `twoVoiceSystem`, without tempo marker. -/
def twoVoiceScore : Score :=
  { systems := [twoVoiceSystem], guitar := fun _ => standardGuitar }

/-- The event list of `twoVoiceScore`, sorted. -/
def twoVoiceEvents : List MidiEvent :=
  [⟨0, 0, some 500, 0, 0, .playNote 64 standardGuitar false 127⟩,
   ⟨15, 0, some 2000, 0, 0, .metronome 127⟩,
   ⟨0, 500, none, 0, 0, .stopNote 64⟩,
   ⟨0, 500, some 500, 1, 0, .playNote 64 standardGuitar false 127⟩,
   ⟨0, 1000, none, 1, 0, .stopNote 64⟩,
   ⟨15, 2000, none, 0, 0, .stopNote 76⟩,
   ⟨15, 2000, none, 2, 0, .stopNote 76⟩]

/-- The first string at fret 12, played as a natural harmonic. -/
def naturalHarmonicNote : Note :=
  { string := 0, fretNumber := 12, isNaturalHarmonic := true }

/-- The first string at fret 5 with a tapped harmonic at fret 17. -/
def tappedHarmonicNote : Note :=
  { string := 0, fretNumber := 5, tappedHarmonic := some 17 }

/-- The first string at fret 3 with an artificial harmonic of key 4, key variation 1 and
octave difference 1. -/
def artificialHarmonicNote : Note :=
  { string := 0, fretNumber := 3, artificialHarmonic := some (4, 1, 1) }

/-- The second string, open. -/
def noteY : Note :=
  { string := 1, fretNumber := 0 }

/-- A quarter-note chord at position 0 with an arpeggio down, whose notes are stored with the
second string first. -/
def arpeggioChord : Position :=
  { position := 0, durationType := 4, duration := 1, hasArpeggioDown := true,
    notes := [noteY, noteX] }

/-- A score of one system of one bar whose only staff holds `arpeggioChord` in its first
voice. -/
def arpeggioScore : Score :=
  { systems :=
      [{ startBar := { timeSignature := { pulses := 1 } }, endBar := { position := 2 },
         staffArray :=
           [{ positionArrays := fun voice => if voice = 0 then [arpeggioChord] else [] }] }]
    guitar := fun _ => standardGuitar }

/-- A system with internal barlines at the positions 4 and 8, sorted. -/
def threeBarSystem : System :=
  { barlineArray := [{ position := 4 }, { position := 8 }] }

/-- A system with the default rectangle, spacing and barlines. -/
def defaultSystem : System := {}

/-- A system whose rectangle is 10 wide. -/
def narrowSystem : System :=
  { rectWidth := 10 }

/-- A system with an internal barline, a direction, a chord text and a rhythm slash, and one
staff whose first voice has positions at 2 and 6 and whose second voice has a position
at 6. -/
def shiftSystem : System :=
  { barlineArray := [{ position := 4 }]
    directionArray := [{ position := 4 }]
    chordTextArray := [{ position := 2 }]
    rhythmSlashArray := [{ position := 6 }]
    staffArray :=
      [{ positionArrays := fun voice =>
          if voice = 0 then
            [{ position := 2, durationType := 4, duration := 1, notes := [noteX] },
             { position := 6, durationType := 4, duration := 1, notes := [noteX] }]
          else if voice = 1 then
            [{ position := 6, durationType := 4, duration := 1, notes := [noteX] }]
          else [] }] }

/-- A rest of four bars at position 2. -/
def fourBarRest : Position :=
  { position := 2, durationType := 1, duration := 4, isRest := true, multibarRest := some 4 }

/-- A system of one bar, with its end bar at position 8, whose only staff has a quarter note
at position 0 in its first voice and the rest of four bars in its second voice. -/
def multibarSystem : System :=
  { endBar := { position := 8 }
    staffArray :=
      [{ positionArrays := fun voice =>
          if voice = 0 then [openingNote] else if voice = 1 then [fourBarRest] else [] }] }

/-- A staff whose first voice has one note, at position 5. -/
def fivePositionStaff : Staff :=
  { positionArrays := fun voice =>
      if voice = 0 then
        [{ position := 5, durationType := 4, duration := 1, notes := [noteX] }]
      else [] }

/-- A system with the default rectangle, 750 wide, and the staff `fivePositionStaff`. -/
def wideSystem : System :=
  { staffArray := [fivePositionStaff] }

/-- A system whose rectangle is 30 wide, with the staff `fivePositionStaff`. -/
def crowdedSystem : System :=
  { rectWidth := 30, staffArray := [fivePositionStaff] }

/-- A grace note at position 0: the open first string. -/
def graceNote : Position :=
  { position := 0, durationType := 8, duration := 1 / 2, isAcciaccatura := true,
    notes := [noteX] }

/-- A staff whose first voice holds the grace note only. -/
def graceStaff : Staff :=
  { positionArrays := fun voice => if voice = 0 then [graceNote] else [] }

/-- A system of one bar with the staff `graceStaff`. -/
def graceSystem : System :=
  { startBar := { timeSignature := { pulses := 1 } }, endBar := { position := 2 },
    staffArray := [graceStaff] }

/-- A score of one system, `graceSystem`, without tempo marker. -/
def graceScore : Score :=
  { systems := [graceSystem], guitar := fun _ => standardGuitar }

/-- A staff whose first voice holds `arpeggioChord` only. -/
def arpeggioStaff : Staff :=
  { positionArrays := fun voice => if voice = 0 then [arpeggioChord] else [] }

/-- A quarter note at position 0 with a vibrato, whose note is tied. -/
def vibratoNote : Position :=
  { position := 0, durationType := 4, duration := 1, hasVibrato := true,
    notes := [{ string := 0, fretNumber := 0, isTied := true }] }

/-- A staff whose first voice holds `vibratoNote` only. -/
def vibratoStaff : Staff :=
  { positionArrays := fun voice => if voice = 0 then [vibratoNote] else [] }

/-- A system whose start bar has a time signature of zero pulses. -/
def noPulseSystem : System :=
  { startBar := { timeSignature := { pulses := 0 } }, endBar := { position := 2 } }

/-- A system of one bar in 3/4 with two pulses. -/
def waltzSystem : System :=
  { startBar := { timeSignature := { beatsPerMeasure := 3, beatAmount := 4, pulses := 2 } },
    endBar := { position := 3 } }

/-- A system whose end bar has the type 3 and the repeat count 2. -/
def repeatEndSystem : System :=
  { endBar := { type := 3, repeatCount := 2 } }

/-- A score of two systems, each of them `twoVoiceSystem`, without tempo marker. -/
def twoSystemScore : Score :=
  { systems := [twoVoiceSystem, twoVoiceSystem], guitar := fun _ => standardGuitar }

/-- The events of `twoSystemScore` in the order in which they are generated: for each system
the metronome, then the first voice and the second voice of the staff. -/
def twoSystemGenerated : List MidiEvent :=
  [⟨15, 0, some 2000, 0, 0, .metronome 127⟩,
   ⟨15, 2000, none, 0, 0, .stopNote 76⟩,
   ⟨15, 2000, none, 2, 0, .stopNote 76⟩,
   ⟨0, 500, some 500, 1, 0, .playNote 64 standardGuitar false 127⟩,
   ⟨0, 1000, none, 1, 0, .stopNote 64⟩,
   ⟨0, 0, some 500, 0, 0, .playNote 64 standardGuitar false 127⟩,
   ⟨0, 500, none, 0, 0, .stopNote 64⟩,
   ⟨15, 1000, some 2000, 0, 1, .metronome 127⟩,
   ⟨15, 3000, none, 0, 1, .stopNote 76⟩,
   ⟨15, 3000, none, 2, 1, .stopNote 76⟩,
   ⟨0, 1500, some 500, 1, 1, .playNote 64 standardGuitar false 127⟩,
   ⟨0, 2000, none, 1, 1, .stopNote 64⟩,
   ⟨0, 1000, some 500, 0, 1, .playNote 64 standardGuitar false 127⟩,
   ⟨0, 1500, none, 0, 1, .stopNote 64⟩]

/-- The event list of `twoSystemScore`, sorted. The notes of the first system end at 1000
milliseconds, where the second system starts, and the metronome of the first system ends at
2000 milliseconds. -/
def twoSystemEvents : List MidiEvent :=
  [⟨0, 0, some 500, 0, 0, .playNote 64 standardGuitar false 127⟩,
   ⟨15, 0, some 2000, 0, 0, .metronome 127⟩,
   ⟨0, 500, none, 0, 0, .stopNote 64⟩,
   ⟨0, 500, some 500, 1, 0, .playNote 64 standardGuitar false 127⟩,
   ⟨0, 1000, none, 1, 0, .stopNote 64⟩,
   ⟨0, 1000, some 500, 0, 1, .playNote 64 standardGuitar false 127⟩,
   ⟨15, 1000, some 2000, 0, 1, .metronome 127⟩,
   ⟨0, 1500, none, 0, 1, .stopNote 64⟩,
   ⟨0, 1500, some 500, 1, 1, .playNote 64 standardGuitar false 127⟩,
   ⟨15, 2000, none, 0, 0, .stopNote 76⟩,
   ⟨15, 2000, none, 2, 0, .stopNote 76⟩,
   ⟨0, 2000, none, 1, 1, .stopNote 64⟩,
   ⟨15, 3000, none, 0, 1, .stopNote 76⟩,
   ⟨15, 3000, none, 2, 1, .stopNote 76⟩]

/-- A repeat controller that redirects to the position 4 of the system 1 whatever the
current system and position are. -/
def alwaysRepeat (controller : Unit) (_currentSystem _currentPosition : Nat) :
    Unit × Option (Nat × Nat) :=
  (controller, some (1, 4))

/-! ## Theorems: tempo resolver -/

/-- The fold of `getCurrentTempoMarker` keeps the last element that passes its test. -/
theorem foldl_keep_last (cond : TempoMarker → Prop) [DecidablePred cond]
    (l : List TempoMarker) (init : Option TempoMarker) :
    l.foldl (fun cur temp => if cond temp then some temp else cur) init =
      match (l.filter (fun m => decide (cond m))).getLast? with
      | some m => some m
      | none => init := by
  induction l generalizing init with
  | nil => simp
  | cons a l ih =>
    rw [List.foldl_cons, ih]
    by_cases h : cond a
    · simp only [h, if_true, List.filter_cons, decide_True]
      cases hl : (l.filter (fun m => decide (cond m))) with
      | nil => simp
      | cons b t =>
        have hne : (b :: t).getLast? = some ((b :: t).getLast (by simp)) :=
          List.getLast?_eq_getLast _ _
        simp only [List.getLast?_cons_cons, hne]
    · simp [h, List.filter_cons]

/-- What `getCurrentTempoMarker` computes: the last marker, in the order of the score, that
is not an alteration of pace and whose system index and position index are both at most
those of the query. -/
theorem getCurrentTempoMarker_eq_getLast? (score : Score) (s p : Nat) :
    getCurrentTempoMarker score s p =
      (score.tempoMarkers.filter (fun m =>
        decide (m.system ≤ s ∧ m.position ≤ p ∧ m.isAlterationOfPace = false))).getLast? := by
  unfold getCurrentTempoMarker
  rw [foldl_keep_last]
  cases (score.tempoMarkers.filter (fun m =>
    decide (m.system ≤ s ∧ m.position ≤ p ∧ m.isAlterationOfPace = false))).getLast? <;> rfl

/-- No marker is found exactly when every marker fails the test of the loop. -/
theorem getCurrentTempoMarker_eq_none_iff (score : Score) (s p : Nat) :
    getCurrentTempoMarker score s p = none ↔
      ∀ m ∈ score.tempoMarkers,
        ¬ (m.system ≤ s ∧ m.position ≤ p ∧ m.isAlterationOfPace = false) := by
  rw [getCurrentTempoMarker_eq_getLast?, List.getLast?_eq_none_iff, List.filter_eq_nil_iff]
  simp

/-- C7, on the code: a marker of an earlier system that stands at a position index greater
than the one of the query is not selected. With the marker `lateMarker` at position 10 of
system 0 and no other marker, the query at position 0 of system 1 finds no marker, and so
the tempo is the default one and not the one of the marker. -/
theorem getCurrentTempoMarker_earlier_system_later_position :
    lateMarker ∈ lateMarkerScore.tempoMarkers ∧ lateMarker.isAlterationOfPace = false ∧
      lateMarker.system < 1 ∧ 0 < lateMarker.position ∧
      getCurrentTempoMarker lateMarkerScore 1 0 = none := by
  decide

/-- C8: when every tempo marker of the score is an alteration of pace or lies after the query
point (in a later system, or in the same system at a greater position index), and so also
when the score has no marker, the assertion of `getCurrentTempo` is not reached and the
function returns the default tempo `60000 / DEFAULT_BEATS_PER_MINUTE * (quarter /
DEFAULT_BEAT_TYPE)`. -/
theorem getCurrentTempo_default (c : Externals) (score : Score) (s p : Nat)
    (h : ∀ m ∈ score.tempoMarkers,
      m.isAlterationOfPace = true ∨ s < m.system ∨ (m.system = s ∧ p < m.position)) :
    getCurrentTempoAssertion score s p = true ∧
      getCurrentTempo c score s p =
        60000 / (c.DEFAULT_BEATS_PER_MINUTE : ℚ) *
          ((c.quarter : ℚ) / (c.DEFAULT_BEAT_TYPE : ℚ)) := by
  have hnone : getCurrentTempoMarker score s p = none := by
    rw [getCurrentTempoMarker_eq_none_iff]
    intro m hm hcond
    rcases h m hm with h1 | h2 | h3
    · rw [hcond.2.2] at h1
      exact Bool.false_ne_true h1
    · omega
    · omega
  constructor
  · simp [getCurrentTempoAssertion, hnone]
  · simp only [getCurrentTempo, hnone]
    ring

/-- Witness of `getCurrentTempo_default`: the marker at position 10 lies after position 5 of
its system. -/
theorem getCurrentTempo_default_witness :
    getCurrentTempoAssertion lateMarkerScore 0 5 = true ∧
      getCurrentTempo sampleExternals lateMarkerScore 0 5 =
        60000 / (sampleExternals.DEFAULT_BEATS_PER_MINUTE : ℚ) *
          ((sampleExternals.quarter : ℚ) / (sampleExternals.DEFAULT_BEAT_TYPE : ℚ)) :=
  getCurrentTempo_default sampleExternals lateMarkerScore 0 5 (by decide)

/-- C9: when `getCurrentTempoMarker` selects the marker `m` for the position, with
`b = m.beatsPerMinute` not zero and `t = m.beatType`, the assertion of `getCurrentTempo`
holds, the tempo is the rational `60000 / b * (quarter / t)`, which is 500 for `b = 120` and
`t = quarter` (the constant `quarter` being not zero), and `calculateNoteDuration` returns
the notated duration of the position times that tempo. -/
theorem getCurrentTempo_of_marker (c : Externals) (score : Score) (s : Nat)
    (position : Position) (m : TempoMarker)
    (hm : getCurrentTempoMarker score s position.position = some m)
    (hb : m.beatsPerMinute ≠ 0) :
    getCurrentTempoAssertion score s position.position = true ∧
      getCurrentTempo c score s position.position =
        60000 / (m.beatsPerMinute : ℚ) * ((c.quarter : ℚ) / (m.beatType : ℚ)) ∧
      (m.beatsPerMinute = 120 → m.beatType = c.quarter → c.quarter ≠ 0 →
        getCurrentTempo c score s position.position = 500) ∧
      calculateNoteDuration c score s position =
        position.duration *
          (60000 / (m.beatsPerMinute : ℚ) * ((c.quarter : ℚ) / (m.beatType : ℚ))) := by
  have hval : getCurrentTempo c score s position.position =
      60000 / (m.beatsPerMinute : ℚ) * ((c.quarter : ℚ) / (m.beatType : ℚ)) := by
    simp only [getCurrentTempo, hm]
    ring
  refine ⟨?_, hval, ?_, ?_⟩
  · simp [getCurrentTempoAssertion, hm, hb]
  · intro h120 ht hq
    rw [hval, h120, ht]
    have hq0 : (c.quarter : ℚ) ≠ 0 := by exact_mod_cast hq
    rw [div_self hq0]
    norm_num
  · simp only [calculateNoteDuration, hval]

/-- Witness of `getCurrentTempo_of_marker`: the marker of 120 beats per minute at the start
of `restScore` governs the whole rest. -/
theorem getCurrentTempo_of_marker_witness :
    getCurrentTempoAssertion restScore 0 wholeRest.position = true ∧
      getCurrentTempo sampleExternals restScore 0 wholeRest.position =
        60000 / (firstMarker.beatsPerMinute : ℚ) *
          ((sampleExternals.quarter : ℚ) / (firstMarker.beatType : ℚ)) ∧
      (firstMarker.beatsPerMinute = 120 → firstMarker.beatType = sampleExternals.quarter →
        sampleExternals.quarter ≠ 0 →
        getCurrentTempo sampleExternals restScore 0 wholeRest.position = 500) ∧
      calculateNoteDuration sampleExternals restScore 0 wholeRest =
        wholeRest.duration *
          (60000 / (firstMarker.beatsPerMinute : ℚ) *
            ((sampleExternals.quarter : ℚ) / (firstMarker.beatType : ℚ))) :=
  getCurrentTempo_of_marker sampleExternals restScore 0 wholeRest firstMarker (by decide)
    (by decide)

/-! ## Theorems: durations and pitch -/

/-- C6: for a rest position of whole-note duration type, one pass of the position loop of
`generateEventsForSystem` advances the running start time by `tempo * 4 / beatAmount *
beatsPerMeasure`, with the time signature of the preceding barline, when the position is the
only one in its bar, and by `GetDuration() * tempo` when it is not. In a 4/4 bar governed by a
marker of 120 beats per minute with the quarter beat type, the first amount is 2000. -/
theorem positionLoopBody_whole_rest (c : Externals) (score : Score)
    (currentSystemIndex : Nat) (system : System) (staff : Staff) (voice i systemIndex : Nat)
    (guitar : Guitar) (st : VoiceLoopState) (j : Nat) (position : Position)
    (hr : position.isRest = true) (hw : position.durationType = 1) :
    (positionLoopBody c score currentSystemIndex system staff voice i systemIndex guitar st j
        position).startTime =
      st.startTime +
        (if c.IsOnlyPositionInBar staff position system = true then
          getCurrentTempo c score currentSystemIndex position.position * 4 /
              ((system.GetPrecedingBarline position.position).timeSignature.beatAmount.val : ℚ) *
            ((system.GetPrecedingBarline position.position).timeSignature.beatsPerMeasure.val : ℚ)
        else position.duration * getCurrentTempo c score currentSystemIndex position.position) ∧
    (∀ m : TempoMarker,
      getCurrentTempoMarker score currentSystemIndex position.position = some m →
      m.beatsPerMinute = 120 → m.beatType = c.quarter → c.quarter ≠ 0 →
      (system.GetPrecedingBarline position.position).timeSignature.beatAmount.val = 4 →
      (system.GetPrecedingBarline position.position).timeSignature.beatsPerMeasure.val = 4 →
      c.IsOnlyPositionInBar staff position system = true →
      (positionLoopBody c score currentSystemIndex system staff voice i systemIndex guitar st j
        position).startTime = st.startTime + 2000) := by
  have hstep : (positionLoopBody c score currentSystemIndex system staff voice i systemIndex
      guitar st j position).startTime =
      st.startTime +
        (if c.IsOnlyPositionInBar staff position system = true then
          getCurrentTempo c score currentSystemIndex position.position * 4 /
              ((system.GetPrecedingBarline position.position).timeSignature.beatAmount.val : ℚ) *
            ((system.GetPrecedingBarline position.position).timeSignature.beatsPerMeasure.val : ℚ)
        else position.duration *
          getCurrentTempo c score currentSystemIndex position.position) := by
    simp only [positionLoopBody, hr, hw, if_true, getWholeRestDuration, calculateNoteDuration]
    cases hb : c.IsOnlyPositionInBar staff position system <;> simp
  refine ⟨hstep, ?_⟩
  intro m hm h120 ht hq hba hbm honly
  have hq0 : (c.quarter : ℚ) ≠ 0 := by exact_mod_cast hq
  have htempo : getCurrentTempo c score currentSystemIndex position.position = 500 := by
    simp only [getCurrentTempo, hm, h120, ht]
    rw [div_self hq0]
    norm_num
  rw [hstep, honly, htempo, hba, hbm]
  norm_num

/-- Witness of `positionLoopBody_whole_rest`: the whole rest of `restScore` is alone in its
4/4 bar at 120 beats per minute, and the pass advances the start time from 0 to 2000. -/
theorem positionLoopBody_whole_rest_witness :
    (positionLoopBody sampleExternals restScore 0 restSystem restStaff 0 0 0 standardGuitar
        { startTime := 0, endTime := 0, eventList := [] } 0 wholeRest).startTime = 0 + 2000 :=
  (positionLoopBody_whole_rest sampleExternals restScore 0 restSystem restStaff 0 0 0
    standardGuitar { startTime := 0, endTime := 0, eventList := [] } 0 wholeRest rfl rfl).2
      firstMarker (by decide) rfl rfl (by decide) rfl rfl rfl

/-- C10: for a note with no natural, tapped or artificial harmonic, every `PlayNoteEvent` and
every `StopNoteEvent` that `generateEventsForSystem` pushes for the note carries the pitch
`tuning.GetNote(string) + capo + fret number`. -/
theorem noteEvents_pitch_without_harmonic (c : Externals) (staff : Staff)
    (voice j i systemIndex : Nat) (guitar : Guitar) (position : Position)
    (startTime duration : ℚ) (note : Note)
    (hn : note.isNaturalHarmonic = false) (ht : note.tappedHarmonic = none)
    (ha : note.artificialHarmonic = none) :
    ∀ e ∈ noteEvents c staff voice j i systemIndex guitar position startTime duration note,
      e.isPlayNote = true ∨ e.isStopNote = true →
        e.pitch? =
          some ((guitar.tuning note.string).val + guitar.capo.val + note.fretNumber.val) := by
  have hp : notePitch c guitar note =
      (guitar.tuning note.string).val + guitar.capo.val + note.fretNumber.val := by
    simp [notePitch, hn, ht, ha]
  intro e he hkind
  simp only [noteEvents, List.mem_append] at he
  rcases he with (he | he) | he
  · split at he
    · simp only [List.mem_singleton] at he
      subst he
      simp [MidiEvent.pitch?, hp]
    · simp at he
  · split at he
    · simp only [List.mem_cons, List.mem_singleton, List.not_mem_nil, or_false] at he
      rcases he with he | he <;> subst he <;>
        simp [MidiEvent.isPlayNote, MidiEvent.isStopNote] at hkind
    · simp at he
  · split at he
    · simp only [List.mem_singleton] at he
      subst he
      simp [MidiEvent.pitch?, hp]
    · simp at he

/-- Witness of `noteEvents_pitch_without_harmonic`: the open first string of `standardGuitar`,
played for 500 ms from time 0, gives a `PlayNoteEvent` of pitch 64. -/
theorem noteEvents_pitch_without_harmonic_witness :
    (⟨0, 0, some 500, 1, 0, .playNote 64 standardGuitar false 127⟩ : MidiEvent).pitch? =
      some ((standardGuitar.tuning 0).val + standardGuitar.capo.val + (0 : Byte).val) :=
  noteEvents_pitch_without_harmonic sampleExternals restStaff 0 0 0 0 standardGuitar
    quarterNote 0 500 { string := 0, fretNumber := 0 } rfl rfl rfl _
    (by simp [noteEvents, notePitch, noteVelocity, tiedToNextNote,
      Staff.GetAdjacentNoteOnString, restStaff, sampleExternals, standardGuitar, quarterNote,
      wholeRest]
        rfl)
    (Or.inl rfl)

/-! ## Theorems: event scheduler -/

/-- The comparison of `CompareEvents` does not put `b` before `a` exactly when `a` starts
earlier, or at the same time with a kind of at most the rank of the kind of `b`. -/
theorem compareEvents_eq_false_iff (c : Externals) (a b : MidiEvent) :
    CompareEvents c b a = false ↔
      a.startTime < b.startTime ∨
        (a.startTime = b.startTime ∧ a.kindRank c ≤ b.kindRank c) := by
  simp only [CompareEvents, MidiEvent.lt, Bool.or_eq_false_iff, Bool.and_eq_false_iff,
    decide_eq_false_iff_not, not_lt]
  constructor
  · rintro ⟨hle, h⟩
    rcases lt_or_eq_of_le hle with hlt | heq
    · exact Or.inl hlt
    · rcases h with h | h
      · exact absurd heq.symm h
      · exact Or.inr ⟨heq, h⟩
  · rintro (hlt | ⟨heq, hr⟩)
    · exact ⟨le_of_lt hlt, Or.inl (ne_of_gt hlt)⟩
    · exact ⟨le_of_eq heq, Or.inr hr⟩

/-- Two events are always comparable in the order that `listSort` builds from
`CompareEvents`. -/
theorem compareEvents_total (c : Externals) (a b : MidiEvent) :
    CompareEvents c b a = false ∨ CompareEvents c a b = false := by
  rw [compareEvents_eq_false_iff, compareEvents_eq_false_iff]
  rcases lt_trichotomy a.startTime b.startTime with h | h | h
  · exact Or.inl (Or.inl h)
  · rcases Nat.le_total (a.kindRank c) (b.kindRank c) with hr | hr
    · exact Or.inl (Or.inr ⟨h, hr⟩)
    · exact Or.inr (Or.inr ⟨h.symm, hr⟩)
  · exact Or.inr (Or.inl h)

/-- The order that `listSort` builds from `CompareEvents` is transitive. -/
theorem compareEvents_trans (c : Externals) (a b d : MidiEvent)
    (hab : CompareEvents c b a = false) (hbd : CompareEvents c d b = false) :
    CompareEvents c d a = false := by
  rw [compareEvents_eq_false_iff] at hab hbd ⊢
  rcases hab with h1 | ⟨h1, r1⟩ <;> rcases hbd with h2 | ⟨h2, r2⟩
  · exact Or.inl (lt_trans h1 h2)
  · exact Or.inl (h2 ▸ h1)
  · exact Or.inl (h1 ▸ h2)
  · exact Or.inr ⟨h1.trans h2, Nat.le_trans r1 r2⟩

/-- The list that `listSort` returns for `CompareEvents` is sorted: no event is put before an
earlier element of the list by the comparison. -/
theorem listSort_compareEvents_sorted (c : Externals) (l : List MidiEvent) :
    (listSort (CompareEvents c) l).Pairwise (fun a b => CompareEvents c b a = false) :=
  @List.sorted_insertionSort MidiEvent (fun a b => CompareEvents c b a = false) _
    ⟨compareEvents_total c⟩ ⟨compareEvents_trans c⟩ l

/-- The list that `listSort` returns has the elements of its argument. -/
theorem mem_listSort {α : Type} (comp : α → α → Bool) (l : List α) (a : α) :
    a ∈ listSort comp l ↔ a ∈ l :=
  (List.perm_insertionSort _ l).mem_iff

/-- The list of `runEventList` is the sorted list of the events of `systemLoop`. -/
theorem runEventList_eq_some_iff (c : Externals) (score : Score) (evs : List MidiEvent) :
    runEventList c score = some evs ↔
      ∃ generated, systemLoop c score 0 score.systems 0 [] = some generated ∧
        evs = listSort (CompareEvents c) generated := by
  unfold runEventList
  cases systemLoop c score 0 score.systems 0 [] with
  | none => simp
  | some generated =>
    simp only [Option.some.injEq, exists_eq_left']
    exact eq_comm

/-- C1: the event list that `run` passes to `playMidiEvents` is non-decreasing in start
timestamp: each event starts no later than the event that follows it. -/
theorem runEventList_startTime_nondecreasing (c : Externals) (score : Score)
    (evs : List MidiEvent) (h : runEventList c score = some evs) :
    evs.Chain' (fun e1 e2 => e1.startTime ≤ e2.startTime) := by
  obtain ⟨generated, -, rfl⟩ := (runEventList_eq_some_iff c score evs).mp h
  have hsorted := listSort_compareEvents_sorted c generated
  refine List.Pairwise.chain' (hsorted.imp ?_)
  intro a b hab
  rcases (compareEvents_eq_false_iff c a b).mp hab with hlt | ⟨heq, -⟩
  · exact le_of_lt hlt
  · exact le_of_eq heq

/-- C2: in the event list that `run` passes to `playMidiEvents`, a `StopNoteEvent` and a
`PlayNoteEvent` of equal start timestamp, pitch and channel are in this order: the index of
the stop event is smaller than the index of the play event. -/
theorem runEventList_stop_before_play (c : Externals) (score : Score)
    (evs : List MidiEvent) (h : runEventList c score = some evs) (i j : Nat)
    (play stop : MidiEvent) (hplay : evs[i]? = some play) (hstop : evs[j]? = some stop)
    (hp : play.isPlayNote = true) (hs : stop.isStopNote = true)
    (htime : stop.startTime = play.startTime) (_hpitch : stop.pitch? = play.pitch?)
    (_hchannel : stop.channel = play.channel) :
    j < i := by
  obtain ⟨generated, -, rfl⟩ := (runEventList_eq_some_iff c score evs).mp h
  have hsorted := listSort_compareEvents_sorted c generated
  have hrank : stop.kindRank c < play.kindRank c := by
    unfold MidiEvent.isPlayNote at hp
    unfold MidiEvent.isStopNote at hs
    unfold MidiEvent.kindRank
    cases hk : play.kind <;> cases hk2 : stop.kind <;> simp_all
  by_contra hji
  have hij : i ≤ j := Nat.le_of_not_lt hji
  rcases Nat.lt_or_eq_of_le hij with hlt | heq
  · have hrel := (List.pairwise_iff_getElem.mp hsorted) i j
      (by
        by_contra hlen
        rw [List.getElem?_eq_none (Nat.le_of_not_lt hlen)] at hplay
        exact Option.noConfusion hplay)
      (by
        by_contra hlen
        rw [List.getElem?_eq_none (Nat.le_of_not_lt hlen)] at hstop
        exact Option.noConfusion hstop)
      hlt
    rw [List.getElem?_eq_some_iff] at hplay hstop
    obtain ⟨_, hplay⟩ := hplay
    obtain ⟨_, hstop⟩ := hstop
    rw [hplay, hstop, compareEvents_eq_false_iff] at hrel
    rcases hrel with hlt2 | ⟨-, hr⟩
    · rw [htime] at hlt2
      exact lt_irrefl _ hlt2
    · omega
  · subst heq
    rw [hplay] at hstop
    injection hstop with hstop
    subst hstop
    omega

set_option maxRecDepth 1000000 in
/-- The run on `twoVoiceScore` passes the list `twoVoiceEvents` to `playMidiEvents`. -/
theorem runEventList_twoVoiceScore :
    runEventList sampleExternals twoVoiceScore = some twoVoiceEvents := by
  with_unfolding_all rfl

/-- Witness of `runEventList_startTime_nondecreasing`: the seven events of `twoVoiceScore`. -/
theorem runEventList_startTime_nondecreasing_witness :
    twoVoiceEvents.Chain' (fun e1 e2 => e1.startTime ≤ e2.startTime) :=
  runEventList_startTime_nondecreasing sampleExternals twoVoiceScore twoVoiceEvents
    runEventList_twoVoiceScore

/-- Witness of `runEventList_stop_before_play`: in `twoVoiceEvents` the second voice stops its
note at 500 ms, where the first voice plays the same pitch on the same channel; the play
event is generated first and sorted behind the stop event. -/
theorem runEventList_stop_before_play_witness :
    twoVoiceEvents[3]? = some ⟨0, 500, some 500, 1, 0, .playNote 64 standardGuitar false 127⟩ ∧
      twoVoiceEvents[2]? = some ⟨0, 500, none, 0, 0, .stopNote 64⟩ ∧ 2 < 3 :=
  ⟨rfl, rfl,
    runEventList_stop_before_play sampleExternals twoVoiceScore twoVoiceEvents
      runEventList_twoVoiceScore 3 2
      ⟨0, 500, some 500, 1, 0, .playNote 64 standardGuitar false 127⟩
      ⟨0, 500, none, 0, 0, .stopNote 64⟩ rfl rfl rfl rfl rfl rfl rfl⟩

/-- The generation of the metronome of a system returns when no bar has zero pulses. -/
theorem barlineLoop_isSome (c : Externals) (score : Score)
    (currentSystemIndex systemIndex : Nat) (barlines : List Barline)
    (h : ∀ b ∈ barlines, b.timeSignature.pulses.val ≠ 0) (startTime : ℚ)
    (eventList : List MidiEvent) :
    (barlineLoop c score currentSystemIndex systemIndex barlines startTime eventList).isSome
      = true := by
  induction barlines generalizing startTime eventList with
  | nil => rfl
  | cons b rest ih =>
    have hb : b.timeSignature.pulses.val ≠ 0 := h b (List.mem_cons_self _ _)
    simp only [barlineLoop, hb, if_false]
    exact ih (fun b2 hb2 => h b2 (List.mem_cons_of_mem _ hb2)) _ _

/-- The generation returns an event list for every score in which no bar has a time signature
of zero pulses, the end bars apart. -/
theorem runEventList_isSome (c : Externals) (score : Score)
    (h : ∀ system ∈ score.systems, ∀ b ∈ system.GetBarlines.dropLast,
      b.timeSignature.pulses.val ≠ 0) :
    (runEventList c score).isSome = true := by
  have hloop : ∀ (systems : List System) (n : Nat) (t : ℚ) (evs : List MidiEvent),
      (∀ system ∈ systems, ∀ b ∈ system.GetBarlines.dropLast,
        b.timeSignature.pulses.val ≠ 0) →
      (systemLoop c score n systems t evs).isSome = true := by
    intro systems
    induction systems with
    | nil => intro n t evs _; rfl
    | cons system rest ih =>
      intro n t evs hs
      have hb := barlineLoop_isSome c score n n system.GetBarlines.dropLast
        (hs system (List.mem_cons_self _ _)) t evs
      obtain ⟨r, hr⟩ := Option.isSome_iff_exists.mp hb
      simp only [systemLoop, generateMetronome, hr]
      exact ih _ _ _ (fun s2 hs2 => hs s2 (List.mem_cons_of_mem _ hs2))
  have h0 := hloop score.systems 0 0 [] h
  obtain ⟨r, hr⟩ := Option.isSome_iff_exists.mp h0
  simp [runEventList, hr]

/-! ## Theorems: playback loop -/

/-- C5: when the flag `isPlaying` is false at the start of a pass of the loop of
`playMidiEvents`, the run emits no further signal and hands no further event to the MIDI
transport, whatever the event under the cursor and the events after it; when the cursor is
on an event, the run ends as stopped. -/
theorem playbackLoop_stops_when_not_playing {σ : Type}
    (checkForRepeat : σ → Nat → Nat → σ × Option (Nat × Nat)) (isPlaying : Nat → Bool)
    (eventList : List MidiEvent) (fuel n : Nat) (st : PlaybackState σ)
    (hflag : isPlaying n = false) :
    (playbackLoop checkForRepeat isPlaying eventList (fuel + 1) n st).1 = [] ∧
      (st.playbackPos < eventList.length →
        (playbackLoop checkForRepeat isPlaying eventList (fuel + 1) n st).2 =
          PlaybackEnd.stopped) := by
  cases hcur : eventList[st.playbackPos]? with
  | none =>
    refine ⟨by simp [playbackLoop, playbackIteration, hcur], ?_⟩
    intro hlt
    rw [List.getElem?_eq_getElem hlt] at hcur
    exact Option.noConfusion hcur
  | some activeEvent =>
    simp [playbackLoop, playbackIteration, hcur, hflag]

/-- Witness of `playbackLoop_stops_when_not_playing`: a stop flag that is set from the third
pass on, with the cursor on the third event of `twoVoiceEvents`. -/
theorem playbackLoop_stops_when_not_playing_witness :
    (playbackLoop neverRepeat (fun n => decide (n < 2)) twoVoiceEvents (7 + 1) 2
        { playbackPos := 2, startSystem := 0, startPos := 0, currentPosition := 0,
          currentSystem := 0, repeatController := () }).1 = [] ∧
      (playbackLoop neverRepeat (fun n => decide (n < 2)) twoVoiceEvents (7 + 1) 2
        { playbackPos := 2, startSystem := 0, startPos := 0, currentPosition := 0,
          currentSystem := 0, repeatController := () }).2 = PlaybackEnd.stopped :=
  ⟨(playbackLoop_stops_when_not_playing neverRepeat (fun n => decide (n < 2)) twoVoiceEvents
      7 2 _ (by decide)).1,
    (playbackLoop_stops_when_not_playing neverRepeat (fun n => decide (n < 2)) twoVoiceEvents
      7 2 _ (by decide)).2 (by decide)⟩

/-- Once the resume point is cleared, no event is skipped. -/
theorem dropWhile_skippedBeforeResume_zero (l : List MidiEvent) :
    l.dropWhile (skippedBeforeResume 0 0) = l := by
  cases l with
  | nil => rfl
  | cons a t => simp [List.dropWhile, skippedBeforeResume]

/-- The performed events of two runs of signals, one after the other. -/
theorem performedEvents_append (l1 l2 : List Signal) :
    performedEvents (l1 ++ l2) = performedEvents l1 ++ performedEvents l2 := by
  simp [performedEvents, List.filterMap_append]

/-- A pass on an event that the resume point skips moves the cursor and does nothing else. -/
theorem playbackIteration_skip {σ : Type}
    (checkForRepeat : σ → Nat → Nat → σ × Option (Nat × Nat)) (eventList : List MidiEvent)
    (st : PlaybackState σ) (activeEvent : MidiEvent)
    (hcur : eventList[st.playbackPos]? = some activeEvent)
    (hskip : skippedBeforeResume st.startSystem st.startPos activeEvent = true) :
    playbackIteration checkForRepeat eventList true st =
      .next { st with playbackPos := st.playbackPos + 1 } [] := by
  have h : activeEvent.systemIndex < st.startSystem ∨
      activeEvent.positionIndex < st.startPos := by
    simpa [skippedBeforeResume] using hskip
  simp [playbackIteration, hcur, h]

/-- A pass on an event that the resume point does not skip, when the repeat controller does
not redirect: the event is performed, the resume point is cleared and the cursor moves
on. -/
theorem playbackIteration_dispatch {σ : Type}
    (checkForRepeat : σ → Nat → Nat → σ × Option (Nat × Nat))
    (hno : ∀ s system position, (checkForRepeat s system position).2 = none)
    (eventList : List MidiEvent) (st : PlaybackState σ) (activeEvent : MidiEvent)
    (hcur : eventList[st.playbackPos]? = some activeEvent)
    (hskip : skippedBeforeResume st.startSystem st.startPos activeEvent = false) :
    ∃ st1 out, playbackIteration checkForRepeat eventList true st = .next st1 out ∧
      st1.playbackPos = st.playbackPos + 1 ∧ st1.startSystem = 0 ∧ st1.startPos = 0 ∧
      performedEvents out = [activeEvent] := by
  have h : ¬ (activeEvent.systemIndex < st.startSystem ∨
      activeEvent.positionIndex < st.startPos) := by
    simpa [skippedBeforeResume] using hskip
  simp only [playbackIteration, hcur, h, if_false, Bool.true_eq_false]
  split
  · next controller newSystem newPos hcheck =>
    have := hno st.repeatController
      (if decide (activeEvent.systemIndex ≠ st.currentSystem) = true then
        activeEvent.systemIndex else st.currentSystem)
      (if decide (activeEvent.systemIndex ≠ st.currentSystem) = true then 0
        else if decide (activeEvent.positionIndex > st.currentPosition) = true then
          activeEvent.positionIndex else st.currentPosition)
    rw [hcheck] at this
    exact Option.noConfusion this
  · next controller hcheck =>
    refine ⟨_, _, rfl, rfl, rfl, rfl, ?_⟩
    simp only [performedEvents_append]
    have h1 : ∀ p : Nat, performedEvents
        (if decide (activeEvent.positionIndex > st.currentPosition) = true then
          [Signal.playbackPositionChanged p] else []) = [] := by
      intro p
      split <;> rfl
    have h2 : ∀ s : Nat, performedEvents
        (if decide (activeEvent.systemIndex ≠ st.currentSystem) = true then
          [Signal.playbackSystemChanged s] else []) = [] := by
      intro s
      split <;> rfl
    rw [h1, h2]
    cases eventList[st.playbackPos + 1]? <;> rfl

/-- The events that are performed from a state of the loop on, when the repeat controller
never redirects: they are the first of the events that remain once the events under and
after the cursor that the resume point of the state skips are dropped, and all of them when
the flag stays true and the passes suffice. -/
theorem playbackLoop_performed {σ : Type}
    (checkForRepeat : σ → Nat → Nat → σ × Option (Nat × Nat))
    (hno : ∀ s system position, (checkForRepeat s system position).2 = none)
    (isPlaying : Nat → Bool) (eventList : List MidiEvent) (fuel n : Nat)
    (st : PlaybackState σ) :
    (∃ rest,
      performedEvents (playbackLoop checkForRepeat isPlaying eventList fuel n st).1 ++ rest =
        (eventList.drop st.playbackPos).dropWhile
          (skippedBeforeResume st.startSystem st.startPos)) ∧
    ((∀ k, isPlaying k = true) → st.playbackPos ≤ eventList.length →
      eventList.length < st.playbackPos + fuel →
      performedEvents (playbackLoop checkForRepeat isPlaying eventList fuel n st).1 =
          (eventList.drop st.playbackPos).dropWhile
            (skippedBeforeResume st.startSystem st.startPos) ∧
        (playbackLoop checkForRepeat isPlaying eventList fuel n st).2 =
          PlaybackEnd.finished) := by
  induction fuel generalizing n st with
  | zero =>
    refine ⟨⟨_, List.nil_append _⟩, ?_⟩
    intro _ hle hlen
    omega
  | succ fuel ih =>
    cases hcur : eventList[st.playbackPos]? with
    | none =>
      have hdrop : eventList.drop st.playbackPos = [] :=
        List.drop_eq_nil_of_le (List.getElem?_eq_none_iff.mp hcur)
      simp [playbackLoop, playbackIteration, hcur, hdrop, performedEvents]
    | some activeEvent =>
      have hlt : st.playbackPos < eventList.length := by
        by_contra hge
        rw [List.getElem?_eq_none (Nat.le_of_not_lt hge)] at hcur
        exact Option.noConfusion hcur
      have hget : eventList[st.playbackPos] = activeEvent := by
        rw [List.getElem?_eq_getElem hlt] at hcur
        exact Option.some.inj hcur
      have hdrop : eventList.drop st.playbackPos =
          activeEvent :: eventList.drop (st.playbackPos + 1) := by
        rw [← hget]
        exact List.drop_eq_getElem_cons hlt
      cases hflag : isPlaying n with
      | false =>
        refine ⟨⟨_, by
          simp only [playbackLoop, playbackIteration, hcur, hflag, if_true]
          exact List.nil_append _⟩, ?_⟩
        intro hall
        rw [hall n] at hflag
        exact Bool.noConfusion hflag
      | true =>
        cases hs : skippedBeforeResume st.startSystem st.startPos activeEvent with
        | true =>
          have hstep := playbackIteration_skip checkForRepeat eventList st activeEvent hcur hs
          have ih1 := ih (n + 1) { st with playbackPos := st.playbackPos + 1 }
          simp only [playbackLoop, hflag, hstep, List.nil_append, hdrop, List.dropWhile_cons, hs]
          refine ⟨ih1.1, ?_⟩
          intro hall _ hlen
          exact ih1.2 hall (by simp only; omega) (by simp only; omega)
        | false =>
          obtain ⟨st1, out, hstep, hpos, hsys, hstart, hout⟩ :=
            playbackIteration_dispatch checkForRepeat hno eventList st activeEvent hcur hs
          have ih1 := ih (n + 1) st1
          rw [hpos, hsys, hstart, dropWhile_skippedBeforeResume_zero] at ih1
          simp only [playbackLoop, hflag, hstep, hdrop, List.dropWhile_cons, hs,
            performedEvents_append, hout]
          refine ⟨?_, ?_⟩
          · obtain ⟨rest, hrest⟩ := ih1.1
            exact ⟨rest, by simp [hrest]⟩
          · intro hall _ hlen
            have h2 := ih1.2 hall (by omega) (by omega)
            exact ⟨by simp [h2.1], h2.2⟩

/-- C4, as the code has it: when the repeat controller never redirects, the events that
`playMidiEvents` performs are, in the order of the list, the first of the events that start
with the first event whose system index is at least `startSystem` and whose position index is
at least `startPos`; they are all of these events when the flag `isPlaying` stays true and
the passes suffice. So no event is performed that stands in the list before that first
event, and the events after it are performed whatever their system and position. -/
theorem playMidiEvents_performs_from_resume_point {σ : Type}
    (checkForRepeat : σ → Nat → Nat → σ × Option (Nat × Nat))
    (hno : ∀ s system position, (checkForRepeat s system position).2 = none)
    (controller : σ) (isPlaying : Nat → Bool) (eventList : List MidiEvent)
    (startSystem startPos fuel : Nat) :
    (∃ rest,
      performedEvents (playMidiEvents checkForRepeat controller isPlaying eventList
          startSystem startPos fuel).1 ++ rest =
        eventList.dropWhile (skippedBeforeResume startSystem startPos)) ∧
    ((∀ k, isPlaying k = true) → eventList.length < fuel →
      performedEvents (playMidiEvents checkForRepeat controller isPlaying eventList
          startSystem startPos fuel).1 =
        eventList.dropWhile (skippedBeforeResume startSystem startPos) ∧
      (playMidiEvents checkForRepeat controller isPlaying eventList
          startSystem startPos fuel).2 = PlaybackEnd.finished) := by
  have h := playbackLoop_performed checkForRepeat hno isPlaying eventList fuel 0
    { playbackPos := 0
      startSystem := startSystem
      startPos := startPos
      currentPosition := 0
      currentSystem := 0
      repeatController := controller }
  simp only [List.drop_zero] at h
  refine ⟨h.1, ?_⟩
  intro hall hlen
  exact h.2 hall (Nat.zero_le _) (by omega)

/-- Witness of `playMidiEvents_performs_from_resume_point`: playback of `twoVoiceEvents` from
position 1 of system 0 performs the events from the fourth one on. -/
theorem playMidiEvents_performs_from_resume_point_witness :
    performedEvents (playMidiEvents neverRepeat () (fun _ => true) twoVoiceEvents 0 1 8).1 =
        twoVoiceEvents.dropWhile (skippedBeforeResume 0 1) ∧
      (playMidiEvents neverRepeat () (fun _ => true) twoVoiceEvents 0 1 8).2 =
        PlaybackEnd.finished :=
  (playMidiEvents_performs_from_resume_point neverRepeat (fun _ _ _ => rfl) ()
    (fun _ => true) twoVoiceEvents 0 1 8).2 (fun _ => rfl) (by decide)

set_option maxRecDepth 1000000 in
/-- The events that playback of `twoVoiceEvents` from position 1 of system 0 performs. -/
theorem performedEvents_twoVoiceEvents :
    performedEvents (playMidiEvents neverRepeat () (fun _ => true) twoVoiceEvents 0 1 8).1 =
      [⟨0, 500, some 500, 1, 0, .playNote 64 standardGuitar false 127⟩,
       ⟨0, 1000, none, 1, 0, .stopNote 64⟩,
       ⟨15, 2000, none, 0, 0, .stopNote 76⟩,
       ⟨15, 2000, none, 2, 0, .stopNote 76⟩] := by
  with_unfolding_all rfl

/-- C4, counterexample: the sorted event list of `twoVoiceScore`, played from position 1 of
system 0 with a repeat controller that never redirects. The stop event of the metronome at
position 0 of system 0, which precedes the resume point, comes in the list after the first
event of position 1 and is performed. -/
theorem playMidiEvents_performs_event_before_resume_point :
    runEventList sampleExternals twoVoiceScore = some twoVoiceEvents ∧
      ∃ e ∈ performedEvents
          (playMidiEvents neverRepeat () (fun _ => true) twoVoiceEvents 0 1 8).1,
        e.systemIndex = 0 ∧ e.positionIndex < 1 := by
  refine ⟨runEventList_twoVoiceScore, ⟨15, 2000, none, 0, 0, .stopNote 76⟩, ?_, rfl, ?_⟩
  · rw [performedEvents_twoVoiceEvents]
    simp
  · decide

/-! ## Theorems: event generator -/

/-- The entries of the table `harmonicPitches` that `initHarmonicPitches` assigns. -/
theorem harmonicPitches_table :
    harmonicPitches 3 = 31 ∧ harmonicPitches 4 = 28 ∧ harmonicPitches 5 = 24 ∧
      harmonicPitches 7 = 19 ∧ harmonicPitches 9 = 28 ∧ harmonicPitches 12 = 12 ∧
      harmonicPitches 16 = 28 ∧ harmonicPitches 19 = 19 ∧ harmonicPitches 24 = 24 ∧
      harmonicPitches 28 = 28 := by
  decide

/-- C11: for a natural-harmonic note with no tapped and no artificial harmonic at a fret `f`
that `initHarmonicPitches` tabulates, with the open-string pitch `o = tuning note + capo` and
`o + harmonicPitches f < 256`, the pitch is `o + harmonicPitches f`: the fret number is not
added, fret 12 gives `o + 12`, and the table is 3 -> 31, 4 -> 28, 5 -> 24, 7 -> 19, 9 -> 28,
12 -> 12, 16 -> 28, 19 -> 19, 24 -> 24, 28 -> 28. -/
theorem notePitch_natural_harmonic (c : Externals) (guitar : Guitar) (note : Note)
    (hn : note.isNaturalHarmonic = true) (ht : note.tappedHarmonic = none)
    (ha : note.artificialHarmonic = none)
    (_hf : note.fretNumber.val ∈ [3, 4, 5, 7, 9, 12, 16, 19, 24, 28])
    (hfit : (guitar.tuning note.string).val + guitar.capo.val +
      harmonicPitches note.fretNumber.val < 256) :
    notePitch c guitar note =
        (guitar.tuning note.string).val + guitar.capo.val +
          harmonicPitches note.fretNumber.val ∧
      (note.fretNumber.val = 12 →
        notePitch c guitar note = (guitar.tuning note.string).val + guitar.capo.val + 12) ∧
      (harmonicPitches 3 = 31 ∧ harmonicPitches 4 = 28 ∧ harmonicPitches 5 = 24 ∧
        harmonicPitches 7 = 19 ∧ harmonicPitches 9 = 28 ∧ harmonicPitches 12 = 12 ∧
        harmonicPitches 16 = 28 ∧ harmonicPitches 19 = 19 ∧ harmonicPitches 24 = 24 ∧
        harmonicPitches 28 = 28) := by
  have hfret : note.fretNumber.val % 256 = note.fretNumber.val :=
    Nat.mod_eq_of_lt note.fretNumber.isLt
  have hp : notePitch c guitar note =
      (guitar.tuning note.string).val + guitar.capo.val +
        harmonicPitches note.fretNumber.val := by
    simp only [notePitch, hn, ht, ha, if_true, getHarmonicPitch, hfret]
    have ho : ((guitar.tuning note.string).val + guitar.capo.val) % 256 =
        (guitar.tuning note.string).val + guitar.capo.val :=
      Nat.mod_eq_of_lt (by omega)
    rw [ho]
    exact Nat.mod_eq_of_lt hfit
  refine ⟨hp, ?_, harmonicPitches_table⟩
  intro h12
  rw [hp, h12]
  rfl

/-- Witness of `notePitch_natural_harmonic`: the natural harmonic at fret 12 of the first
string of `standardGuitar`, whose open pitch is 64. -/
theorem notePitch_natural_harmonic_witness :
    notePitch sampleExternals standardGuitar naturalHarmonicNote = 64 + 0 + 12 :=
  ((notePitch_natural_harmonic sampleExternals standardGuitar naturalHarmonicNote rfl rfl rfl
    (by decide) (by decide)).2.1 rfl)

/-- C12: for a note with a tapped harmonic at the tapped fret `T`, with fret number `f` and no
artificial harmonic, the pitch is `P + harmonicPitches ((T - f) mod 256)` reduced to 8 bits,
where `P` is the pitch that is computed for the note without the tapped harmonic: the fretted
pitch, or the pitch of the natural harmonic when the note is one. -/
theorem notePitch_tapped_harmonic (c : Externals) (guitar : Guitar) (note : Note) (T : Byte)
    (ht : note.tappedHarmonic = some T) (ha : note.artificialHarmonic = none) :
    notePitch c guitar note =
        (notePitch c guitar { note with tappedHarmonic := none } +
          harmonicPitches ((((T.val : ℤ) - (note.fretNumber.val : ℤ)) % 256).toNat)) % 256 ∧
      notePitch c guitar { note with tappedHarmonic := none } =
        (if note.isNaturalHarmonic = true then
          getHarmonicPitch ((guitar.tuning note.string).val + guitar.capo.val)
            note.fretNumber.val
        else (guitar.tuning note.string).val + guitar.capo.val + note.fretNumber.val) := by
  have hT := T.isLt
  have hf := note.fretNumber.isLt
  have hkey : (((T.val : ℤ) - (note.fretNumber.val : ℤ)) % 256).toNat =
      (T.val + 256 - note.fretNumber.val) % 256 := by
    omega
  have hP : notePitch c guitar { note with tappedHarmonic := none } =
      (if note.isNaturalHarmonic = true then
        getHarmonicPitch ((guitar.tuning note.string).val + guitar.capo.val)
          note.fretNumber.val
      else (guitar.tuning note.string).val + guitar.capo.val + note.fretNumber.val) := by
    simp only [notePitch, ha]
  refine ⟨?_, hP⟩
  rw [hkey, hP]
  simp only [notePitch, ht, ha, getHarmonicPitch]
  rw [Nat.mod_mod, Nat.mod_add_mod]

/-- Witness of `notePitch_tapped_harmonic`: fret 5 tapped at fret 17 on the first string of
`standardGuitar`; the key of the table is 12 and the pitch is 64 + 5 + 12. -/
theorem notePitch_tapped_harmonic_witness :
    notePitch sampleExternals standardGuitar tappedHarmonicNote =
      (notePitch sampleExternals standardGuitar
          { tappedHarmonicNote with tappedHarmonic := none } +
        harmonicPitches ((((17 : Byte).val : ℤ) -
          (tappedHarmonicNote.fretNumber.val : ℤ)) % 256).toNat) % 256 :=
  (notePitch_tapped_harmonic sampleExternals standardGuitar tappedHarmonicNote 17 rfl rfl).1

/-- C13: for a note with an artificial harmonic of key `key`, key variation `keyVariation`
and octave difference `octaveDiff`, the pitch is the value of `(GetMidiNoteOctave(P) +
octaveDiff + 2) * 12 + key` as a `quint32`, where `P` is the pitch that is computed for the
note without the artificial harmonic; it is this number itself when the number is not
negative and below `2 ^ 32`. The pitch does not depend on the key variation, and it is the
same for two notes with the same artificial harmonic whose pitches `P` have the same
octave. -/
theorem notePitch_artificial_harmonic (c : Externals) (guitar : Guitar) (note : Note)
    (key keyVariation octaveDiff : Byte)
    (ha : note.artificialHarmonic = some (key, keyVariation, octaveDiff)) :
    ((notePitch c guitar note : ℕ) : ℤ) =
        ((c.GetMidiNoteOctave (notePitch c guitar { note with artificialHarmonic := none }) +
            (octaveDiff.val : ℤ) + 2) * 12 + (key.val : ℤ)) % (2 ^ 32 : ℤ) ∧
      (0 ≤ (c.GetMidiNoteOctave (notePitch c guitar { note with artificialHarmonic := none }) +
            (octaveDiff.val : ℤ) + 2) * 12 + (key.val : ℤ) →
        (c.GetMidiNoteOctave (notePitch c guitar { note with artificialHarmonic := none }) +
            (octaveDiff.val : ℤ) + 2) * 12 + (key.val : ℤ) < 2 ^ 32 →
        ((notePitch c guitar note : ℕ) : ℤ) =
          (c.GetMidiNoteOctave (notePitch c guitar { note with artificialHarmonic := none }) +
            (octaveDiff.val : ℤ) + 2) * 12 + (key.val : ℤ)) ∧
      (∀ otherVariation : Byte,
        notePitch c guitar
            { note with artificialHarmonic := some (key, otherVariation, octaveDiff) } =
          notePitch c guitar note) ∧
      (∀ (otherGuitar : Guitar) (other : Note),
        other.artificialHarmonic = some (key, keyVariation, octaveDiff) →
        c.GetMidiNoteOctave (notePitch c otherGuitar { other with artificialHarmonic := none }) =
          c.GetMidiNoteOctave (notePitch c guitar { note with artificialHarmonic := none }) →
        notePitch c otherGuitar other = notePitch c guitar note) := by
  have hform : ∀ (g : Guitar) (n : Note) (k v o : Byte),
      n.artificialHarmonic = some (k, v, o) →
      notePitch c g n =
        (((c.GetMidiNoteOctave (notePitch c g { n with artificialHarmonic := none }) +
            (o.val : ℤ) + 2) * 12 + (k.val : ℤ)) % (2 ^ 32 : ℤ)).toNat := by
    intro g n k v o h
    simp only [notePitch, h]
  have hmain := hform guitar note key keyVariation octaveDiff ha
  have hnonneg : 0 ≤ ((c.GetMidiNoteOctave
      (notePitch c guitar { note with artificialHarmonic := none }) +
        (octaveDiff.val : ℤ) + 2) * 12 + (key.val : ℤ)) % (2 ^ 32 : ℤ) :=
    Int.emod_nonneg _ (by norm_num)
  refine ⟨?_, ?_, ?_, ?_⟩
  · rw [hmain, Int.toNat_of_nonneg hnonneg]
  · intro h0 h1
    rw [hmain, Int.toNat_of_nonneg hnonneg, Int.emod_eq_of_lt h0 h1]
  · intro otherVariation
    have hother := hform guitar
      { note with artificialHarmonic := some (key, otherVariation, octaveDiff) }
      key otherVariation octaveDiff rfl
    rw [hmain, hother]
  · intro otherGuitar other hother hoct
    rw [hmain, hform otherGuitar other key keyVariation octaveDiff hother, hoct]

/-- Witness of `notePitch_artificial_harmonic`: fret 3 of the first string of
`standardGuitar` has the pitch 67, of octave 4 for `sampleExternals`; with the key 4 and the
octave difference 1 the pitch is `(4 + 1 + 2) * 12 + 4`. -/
theorem notePitch_artificial_harmonic_witness :
    ((notePitch sampleExternals standardGuitar artificialHarmonicNote : ℕ) : ℤ) =
      (sampleExternals.GetMidiNoteOctave
          (notePitch sampleExternals standardGuitar
            { artificialHarmonicNote with artificialHarmonic := none }) +
        ((1 : Byte).val : ℤ) + 2) * 12 + ((4 : Byte).val : ℤ) :=
  (notePitch_artificial_harmonic sampleExternals standardGuitar artificialHarmonicNote 4 1 1
    rfl).2.1 (by decide) (by decide)

/-- C14: `getHarmonicPitch` returns a value below 256 for every base pitch and every fret
offset, and for a base pitch and a fret offset below 256, where the offset is not one of 3,
4, 5, 7, 9, 12, 16, 19, 24 and 28, it returns the base pitch. -/
theorem getHarmonicPitch_untabulated (basePitch fretOffset : Nat) :
    getHarmonicPitch basePitch fretOffset < 256 ∧
      (basePitch < 256 → fretOffset < 256 →
        fretOffset ∉ [3, 4, 5, 7, 9, 12, 16, 19, 24, 28] →
        getHarmonicPitch basePitch fretOffset = basePitch) := by
  refine ⟨Nat.mod_lt _ (by norm_num), ?_⟩
  intro hb ho hnot
  have hzero : harmonicPitches fretOffset = 0 := by
    simp only [List.mem_cons, List.mem_singleton, List.not_mem_nil, or_false, not_or] at hnot
    unfold harmonicPitches
    split <;> simp_all
  simp only [getHarmonicPitch, Nat.mod_eq_of_lt ho, hzero, Nat.add_zero, Nat.mod_mod]
  exact Nat.mod_eq_of_lt hb

/-- Witness of `getHarmonicPitch_untabulated`: the fret offset 6 leaves the base pitch 64. -/
theorem getHarmonicPitch_untabulated_witness : getHarmonicPitch 64 6 = 64 :=
  (getHarmonicPitch_untabulated 64 6).2 (by decide) (by decide) (by decide)

/-! ## Theorems: the score after the generation -/

/-- The position of the score after the generation: the position of the score before it, as
the pass of the loop leaves it when its voice is below `NUM_STAFF_VOICES`. -/
theorem positionAt_afterGeneration (c : Externals) (score : Score) (s i voice j : Nat) :
    (score.afterGeneration c).positionAt s i voice j =
      (score.positionAt s i voice j).map (fun position =>
        if voice < c.NUM_STAFF_VOICES then position.afterGeneration else position) := by
  simp only [Score.positionAt, Score.afterGeneration, List.getElem?_map]
  cases score.systems[s]? with
  | none => rfl
  | some system =>
    simp only [Option.map_some', System.afterGeneration, List.getElem?_map]
    cases system.staffArray[i]? with
    | none => rfl
    | some staff =>
      simp only [Option.map_some', Staff.afterGeneration]
      split
      · rw [List.getElem?_map]
      · cases (staff.positionArrays voice)[j]? <;> simp

/-- The sort for an arpeggio changes the notes of the position only, and keeps them up to
their order. -/
theorem sortForArpeggio_notes (position : Position) :
    position.sortForArpeggio = { position with notes := position.sortForArpeggio.notes } ∧
      position.sortForArpeggio.notes.Perm position.notes := by
  unfold Position.sortForArpeggio Position.SortNotesDown Position.SortNotesUp
  split
  · exact ⟨rfl, List.perm_insertionSort _ _⟩
  · split
    · exact ⟨rfl, List.perm_insertionSort _ _⟩
    · exact ⟨rfl, List.Perm.refl _⟩

/-- A pass of the loop over the positions changes the notes of the position only, and keeps
them up to their order. -/
theorem afterGeneration_notes (position : Position) :
    position.afterGeneration = { position with notes := position.afterGeneration.notes } ∧
      position.afterGeneration.notes.Perm position.notes := by
  unfold Position.afterGeneration
  split
  · exact ⟨rfl, List.Perm.refl _⟩
  · exact sortForArpeggio_notes position

/-- A pass of the loop over the positions leaves a rest and a position without arpeggio as
they are. -/
theorem afterGeneration_eq_self (position : Position)
    (h : position.isRest = true ∨
      (position.hasArpeggioDown = false ∧ position.hasArpeggioUp = false)) :
    position.afterGeneration = position := by
  unfold Position.afterGeneration Position.sortForArpeggio
  rcases h with h | ⟨h1, h2⟩
  · simp [h]
  · simp [h1, h2]

/-- C15, as the code has it: after the generation every position of the score has the notes
it had before, and nothing else of the position has changed; the notes are in the same order
when the position is a rest or has no arpeggio, and a position that is not a rest and has an
arpeggio has its notes sorted by string, in ascending order for an arpeggio down and in
descending order for an arpeggio up. -/
theorem afterGeneration_position (c : Externals) (score : Score) (s i voice j : Nat)
    (position : Position) (hposition : score.positionAt s i voice j = some position) :
    ∃ after, (score.afterGeneration c).positionAt s i voice j = some after ∧
      after = { position with notes := after.notes } ∧
      after.notes.Perm position.notes ∧
      (position.isRest = true ∨
          (position.hasArpeggioDown = false ∧ position.hasArpeggioUp = false) →
        after = position) ∧
      (position.isRest = false → voice < c.NUM_STAFF_VOICES →
        position.hasArpeggioDown = true →
        after.notes.Pairwise (fun a b => a.string ≤ b.string)) ∧
      (position.isRest = false → voice < c.NUM_STAFF_VOICES →
        position.hasArpeggioDown = false → position.hasArpeggioUp = true →
        after.notes.Pairwise (fun a b => b.string ≤ a.string)) := by
  by_cases hvoice : voice < c.NUM_STAFF_VOICES
  · refine ⟨position.afterGeneration, ?_, (afterGeneration_notes position).1,
      (afterGeneration_notes position).2, afterGeneration_eq_self position, ?_, ?_⟩
    · rw [positionAt_afterGeneration, hposition]
      simp [hvoice]
    · intro hrest _ hdown
      simp only [Position.afterGeneration, hrest, Bool.false_eq_true, if_false,
        Position.sortForArpeggio, hdown, if_true, Position.SortNotesDown]
      exact @List.sorted_insertionSort Note (fun a b => a.string ≤ b.string) _
        ⟨fun a b => Nat.le_total a.string b.string⟩
        ⟨fun _ _ _ h1 h2 => Nat.le_trans h1 h2⟩ position.notes
    · intro hrest _ hdown hup
      simp only [Position.afterGeneration, hrest, Bool.false_eq_true, if_false,
        Position.sortForArpeggio, hdown, hup, if_true, Position.SortNotesUp]
      exact @List.sorted_insertionSort Note (fun a b => b.string ≤ a.string) _
        ⟨fun a b => Nat.le_total b.string a.string⟩
        ⟨fun _ _ _ h1 h2 => Nat.le_trans h2 h1⟩ position.notes
  · refine ⟨position, ?_, rfl, List.Perm.refl _, fun _ => rfl, ?_, ?_⟩
    · rw [positionAt_afterGeneration, hposition]
      simp [hvoice]
    · intro _ h
      exact absurd h hvoice
    · intro _ h
      exact absurd h hvoice

/-- Witness of `afterGeneration_position`: the chord of `arpeggioScore`. -/
theorem afterGeneration_position_witness :
    ∃ after, (arpeggioScore.afterGeneration sampleExternals).positionAt 0 0 0 0 = some after ∧
      after = { arpeggioChord with notes := after.notes } ∧
      after.notes.Perm arpeggioChord.notes ∧
      (arpeggioChord.isRest = true ∨
          (arpeggioChord.hasArpeggioDown = false ∧ arpeggioChord.hasArpeggioUp = false) →
        after = arpeggioChord) ∧
      (arpeggioChord.isRest = false → 0 < sampleExternals.NUM_STAFF_VOICES →
        arpeggioChord.hasArpeggioDown = true →
        after.notes.Pairwise (fun a b => a.string ≤ b.string)) ∧
      (arpeggioChord.isRest = false → 0 < sampleExternals.NUM_STAFF_VOICES →
        arpeggioChord.hasArpeggioDown = false → arpeggioChord.hasArpeggioUp = true →
        after.notes.Pairwise (fun a b => b.string ≤ a.string)) :=
  afterGeneration_position sampleExternals arpeggioScore 0 0 0 0 arpeggioChord rfl

/-- C15, counterexample: the chord of `arpeggioScore` has an arpeggio down and holds the note
of the second string before the note of the first string. The generation returns an event
list, and after it the chord holds the note of the first string before the note of the
second string. -/
theorem afterGeneration_reorders_arpeggio :
    (runEventList sampleExternals arpeggioScore).isSome = true ∧
      (arpeggioScore.positionAt 0 0 0 0).map (fun position => position.notes) =
        some [noteY, noteX] ∧
      ((arpeggioScore.afterGeneration sampleExternals).positionAt 0 0 0 0).map
        (fun position => position.notes) = some [noteX, noteY] := by
  refine ⟨runEventList_isSome sampleExternals arpeggioScore (by decide), rfl, ?_⟩
  decide

/-! ## Theorems: system queries -/

/-- In a list of barlines that is sorted by position, the barlines that remain once the
leading barlines at or before `p` are dropped are all after `p`. -/
theorem dropWhile_atOrBefore_sorted (l : List Barline) (p : Nat)
    (hsorted : l.Pairwise (fun a b => a.position ≤ b.position)) :
    ∀ b ∈ l.dropWhile (fun barline => decide (barline.position ≤ p)), p < b.position := by
  induction l with
  | nil => intro b hb; simp at hb
  | cons a rest ih =>
    intro b hb
    rw [List.pairwise_cons] at hsorted
    by_cases ha : a.position ≤ p
    · rw [List.dropWhile_cons_of_pos (by simpa using ha)] at hb
      exact ih hsorted.2 b hb
    · rw [List.dropWhile_cons_of_neg (by simpa using ha)] at hb
      rcases List.mem_cons.mp hb with rfl | hrest
      · omega
      · have := hsorted.1 b hrest
        omega

/-- A sorted list of barlines is a run of barlines at or before `p` and then a run of
barlines after `p`. -/
theorem sorted_split (l : List Barline) (p : Nat)
    (hsorted : l.Pairwise (fun a b => a.position ≤ b.position)) :
    ∃ t d, l = t ++ d ∧ (∀ b ∈ t, b.position ≤ p) ∧ (∀ b ∈ d, p < b.position) ∧
      t = l.takeWhile (fun barline => decide (barline.position ≤ p)) ∧
      d = l.dropWhile (fun barline => decide (barline.position ≤ p)) := by
  refine ⟨_, _, (List.takeWhile_append_dropWhile _ l).symm, ?_,
    dropWhile_atOrBefore_sorted l p hsorted, rfl, rfl⟩
  intro b hb
  simpa using List.mem_takeWhile_imp hb

/-- The search from the end for a barline at or before `p`, in a run of barlines at or
before `p` followed by a run of barlines after `p`: it finds the last barline of the first
run. -/
theorem reverse_find?_split (t d : List Barline) (p : Nat)
    (ht : ∀ b ∈ t, b.position ≤ p) (hd : ∀ b ∈ d, p < b.position) :
    (t ++ d).reverse.find? (fun barline => decide (barline.position ≤ p)) = t.getLast? := by
  rw [List.reverse_append, List.find?_append]
  have hnone : d.reverse.find? (fun barline => decide (barline.position ≤ p)) = none := by
    rw [List.find?_eq_none]
    intro b hb
    have := hd b (List.mem_reverse.mp hb)
    simp only [decide_eq_true_eq]
    omega
  rw [hnone, Option.none_or, List.getLast?_eq_head?_reverse]
  cases hrev : t.reverse with
  | nil => rfl
  | cons a rest =>
    have ha : a ∈ t := List.mem_reverse.mp (by rw [hrev]; exact List.mem_cons_self _ _)
    rw [List.find?_cons_of_pos _ (by simpa using ht a ha)]
    rfl

/-- The barlines after `p` that the search from the end passes over, in a run of barlines at
or before `p` followed by a run of barlines after `p`: the second run, the last one
first. -/
theorem reverse_takeWhile_split (t d : List Barline) (p : Nat)
    (ht : ∀ b ∈ t, b.position ≤ p) (hd : ∀ b ∈ d, p < b.position) :
    (t ++ d).reverse.takeWhile (fun barline => !decide (barline.position ≤ p)) =
      d.reverse := by
  rw [List.reverse_append, List.takeWhile_append_of_pos]
  · have hnil : t.reverse.takeWhile (fun barline => !decide (barline.position ≤ p)) = [] := by
      cases hrev : t.reverse with
      | nil => rfl
      | cons a rest =>
        have ha : a ∈ t := List.mem_reverse.mp (by rw [hrev]; exact List.mem_cons_self _ _)
        rw [List.takeWhile_cons_of_neg (by simpa using ht a ha)]
    rw [hnil, List.append_nil]
  · intro b hb
    have := hd b (List.mem_reverse.mp hb)
    simp only [Bool.not_eq_true', decide_eq_false_iff_not]
    omega

/-- The barline that `GetPrecedingBarline` returns when the first barline of the array is at
or before the position: the one that the search from the end finds. -/
theorem findLastBarlineAtOrBefore_eq (s : System) (p : Nat) (first : Barline)
    (hfirst : s.barlineArray.head? = some first) (hp : ¬ p < first.position) :
    s.findLastBarlineAtOrBefore p = some (s.GetPrecedingBarline p) := by
  unfold System.GetPrecedingBarline
  split
  · next heq =>
    rw [heq] at hfirst
    exact Option.noConfusion hfirst
  · next f r heq =>
    rw [heq] at hfirst
    simp only [List.head?_cons, Option.some.injEq] at hfirst
    subst hfirst
    simp only [hp, dite_false, Option.some_get]

/-- C16: `GetPrecedingBarline(p)` returns the start bar when the barline array is empty or
`p` is less than the position of its first barline. Otherwise the search from the end of the
array finds a barline, so that the iterator is not the end iterator, and the function returns
it; it is a barline of the array at or before `p`, and when the array is sorted by position
no barline of the array at or before `p` has a greater position. -/
theorem GetPrecedingBarline_sorted (s : System) (p : Nat) :
    ((s.barlineArray = [] ∨
        ∃ first, s.barlineArray.head? = some first ∧ p < first.position) →
      s.GetPrecedingBarline p = s.startBar) ∧
    (∀ first, s.barlineArray.head? = some first → ¬ p < first.position →
      s.findLastBarlineAtOrBefore p = some (s.GetPrecedingBarline p) ∧
      s.GetPrecedingBarline p ∈ s.barlineArray ∧
      (s.GetPrecedingBarline p).position ≤ p ∧
      (s.barlineArray.Pairwise (fun a b => a.position ≤ b.position) →
        ∀ b ∈ s.barlineArray, b.position ≤ p →
          b.position ≤ (s.GetPrecedingBarline p).position)) := by
  constructor
  · intro h
    unfold System.GetPrecedingBarline
    split
    · rfl
    · next f r heq =>
      rcases h with h | ⟨first, hfirst, hp⟩
      · rw [h] at heq
        exact List.noConfusion heq
      · rw [heq] at hfirst
        simp only [List.head?_cons, Option.some.injEq] at hfirst
        subst hfirst
        simp only [hp, dite_true]
  · intro first hfirst hp
    have hfound := findLastBarlineAtOrBefore_eq s p first hfirst hp
    have hfind : s.barlineArray.reverse.find? (fun barline =>
        decide (barline.position ≤ p)) = some (s.GetPrecedingBarline p) := hfound
    refine ⟨hfound, ?_, ?_, ?_⟩
    · exact List.mem_reverse.mp (List.mem_of_find?_eq_some hfind)
    · simpa using List.find?_some hfind
    · intro hsorted b hb hbp
      obtain ⟨t, d, hsplit, ht, hd, -, -⟩ := sorted_split s.barlineArray p hsorted
      rw [hsplit, reverse_find?_split t d p ht hd] at hfind
      obtain ⟨ys, hys⟩ := List.getLast?_eq_some_iff.mp hfind
      have hbt : b ∈ t := by
        rw [hsplit] at hb
        rcases List.mem_append.mp hb with h | h
        · exact h
        · have := hd b h
          omega
      have htsorted : t.Pairwise (fun a b => a.position ≤ b.position) := by
        rw [hsplit] at hsorted
        exact (List.pairwise_append.mp hsorted).1
      rw [hys] at hbt htsorted
      rcases List.mem_append.mp hbt with h | h
      · exact (List.pairwise_append.mp htsorted).2.2 b h _ (List.mem_singleton_self _)
      · rw [List.mem_singleton.mp h]

/-- C17: `GetNextBarline(p)` never steps out of the barline array. It returns the end bar
when the array is empty or `p` is at or after the position of its last barline. Otherwise,
when the array is sorted by position, it returns the first barline of the array whose
position is greater than `p`. -/
theorem GetNextBarline_sorted (s : System) (p : Nat) :
    (s.GetNextBarline p).isSome = true ∧
    ((s.barlineArray = [] ∨
        ∃ last, s.barlineArray.getLast? = some last ∧ last.position ≤ p) →
      s.GetNextBarline p = some s.endBar) ∧
    (∀ last, s.barlineArray.getLast? = some last → p < last.position →
      s.barlineArray.Pairwise (fun a b => a.position ≤ b.position) →
      s.GetNextBarline p =
          s.barlineArray.find? (fun barline => decide (p < barline.position)) ∧
        ∃ b, s.GetNextBarline p = some b ∧ b ∈ s.barlineArray ∧ p < b.position) := by
  refine ⟨?_, ?_, ?_⟩
  · unfold System.GetNextBarline
    cases hlast : s.barlineArray.getLast? with
    | none => rfl
    | some last =>
      simp only
      split
      · rfl
      · next hp =>
        cases hhead : s.barlineArray.head? with
        | none => rfl
        | some first =>
          simp only
          split
          · rfl
          · obtain ⟨ys, hys⟩ := List.getLast?_eq_some_iff.mp hlast
            rw [hys, List.reverse_append, List.reverse_singleton, List.singleton_append,
              List.takeWhile_cons_of_pos (by simp; omega)]
            rfl
  · intro h
    unfold System.GetNextBarline
    rcases h with h | ⟨last, hlast, hp⟩
    · simp [h]
    · simp only [hlast]
      rw [if_pos hp]
  · intro last hlast hp hsorted
    have hval : s.GetNextBarline p =
        s.barlineArray.find? (fun barline => decide (p < barline.position)) := by
      unfold System.GetNextBarline
      simp only [hlast, ge_iff_le, Nat.not_le.mpr hp, if_false]
      cases hhead : s.barlineArray.head? with
      | none =>
        rw [List.head?_eq_none_iff] at hhead
        rw [hhead] at hlast
        exact Option.noConfusion hlast
      | some first =>
        simp only
        obtain ⟨rest, hrest⟩ : ∃ rest, s.barlineArray = first :: rest := by
          cases hl : s.barlineArray with
          | nil => rw [hl] at hhead; exact Option.noConfusion hhead
          | cons a r =>
            rw [hl] at hhead
            simp only [List.head?_cons, Option.some.injEq] at hhead
            exact ⟨r, by rw [hhead]⟩
        split
        · next hlt =>
          rw [hrest, List.find?_cons_of_pos _ (by simpa using hlt)]
        · obtain ⟨t, d, hsplit, ht, hd, -, -⟩ := sorted_split s.barlineArray p hsorted
          rw [hsplit, reverse_takeWhile_split t d p ht hd, List.getLast?_reverse,
            List.find?_append]
          have hnone : t.find? (fun barline => decide (p < barline.position)) = none := by
            rw [List.find?_eq_none]
            intro b hb
            have := ht b hb
            simp only [decide_eq_true_eq]
            omega
          rw [hnone, Option.none_or]
          cases d with
          | nil => rfl
          | cons a r =>
            rw [List.find?_cons_of_pos _ (by simpa using hd a (List.mem_cons_self _ _))]
            rfl
    refine ⟨hval, ?_⟩
    have hsome : (s.barlineArray.find? (fun barline =>
        decide (p < barline.position))).isSome = true := by
      rw [List.find?_isSome]
      obtain ⟨ys, hys⟩ := List.getLast?_eq_some_iff.mp hlast
      exact ⟨last, by rw [hys]; simp, by simpa using hp⟩
    obtain ⟨b, hb⟩ := Option.isSome_iff_exists.mp hsome
    refine ⟨b, by rw [hval, hb], List.mem_of_find?_eq_some hb, ?_⟩
    simpa using List.find?_some hb

/-- Witness of `GetPrecedingBarline_sorted`: in `threeBarSystem` the barline that precedes
position 6 is the barline at position 4, and no barline at or before 6 is later. -/
theorem GetPrecedingBarline_sorted_witness :
    (threeBarSystem.GetPrecedingBarline 6).position = 4 ∧
      ∀ b ∈ threeBarSystem.barlineArray, b.position ≤ 6 →
        b.position ≤ (threeBarSystem.GetPrecedingBarline 6).position :=
  ⟨rfl, ((GetPrecedingBarline_sorted threeBarSystem 6).2 { position := 4 } rfl
    (by decide)).2.2.2 (by simp [threeBarSystem])⟩

/-- Witness of `GetNextBarline_sorted`: in `threeBarSystem` the barline that follows
position 6 is the first barline after it. -/
theorem GetNextBarline_sorted_witness :
    threeBarSystem.GetNextBarline 6 =
      threeBarSystem.barlineArray.find? (fun barline => decide (6 < barline.position)) :=
  ((GetNextBarline_sorted threeBarSystem 6).2.2 { position := 8 } rfl (by decide)
    (by simp [threeBarSystem])).1

/-- The position count of a system is not negative. -/
theorem CalculatePositionCount_nonneg (s : System) (positionSpacing : Int) :
    0 ≤ s.CalculatePositionCount positionSpacing := by
  unfold System.CalculatePositionCount MIN_POSITION_SPACING
  split
  · exact le_refl 0
  · next h =>
    simp only
    split
    · next hw =>
      rw [Int.tdiv_eq_ediv (by omega) (by omega)]
      exact Int.ediv_nonneg (by omega) (by omega)
    · exact le_refl 0

/-- C18: `GetBarlineAtPosition(p)` returns the start bar for `p = 0`; otherwise the first
barline of the array whose position is `p`, when there is one; otherwise the end bar when
`p` is `GetPositionCount()`; otherwise the null pointer. When it returns a barline, `p` is 0,
or the position of a barline of the array, or the position count. -/
theorem GetBarlineAtPosition_cases (s : System) (p : Nat) :
    (p = 0 → s.GetBarlineAtPosition p = some s.startBar) ∧
    (p ≠ 0 → ∀ b,
      s.barlineArray.find? (fun barline => decide (barline.position = p)) = some b →
      s.GetBarlineAtPosition p = some b ∧ b ∈ s.barlineArray ∧ b.position = p) ∧
    (p ≠ 0 → (∀ b ∈ s.barlineArray, b.position ≠ p) → (p : Int) = s.GetPositionCount →
      s.GetBarlineAtPosition p = some s.endBar) ∧
    (p ≠ 0 → (∀ b ∈ s.barlineArray, b.position ≠ p) → (p : Int) ≠ s.GetPositionCount →
      s.GetBarlineAtPosition p = none) ∧
    (∀ b, s.GetBarlineAtPosition p = some b →
      p = 0 ∨ (∃ internal ∈ s.barlineArray, internal.position = p) ∨
        (p : Int) = s.GetPositionCount) := by
  have hcount : 0 ≤ s.GetPositionCount := CalculatePositionCount_nonneg s _
  have hcast : p = s.GetPositionCount.toNat ↔ (p : Int) = s.GetPositionCount := by
    omega
  have hnone : (∀ b ∈ s.barlineArray, b.position ≠ p) →
      s.barlineArray.find? (fun barline => decide (barline.position = p)) = none := by
    intro h
    rw [List.find?_eq_none]
    intro b hb
    simpa using h b hb
  refine ⟨?_, ?_, ?_, ?_, ?_⟩
  · intro h0
    simp [System.GetBarlineAtPosition, h0]
  · intro h0 b hb
    refine ⟨by simp [System.GetBarlineAtPosition, h0, hb], List.mem_of_find?_eq_some hb, ?_⟩
    simpa using List.find?_some hb
  · intro h0 hall hp
    simp only [System.GetBarlineAtPosition, h0, if_false, hnone hall]
    rw [if_pos (hcast.mpr hp)]
  · intro h0 hall hp
    have hne : ¬ p = s.GetPositionCount.toNat := fun h => hp (hcast.mp h)
    simp only [System.GetBarlineAtPosition, h0, if_false, hnone hall]
    rw [if_neg hne]
  · intro b hb
    by_cases h0 : p = 0
    · exact Or.inl h0
    · right
      cases hfind : s.barlineArray.find? (fun barline => decide (barline.position = p)) with
      | some found =>
        left
        exact ⟨found, List.mem_of_find?_eq_some hfind, by simpa using List.find?_some hfind⟩
      | none =>
        right
        simp only [System.GetBarlineAtPosition, h0, if_false, hfind] at hb
        split at hb
        · next h => exact hcast.mp h
        · exact Option.noConfusion hb

/-- Witness of `GetBarlineAtPosition_cases`: in `threeBarSystem` the barline at position 8
is the second barline of the array, and there is no barline at position 5. -/
theorem GetBarlineAtPosition_cases_witness :
    (threeBarSystem.GetBarlineAtPosition 8).map (fun b => b.position) = some 8 ∧
      threeBarSystem.GetBarlineAtPosition 5 = none :=
  ⟨by
    rw [((GetBarlineAtPosition_cases threeBarSystem 8).2.1 (by decide) { position := 8 }
      rfl).1]
    rfl,
  (GetBarlineAtPosition_cases threeBarSystem 5).2.2.2.1 (by decide)
    (by simp [threeBarSystem]) (by decide)⟩

/-- C19, on the code: in the system with the default rectangle and spacing, which has 36
positions, the position 1 is at the x co-ordinate 63 and the position 2 at 83, and
`GetPositionFromX` returns the position 0 for 63 and the position 1 for 82: it returns the
last position before `x`, not the closest one, and not the position itself at its own x
co-ordinate. -/
theorem GetPositionFromX_position_before :
    defaultSystem.GetPositionCount = 36 ∧ defaultSystem.GetPositionX 0 = 43 ∧
      defaultSystem.GetPositionX 1 = 63 ∧ defaultSystem.GetPositionX 2 = 83 ∧
      defaultSystem.GetPositionFromX (defaultSystem.GetPositionX 1) = 0 ∧
      defaultSystem.GetPositionFromX 82 = 1 := by
  decide

/-- C20, as the code has it: `CalculatePositionCount(s)` returns 0 when `s` is less than
`MIN_POSITION_SPACING`, which is 3. Otherwise, with the width `W` of the rectangle and the
cumulative width `C` of the internal key and time signatures, it returns the largest `n` with
`(n + 1) * s ≤ W - C` when this `n` is at least 1, so that the `n` positions and one more
position of space fit in the width, and it returns 0 when no `n` of at least 1 fits. -/
theorem CalculatePositionCount_largest (s : System) (spacing : Int) :
    (spacing < 3 → s.CalculatePositionCount spacing = 0) ∧
    (3 ≤ spacing →
      (s.CalculatePositionCount spacing = 0 ∧
          ∀ n : Int, 1 ≤ n →
            ¬ (n + 1) * spacing ≤
              s.rectWidth - s.GetCumulativeInternalKeyAndTimeSignatureWidth (-1)) ∨
        (1 ≤ s.CalculatePositionCount spacing ∧
          (s.CalculatePositionCount spacing + 1) * spacing ≤
            s.rectWidth - s.GetCumulativeInternalKeyAndTimeSignatureWidth (-1) ∧
          ∀ n : Int,
            (n + 1) * spacing ≤
              s.rectWidth - s.GetCumulativeInternalKeyAndTimeSignatureWidth (-1) →
            n ≤ s.CalculatePositionCount spacing)) := by
  constructor
  · intro h
    simp [System.CalculatePositionCount, MIN_POSITION_SPACING, h]
  · intro h3
    have hpos : 0 < spacing := by omega
    by_cases hw : s.rectWidth - s.GetCumulativeInternalKeyAndTimeSignatureWidth (-1) - spacing
        ≥ spacing
    · right
      have hval : s.CalculatePositionCount spacing =
          (s.rectWidth - s.GetCumulativeInternalKeyAndTimeSignatureWidth (-1) - spacing) /
            spacing := by
        simp only [System.CalculatePositionCount, MIN_POSITION_SPACING, Int.not_lt.mpr h3,
          if_false, hw, if_true]
        exact Int.tdiv_eq_ediv (by omega) (by omega)
      rw [hval]
      refine ⟨?_, ?_, ?_⟩
      · exact Int.le_ediv_of_mul_le hpos (by omega)
      · have := Int.ediv_mul_le
          (s.rectWidth - s.GetCumulativeInternalKeyAndTimeSignatureWidth (-1) - spacing)
          (ne_of_gt hpos)
        linarith
      · intro n hn
        exact Int.le_ediv_of_mul_le hpos (by linarith)
    · left
      refine ⟨by simp [System.CalculatePositionCount, MIN_POSITION_SPACING,
        Int.not_lt.mpr h3, hw], ?_⟩
      intro n hn hfit
      have : 2 * spacing ≤ (n + 1) * spacing :=
        Int.mul_le_mul_of_nonneg_right (by omega) (le_of_lt hpos)
      omega

/-- Witness of `CalculatePositionCount_largest`: the default system with the spacing 20,
which has 36 positions; 37 times 20 is at most 750. -/
theorem CalculatePositionCount_largest_witness :
    (defaultSystem.CalculatePositionCount 20 = 0 ∧
          ∀ n : Int, 1 ≤ n →
            ¬ (n + 1) * 20 ≤
              defaultSystem.rectWidth -
                defaultSystem.GetCumulativeInternalKeyAndTimeSignatureWidth (-1)) ∨
        (1 ≤ defaultSystem.CalculatePositionCount 20 ∧
          (defaultSystem.CalculatePositionCount 20 + 1) * 20 ≤
            defaultSystem.rectWidth -
              defaultSystem.GetCumulativeInternalKeyAndTimeSignatureWidth (-1) ∧
          ∀ n : Int,
            (n + 1) * 20 ≤
              defaultSystem.rectWidth -
                defaultSystem.GetCumulativeInternalKeyAndTimeSignatureWidth (-1) →
            n ≤ defaultSystem.CalculatePositionCount 20) :=
  (CalculatePositionCount_largest defaultSystem 20).2 (by decide)

/-- C20, counterexample: in a system whose rectangle is 10 wide, without internal key and
time signatures, `CalculatePositionCount(20)` returns 0, and the 0 positions and one more
position of space, which is 20 wide, do not fit in the width. -/
theorem CalculatePositionCount_zero_does_not_fit :
    narrowSystem.CalculatePositionCount 20 = 0 ∧
      ¬ (narrowSystem.CalculatePositionCount 20 + 1) * 20 ≤
        narrowSystem.rectWidth -
          narrowSystem.GetCumulativeInternalKeyAndTimeSignatureWidth (-1) := by
  decide


/-! ## Theorems: changes of a system -/

/-- The list that `stdSort` returns for `CompareBarlinesByPosition` is sorted by position, and
it is a permutation of its argument. -/
theorem stdSort_barlines (l : List Barline) :
    (stdSort CompareBarlinesByPosition l).Pairwise
        (fun bar1 bar2 => bar1.position ≤ bar2.position) ∧
      (stdSort CompareBarlinesByPosition l).Perm l := by
  have htotal : IsTotal Barline (fun a b => CompareBarlinesByPosition b a = false) :=
    ⟨fun a b => by
      simp only [CompareBarlinesByPosition, decide_eq_false_iff_not, not_lt]
      exact Nat.le_total a.position b.position⟩
  have htrans : IsTrans Barline (fun a b => CompareBarlinesByPosition b a = false) :=
    ⟨fun a b d hab hbd => by
      simp only [CompareBarlinesByPosition, decide_eq_false_iff_not, not_lt] at hab hbd ⊢
      exact Nat.le_trans hab hbd⟩
  refine ⟨?_, List.perm_insertionSort _ l⟩
  have hsorted := List.sorted_insertionSort
    (fun a b : Barline => CompareBarlinesByPosition b a = false) l
  refine List.Pairwise.imp ?_ hsorted
  intro a b hab
  simpa only [CompareBarlinesByPosition, decide_eq_false_iff_not, not_lt] using hab

/-- C21: `InsertBarline(b)` returns true, and afterwards the internal barline array is sorted
by non-decreasing position and is a permutation of the array before the call with `b`
added: no barline is lost, also when a barline of the same position is in the array. The
rest of the system is as before. -/
theorem InsertBarline_sorted_perm (s : System) (b : Barline) :
    (s.InsertBarline b).1 = true ∧
      (s.InsertBarline b).2.barlineArray.Pairwise
        (fun bar1 bar2 => bar1.position ≤ bar2.position) ∧
      (s.InsertBarline b).2.barlineArray.Perm (s.barlineArray ++ [b]) ∧
      (s.InsertBarline b).2.barlineArray.length = s.barlineArray.length + 1 ∧
      (s.InsertBarline b).2.startBar = s.startBar ∧
      (s.InsertBarline b).2.endBar = s.endBar ∧
      (s.InsertBarline b).2.staffArray = s.staffArray := by
  obtain ⟨hsorted, hperm⟩ := stdSort_barlines (s.barlineArray ++ [b])
  refine ⟨rfl, hsorted, hperm, ?_, rfl, rfl, rfl⟩
  have hlen := hperm.length_eq
  simpa using hlen

/-- C22, failing input: `shiftSystem` has a position at 6 in the first voice and a position at
6 in the second voice of its staff. `PerformPositionShift(3, 1)` moves the barline, the
direction and the rhythm slash from 4, 4 and 6 to 5, 5 and 7, keeps the chord text at 2, and
moves the position of the first voice from 6 to 7; the position of the second voice, which
is at 6 and so not before 3, stays at 6. -/
theorem PerformPositionShift_second_voice_not_shifted :
    shiftSystem.IsValidPosition 3 = true ∧
      ∃ shifted, shiftSystem.PerformPositionShift sampleExternals 3 1 = some shifted ∧
        shifted.barlineArray.map Barline.position = [5] ∧
        shifted.directionArray.map Direction.position = [5] ∧
        shifted.chordTextArray.map ChordText.position = [2] ∧
        shifted.rhythmSlashArray.map RhythmSlash.position = [7] ∧
        shifted.staffArray.map
          (fun staff => (staff.positionArrays 0).map Position.position) = [[2, 7]] ∧
        shiftSystem.staffArray.map
          (fun staff => (staff.positionArrays 1).map Position.position) = [[6]] ∧
        shifted.staffArray.map
          (fun staff => (staff.positionArrays 1).map Position.position) = [[6]] := by
  refine ⟨by decide, _, rfl, ?_, ?_, ?_, ?_, ?_, ?_, ?_⟩ <;> decide

/-- C23, failing input: in `multibarSystem` the bar that starts at the start bar holds a rest
of four bars in the second voice of its staff, and `GetPositionsInRange` stores that rest for
the second voice; `HasMultiBarRest` returns false with `measureCount` 1, as it asks for the
positions of the first voice in each pass of its loop over the voices. -/
theorem HasMultiBarRest_second_voice_not_searched :
    multibarSystem.GetNextBarline multibarSystem.startBar.position =
        some multibarSystem.endBar ∧
      (multibarSystem.staffArray.map
        (fun staff => (sampleExternals.GetPositionsInRange staff 1
          multibarSystem.startBar.position multibarSystem.endBar.position).map
            Position.multibarRest)) = [[some 4]] ∧
      multibarSystem.HasMultiBarRest sampleExternals multibarSystem.startBar =
        some (false, 1) := by
  refine ⟨rfl, ?_, ?_⟩ <;> decide

/-- C24, failing input: the staff of `wideSystem` and of `crowdedSystem` has its last position
at 5. `IsValidPositionSpacing(400)` is true for `wideSystem`, whose rectangle is 750 wide,
although `CalculatePositionCount(400)` is 0; and `SetPositionSpacing(20)` returns true and
stores the spacing 20 for `crowdedSystem`, whose rectangle is 30 wide, although
`CalculatePositionCount(20)` is 0. In both cases `5 + 1 < 0` does not hold. -/
theorem IsValidPositionSpacing_zero_positions :
    (sampleExternals.GetLastPosition fivePositionStaff).map Position.position = some 5 ∧
      wideSystem.IsValidPositionSpacing sampleExternals 400 = true ∧
      wideSystem.CalculatePositionCount 400 = 0 ∧
      crowdedSystem.IsValidPositionSpacing sampleExternals 20 = true ∧
      crowdedSystem.CalculatePositionCount 20 = 0 ∧
      (crowdedSystem.SetPositionSpacing sampleExternals 20).1 = true ∧
      (crowdedSystem.SetPositionSpacing sampleExternals 20).2.positionSpacing = 20 := by
  refine ⟨?_, ?_, ?_, ?_, ?_, ?_, ?_⟩ <;> decide


/-! ## Theorems: the timing of the events of a position -/

/-- The sort for an arpeggio changes the notes of a position only. -/
theorem sortForArpeggio_flags (position : Position) :
    position.sortForArpeggio.position = position.position ∧
      position.sortForArpeggio.isStaccato = position.isStaccato ∧
      position.sortForArpeggio.hasArpeggioDown = position.hasArpeggioDown ∧
      position.sortForArpeggio.hasArpeggioUp = position.hasArpeggioUp ∧
      position.sortForArpeggio.hasVibrato = position.hasVibrato ∧
      position.sortForArpeggio.hasWideVibrato = position.hasWideVibrato := by
  unfold Position.sortForArpeggio Position.SortNotesDown Position.SortNotesUp
  split
  · exact ⟨rfl, rfl, rfl, rfl, rfl, rfl⟩
  · split
    · exact ⟨rfl, rfl, rfl, rfl, rfl, rfl⟩
    · exact ⟨rfl, rfl, rfl, rfl, rfl, rfl⟩

/-- The loop over the notes of a position, from a state that `m` passes have led to: each
pass adds the offset `a` of the arpeggio (zero without arpeggio) to the start time and takes
it from the duration, and pushes the events of its note at the start time and the duration
that it has set. -/
theorem noteLoop_exact (c : Externals) (staff : Staff) (voice j i systemIndex : Nat)
    (guitar : Guitar) (position : Position) (a startTime duration : ℚ)
    (ha : a = if (position.hasArpeggioDown || position.hasArpeggioUp) = true then
      c.ARPEGGIO_OFFSET else 0)
    (notes : List Note) (m : Nat) (st : NoteLoopState)
    (hstart : st.startTime = startTime + m * a) (hduration : st.duration = duration - m * a) :
    (notes.foldl (noteLoopBody c staff voice j i systemIndex guitar position) st).startTime =
        startTime + ((m + notes.length : Nat) : ℚ) * a ∧
      (notes.foldl (noteLoopBody c staff voice j i systemIndex guitar position) st).duration =
        duration - ((m + notes.length : Nat) : ℚ) * a ∧
      (notes.foldl (noteLoopBody c staff voice j i systemIndex guitar position) st).eventList =
        st.eventList ++ (notes.enumFrom (m + 1)).flatMap (fun kn =>
          noteEvents c staff voice j i systemIndex guitar position
            (startTime + (kn.1 : ℚ) * a) (duration - (kn.1 : ℚ) * a) kn.2) := by
  induction notes generalizing m st with
  | nil => simp [hstart, hduration]
  | cons note rest ih =>
    have hs : (noteLoopBody c staff voice j i systemIndex guitar position st note).startTime =
        startTime + ((m + 1 : Nat) : ℚ) * a := by
      simp only [noteLoopBody, hstart, ha]
      split <;> push_cast <;> ring
    have hd : (noteLoopBody c staff voice j i systemIndex guitar position st note).duration =
        duration - ((m + 1 : Nat) : ℚ) * a := by
      simp only [noteLoopBody, hduration, ha]
      split <;> push_cast <;> ring
    have he : (noteLoopBody c staff voice j i systemIndex guitar position st note).eventList =
        st.eventList ++ noteEvents c staff voice j i systemIndex guitar position
          (startTime + ((m + 1 : Nat) : ℚ) * a) (duration - ((m + 1 : Nat) : ℚ) * a) note := by
      rw [← hs, ← hd]
      rfl
    obtain ⟨h1, h2, h3⟩ := ih (m + 1) _ hs hd
    rw [List.foldl_cons, h1, h2, h3, he]
    refine ⟨?_, ?_, ?_⟩
    · rw [List.length_cons]
      congr 2
      push_cast
      ring
    · rw [List.length_cons]
      congr 2
      push_cast
      ring
    · rw [List.enumFrom_cons, List.flatMap_cons, List.append_assoc]

/-- One pass of the loop over the positions for a position that is not a rest. With `t` the
start time of the notes (the running start time, less the duration of a grace note), `d`
their duration (the duration of a grace note, or the duration of the position) and `a` the
offset of the arpeggio (zero without arpeggio), the pass pushes, for the `k`-th note in
the order of play, the events of the note at `t + k * a` with the duration `d - k * a`; the
running start time after the pass is `t + d`, and the end time is at least that. -/
theorem positionLoopBody_exact (c : Externals) (score : Score) (currentSystemIndex : Nat)
    (system : System) (staff : Staff) (voice i systemIndex : Nat) (guitar : Guitar)
    (st : VoiceLoopState) (j : Nat) (position : Position) (hrest : position.isRest = false)
    (a t d : ℚ)
    (ha : a = if (position.hasArpeggioDown || position.hasArpeggioUp) = true then
      c.ARPEGGIO_OFFSET else 0)
    (hd : d = if position.isAcciaccatura = true then c.GRACE_NOTE_DURATION
      else calculateNoteDuration c score currentSystemIndex position)
    (ht : t = if position.isAcciaccatura = true then st.startTime - c.GRACE_NOTE_DURATION
      else st.startTime) :
    (positionLoopBody c score currentSystemIndex system staff voice i systemIndex guitar
        st j position).eventList =
        st.eventList ++ (position.sortForArpeggio.notes.enumFrom 1).flatMap (fun kn =>
          noteEvents c staff voice j i systemIndex guitar position.sortForArpeggio
            (t + (kn.1 : ℚ) * a) (d - (kn.1 : ℚ) * a) kn.2) ∧
      (positionLoopBody c score currentSystemIndex system staff voice i systemIndex guitar
        st j position).startTime = t + d ∧
      (positionLoopBody c score currentSystemIndex system staff voice i systemIndex guitar
        st j position).endTime = max st.endTime (t + d) := by
  obtain ⟨_, _, hdown, hup, _, _⟩ := sortForArpeggio_flags position
  have ha2 : a = if (position.sortForArpeggio.hasArpeggioDown ||
      position.sortForArpeggio.hasArpeggioUp) = true then c.ARPEGGIO_OFFSET else 0 := by
    rw [hdown, hup]
    exact ha
  obtain ⟨h1, h2, h3⟩ := noteLoop_exact c staff voice j i systemIndex guitar
    position.sortForArpeggio a t d ha2 position.sortForArpeggio.notes 0
    { startTime := t, duration := d, eventList := st.eventList } (by simp) (by simp)
  have hbody : positionLoopBody c score currentSystemIndex system staff voice i systemIndex
      guitar st j position =
      { startTime :=
          (position.sortForArpeggio.notes.foldl
            (noteLoopBody c staff voice j i systemIndex guitar position.sortForArpeggio)
            { startTime := t, duration := d, eventList := st.eventList }).startTime +
          (position.sortForArpeggio.notes.foldl
            (noteLoopBody c staff voice j i systemIndex guitar position.sortForArpeggio)
            { startTime := t, duration := d, eventList := st.eventList }).duration
        endTime := max st.endTime
          ((position.sortForArpeggio.notes.foldl
            (noteLoopBody c staff voice j i systemIndex guitar position.sortForArpeggio)
            { startTime := t, duration := d, eventList := st.eventList }).startTime +
          (position.sortForArpeggio.notes.foldl
            (noteLoopBody c staff voice j i systemIndex guitar position.sortForArpeggio)
            { startTime := t, duration := d, eventList := st.eventList }).duration)
        eventList :=
          (position.sortForArpeggio.notes.foldl
            (noteLoopBody c staff voice j i systemIndex guitar position.sortForArpeggio)
            { startTime := t, duration := d, eventList := st.eventList }).eventList } := by
    rw [ht, hd]
    cases hgrace : position.isAcciaccatura <;>
      simp only [positionLoopBody, hrest, hgrace, Bool.false_eq_true, if_false, if_true]
  have hsum : t + ((0 + position.sortForArpeggio.notes.length : Nat) : ℚ) * a +
      (d - ((0 + position.sortForArpeggio.notes.length : Nat) : ℚ) * a) = t + d := by ring
  rw [hbody]
  simp only [h1, h2, h3, hsum]
  simp


/-- The events that are pushed for a note: a `PlayNoteEvent` when the note is not tied, the
two vibrato events when the position has a vibrato, and a `StopNoteEvent` when the note has
no tie-wrap flag and is not tied to the next note. -/
theorem mem_noteEvents (c : Externals) (staff : Staff) (voice j i systemIndex : Nat)
    (guitar : Guitar) (position : Position) (startTime duration : ℚ) (note : Note)
    (e : MidiEvent) :
    e ∈ noteEvents c staff voice j i systemIndex guitar position startTime duration note ↔
      (note.isTied = false ∧
        e = ⟨i, startTime, some duration, position.position, systemIndex,
          .playNote (notePitch c guitar note) guitar note.isMuted (noteVelocity c note)⟩) ∨
      ((position.hasVibrato || position.hasWideVibrato) = true ∧
        (e = ⟨i, startTime, none, position.position, systemIndex,
            .vibrato .VIBRATO_ON
              (some (if position.hasVibrato = true then VibratoType.NORMAL_VIBRATO
                else VibratoType.WIDE_VIBRATO))⟩ ∨
          e = ⟨i, startTime + duration, none, position.position, systemIndex,
            .vibrato .VIBRATO_OFF none⟩)) ∨
      (note.hasTieWrap = false ∧ tiedToNextNote staff voice j note = false ∧
        e = ⟨i, startTime + (if position.isStaccato = true then duration / 2 else duration),
          none, position.position, systemIndex, .stopNote (notePitch c guitar note)⟩) := by
  simp only [noteEvents, List.mem_append]
  constructor
  · rintro ((h | h) | h)
    · split at h
      · rename_i hTied
        exact Or.inl ⟨hTied, List.mem_singleton.mp h⟩
      · simp at h
    · split at h
      · rename_i hVib
        simp only [List.mem_cons, List.mem_singleton, List.not_mem_nil, or_false] at h
        exact Or.inr (Or.inl ⟨hVib, h⟩)
      · simp at h
    · split at h
      · rename_i hStop
        exact Or.inr (Or.inr ⟨hStop.1, hStop.2, List.mem_singleton.mp h⟩)
      · simp at h
  · rintro (⟨hTied, h⟩ | ⟨hVib, h⟩ | ⟨hWrap, hNext, h⟩)
    · refine Or.inl (Or.inl ?_)
      rw [if_pos hTied]
      exact List.mem_singleton.mpr h
    · refine Or.inl (Or.inr ?_)
      rw [if_pos hVib]
      simp only [List.mem_cons, List.mem_singleton, List.not_mem_nil, or_false]
      exact h
    · refine Or.inr ?_
      rw [if_pos ⟨hWrap, hNext⟩]
      exact List.mem_singleton.mpr h

/-- A position without arpeggio is not sorted. -/
theorem sortForArpeggio_eq_self (position : Position)
    (hdown : position.hasArpeggioDown = false) (hup : position.hasArpeggioUp = false) :
    position.sortForArpeggio = position := by
  unfold Position.sortForArpeggio
  simp [hdown, hup]

/-- The events of the notes of a list, when they do not depend on the place of the note in
the list. -/
theorem flatMap_enumFrom_snd {α β : Type} (f : α → List β) (l : List α) (n : Nat) :
    (l.enumFrom n).flatMap (fun kn => f kn.2) = l.flatMap f := by
  induction l generalizing n with
  | nil => rfl
  | cons a rest ih =>
    rw [List.enumFrom_cons, List.flatMap_cons, List.flatMap_cons, ih]

/-- C28, as the code has it: one pass of the loop over the positions for a grace note without
arpeggio, at the running start time `t`. The pass pushes the events of each note with the
start time `t - GRACE_NOTE_DURATION` and the duration `GRACE_NOTE_DURATION`, and the running
start time after the pass is `t` again. Among these events, a `PlayNoteEvent` starts at
`t - GRACE_NOTE_DURATION` and has the duration `GRACE_NOTE_DURATION`, and a vibrato-on event
starts at `t - GRACE_NOTE_DURATION`; a `StopNoteEvent` is at `t` (at
`t - GRACE_NOTE_DURATION / 2` for a staccato position), and a vibrato-off event is at `t`. -/
theorem positionLoopBody_grace_note (c : Externals) (score : Score)
    (currentSystemIndex : Nat) (system : System) (staff : Staff) (voice i systemIndex : Nat)
    (guitar : Guitar) (st : VoiceLoopState) (j : Nat) (position : Position)
    (hrest : position.isRest = false) (hgrace : position.isAcciaccatura = true)
    (hdown : position.hasArpeggioDown = false) (hup : position.hasArpeggioUp = false) :
    (positionLoopBody c score currentSystemIndex system staff voice i systemIndex guitar
        st j position).eventList =
        st.eventList ++ position.notes.flatMap (fun note =>
          noteEvents c staff voice j i systemIndex guitar position
            (st.startTime - c.GRACE_NOTE_DURATION) c.GRACE_NOTE_DURATION note) ∧
      (positionLoopBody c score currentSystemIndex system staff voice i systemIndex guitar
        st j position).startTime = st.startTime ∧
      ∀ note ∈ position.notes,
        ∀ e ∈ noteEvents c staff voice j i systemIndex guitar position
            (st.startTime - c.GRACE_NOTE_DURATION) c.GRACE_NOTE_DURATION note,
          (e.isPlayNote = true →
            e.startTime = st.startTime - c.GRACE_NOTE_DURATION ∧
            e.duration = some c.GRACE_NOTE_DURATION) ∧
          (e.isVibratoOn = true → e.startTime = st.startTime - c.GRACE_NOTE_DURATION) ∧
          (e.isStopNote = true →
            e.startTime =
              if position.isStaccato = true then st.startTime - c.GRACE_NOTE_DURATION / 2
              else st.startTime) ∧
          (e.isVibratoOff = true → e.startTime = st.startTime) := by
  obtain ⟨h1, h2, _⟩ := positionLoopBody_exact c score currentSystemIndex system staff voice i
    systemIndex guitar st j position hrest 0 (st.startTime - c.GRACE_NOTE_DURATION)
    c.GRACE_NOTE_DURATION (by simp [hdown, hup]) (by simp [hgrace]) (by simp [hgrace])
  rw [sortForArpeggio_eq_self position hdown hup] at h1
  simp only [mul_zero, add_zero, sub_zero] at h1
  rw [flatMap_enumFrom_snd (fun note => noteEvents c staff voice j i systemIndex guitar
    position (st.startTime - c.GRACE_NOTE_DURATION) c.GRACE_NOTE_DURATION note)] at h1
  refine ⟨h1, by rw [h2]; ring, ?_⟩
  intro note _ e hmem
  rw [mem_noteEvents] at hmem
  rcases hmem with ⟨_, h⟩ | ⟨_, h | h⟩ | ⟨_, _, h⟩
  · subst h
    simp [MidiEvent.isPlayNote, MidiEvent.isVibratoOn, MidiEvent.isStopNote,
      MidiEvent.isVibratoOff]
  · subst h
    simp [MidiEvent.isPlayNote, MidiEvent.isVibratoOn, MidiEvent.isStopNote,
      MidiEvent.isVibratoOff]
  · subst h
    simp [MidiEvent.isPlayNote, MidiEvent.isVibratoOn, MidiEvent.isStopNote,
      MidiEvent.isVibratoOff]
  · subst h
    simp only [MidiEvent.isPlayNote, MidiEvent.isVibratoOn, MidiEvent.isStopNote,
      MidiEvent.isVibratoOff, Bool.false_eq_true, false_implies, true_implies, true_and,
      and_true]
    split <;> ring

/-- Witness of `positionLoopBody_grace_note`: the grace note of `graceStaff` at the running
start time 1000. -/
theorem positionLoopBody_grace_note_witness :
    (positionLoopBody sampleExternals graceScore 0 graceSystem graceStaff 0 0 0 standardGuitar
        { startTime := 1000, endTime := 1000, eventList := [] } 0 graceNote).startTime =
      1000 :=
  (positionLoopBody_grace_note sampleExternals graceScore 0 graceSystem graceStaff 0 0 0
    standardGuitar { startTime := 1000, endTime := 1000, eventList := [] } 0 graceNote
    rfl rfl rfl rfl).2.1

set_option maxRecDepth 1000000 in
/-- The events of `graceSystem` from the start time 1000 on: the note is played at 940 for 60
milliseconds and stopped at 1000, and the end time of the system is 1000. -/
theorem generateEventsForSystem_graceScore :
    generateEventsForSystem sampleExternals graceScore 0 graceSystem 0 1000 [] =
      (1000,
        [⟨0, 940, some 60, 0, 0, .playNote 64 standardGuitar false 127⟩,
         ⟨0, 1000, none, 0, 0, .stopNote 64⟩]) := by
  with_unfolding_all rfl

/-- C28, counterexample: the only position of `graceSystem` is a grace note without arpeggio,
and its running start time is 1000, the start time of the system. The `StopNoteEvent` of
the position is at 1000, which is not `1000 - GRACE_NOTE_DURATION = 940`, and it has no
duration. -/
theorem generateEventsForSystem_grace_stop_at_running_time :
    ∃ e ∈ (generateEventsForSystem sampleExternals graceScore 0 graceSystem 0 1000 []).2,
      e.positionIndex = graceNote.position ∧
      e.startTime ≠ 1000 - sampleExternals.GRACE_NOTE_DURATION ∧
      e.duration ≠ some sampleExternals.GRACE_NOTE_DURATION := by
  rw [generateEventsForSystem_graceScore]
  refine ⟨⟨0, 1000, none, 0, 0, .stopNote 64⟩, by simp, rfl, ?_, ?_⟩
  · simp only [sampleExternals]
    norm_num
  · simp

/-- C29: one pass of the loop over the positions for a position with an arpeggio (down or
up) that is neither a rest, nor a grace note, nor staccato, at the running start time `t`,
with `d` the duration of the position and `n` the number of its notes. The notes are played
in the order of the sort; the pass pushes, for the `k`-th of them (`k` from 1 to `n`), the
events of the note with the start time `t + k * ARPEGGIO_OFFSET` and the duration
`d - k * ARPEGGIO_OFFSET`: a `PlayNoteEvent` among them has that start time and that
duration, and a `StopNoteEvent` among them is at `t + d`. The running start time after the
pass is `t + d`. -/
theorem positionLoopBody_arpeggio (c : Externals) (score : Score)
    (currentSystemIndex : Nat) (system : System) (staff : Staff) (voice i systemIndex : Nat)
    (guitar : Guitar) (st : VoiceLoopState) (j : Nat) (position : Position)
    (hrest : position.isRest = false) (hgrace : position.isAcciaccatura = false)
    (hstaccato : position.isStaccato = false)
    (harp : position.hasArpeggioDown = true ∨ position.hasArpeggioUp = true) :
    (positionLoopBody c score currentSystemIndex system staff voice i systemIndex guitar
        st j position).eventList =
        st.eventList ++ (position.sortForArpeggio.notes.enumFrom 1).flatMap (fun kn =>
          noteEvents c staff voice j i systemIndex guitar position.sortForArpeggio
            (st.startTime + (kn.1 : ℚ) * c.ARPEGGIO_OFFSET)
            (calculateNoteDuration c score currentSystemIndex position -
              (kn.1 : ℚ) * c.ARPEGGIO_OFFSET) kn.2) ∧
      (position.sortForArpeggio.notes.enumFrom 1).map Prod.fst =
        List.range' 1 position.notes.length ∧
      (∀ kn ∈ position.sortForArpeggio.notes.enumFrom 1,
        ∀ e ∈ noteEvents c staff voice j i systemIndex guitar position.sortForArpeggio
            (st.startTime + (kn.1 : ℚ) * c.ARPEGGIO_OFFSET)
            (calculateNoteDuration c score currentSystemIndex position -
              (kn.1 : ℚ) * c.ARPEGGIO_OFFSET) kn.2,
          (e.isPlayNote = true →
            e.startTime = st.startTime + (kn.1 : ℚ) * c.ARPEGGIO_OFFSET ∧
            e.duration = some (calculateNoteDuration c score currentSystemIndex position -
              (kn.1 : ℚ) * c.ARPEGGIO_OFFSET)) ∧
          (e.isStopNote = true →
            e.startTime =
              st.startTime + calculateNoteDuration c score currentSystemIndex position)) ∧
      (positionLoopBody c score currentSystemIndex system staff voice i systemIndex guitar
        st j position).startTime =
        st.startTime + calculateNoteDuration c score currentSystemIndex position := by
  have ha : c.ARPEGGIO_OFFSET =
      if (position.hasArpeggioDown || position.hasArpeggioUp) = true then c.ARPEGGIO_OFFSET
      else 0 := by
    rcases harp with h | h <;> simp [h]
  obtain ⟨h1, h2, _⟩ := positionLoopBody_exact c score currentSystemIndex system staff voice i
    systemIndex guitar st j position hrest c.ARPEGGIO_OFFSET st.startTime
    (calculateNoteDuration c score currentSystemIndex position) ha (by simp [hgrace])
    (by simp [hgrace])
  obtain ⟨_, hstac, _, _, _, _⟩ := sortForArpeggio_flags position
  refine ⟨h1, ?_, ?_, h2⟩
  · rw [List.enumFrom_map_fst, (sortForArpeggio_notes position).2.length_eq]
  · intro kn _ e hmem
    rw [mem_noteEvents] at hmem
    rcases hmem with ⟨_, h⟩ | ⟨_, h | h⟩ | ⟨_, _, h⟩
    · subst h
      simp [MidiEvent.isPlayNote, MidiEvent.isStopNote]
    · subst h
      simp [MidiEvent.isPlayNote, MidiEvent.isStopNote]
    · subst h
      simp [MidiEvent.isPlayNote, MidiEvent.isStopNote]
    · subst h
      simp only [MidiEvent.isPlayNote, MidiEvent.isStopNote, Bool.false_eq_true,
        false_implies, true_implies, true_and, hstac, hstaccato, if_false]
      ring

/-- Witness of `positionLoopBody_arpeggio`: the chord `arpeggioChord` of `arpeggioStaff` at the
running start time 1000, after which the running start time is 1000 plus the duration of the
chord. -/
theorem positionLoopBody_arpeggio_witness :
    (positionLoopBody sampleExternals arpeggioScore 0 defaultSystem arpeggioStaff 0 0 0
        standardGuitar { startTime := 1000, endTime := 1000, eventList := [] } 0
        arpeggioChord).startTime =
      1000 + calculateNoteDuration sampleExternals arpeggioScore 0 arpeggioChord :=
  (positionLoopBody_arpeggio sampleExternals arpeggioScore 0 defaultSystem arpeggioStaff 0 0 0
    standardGuitar { startTime := 1000, endTime := 1000, eventList := [] } 0 arpeggioChord
    rfl rfl rfl (Or.inl rfl)).2.2.2


set_option maxRecDepth 1000000 in
/-- The events of a system whose only staff is `vibratoStaff`, from the start time 0 on: the
tied note of `vibratoNote` is not played, and the vibrato is turned on at 0 and off at
500. -/
theorem generateEventsForSystem_vibratoStaff :
    generateEventsForSystem sampleExternals twoVoiceScore 0
        { staffArray := [vibratoStaff] } 0 0 [] =
      (500,
        [⟨0, 0, none, 0, 0, .vibrato .VIBRATO_ON (some .NORMAL_VIBRATO)⟩,
         ⟨0, 500, none, 0, 0, .vibrato .VIBRATO_OFF none⟩,
         ⟨0, 500, none, 0, 0, .stopNote 64⟩]) := by
  with_unfolding_all rfl

/-- The running start time after one pass of the loop over the positions: a rest adds its
duration (the duration of the bar for a whole rest that is alone in its bar), a grace note
adds nothing, and another position adds its duration. -/
theorem positionLoopBody_startTime (c : Externals) (score : Score) (currentSystemIndex : Nat)
    (system : System) (staff : Staff) (voice i systemIndex : Nat) (guitar : Guitar)
    (st : VoiceLoopState) (j : Nat) (position : Position) :
    (positionLoopBody c score currentSystemIndex system staff voice i systemIndex guitar
        st j position).startTime =
      st.startTime +
        (if position.isRest = true then
          (if position.durationType = 1 then
            getWholeRestDuration c score currentSystemIndex system staff position
              (calculateNoteDuration c score currentSystemIndex position)
          else calculateNoteDuration c score currentSystemIndex position)
        else if position.isAcciaccatura = true then 0
        else calculateNoteDuration c score currentSystemIndex position) := by
  cases hrest : position.isRest with
  | true => simp only [positionLoopBody, hrest, if_true]
  | false =>
    obtain ⟨_, h2, _⟩ := positionLoopBody_exact c score currentSystemIndex system staff voice i
      systemIndex guitar st j position hrest _ _ _ rfl rfl rfl
    rw [h2]
    cases hgrace : position.isAcciaccatura <;> simp

/-- The end time after one pass of the loop over the positions: a rest leaves it as it is,
and another position raises it to the running start time after the pass when that is
greater. -/
theorem positionLoopBody_endTime (c : Externals) (score : Score) (currentSystemIndex : Nat)
    (system : System) (staff : Staff) (voice i systemIndex : Nat) (guitar : Guitar)
    (st : VoiceLoopState) (j : Nat) (position : Position) :
    (positionLoopBody c score currentSystemIndex system staff voice i systemIndex guitar
        st j position).endTime =
      if position.isRest = true then st.endTime
      else max st.endTime
        (positionLoopBody c score currentSystemIndex system staff voice i systemIndex guitar
          st j position).startTime := by
  cases hrest : position.isRest with
  | true => simp only [positionLoopBody, hrest, if_true]
  | false =>
    obtain ⟨_, h2, h3⟩ := positionLoopBody_exact c score currentSystemIndex system staff voice
      i systemIndex guitar st j position hrest _ _ _ rfl rfl rfl
    rw [h2, h3]
    simp

/-- The loop over the positions of a voice ends with the pass for the last position. -/
theorem positionLoop_snoc (c : Externals) (score : Score) (currentSystemIndex : Nat)
    (system : System) (staff : Staff) (voice i systemIndex : Nat) (guitar : Guitar)
    (positions : List Position) (position : Position) (j : Nat) (st : VoiceLoopState) :
    positionLoop c score currentSystemIndex system staff voice i systemIndex guitar j
        (positions ++ [position]) st =
      positionLoopBody c score currentSystemIndex system staff voice i systemIndex guitar
        (positionLoop c score currentSystemIndex system staff voice i systemIndex guitar j
          positions st) (j + positions.length) position := by
  induction positions generalizing j st with
  | nil => rfl
  | cons p rest ih =>
    have hidx : j + (p :: rest).length = j + 1 + rest.length := by
      rw [List.length_cons]
      omega
    rw [hidx]
    exact ih (j + 1) _

/-- The running start time after the loop over the positions depends on the running start
time before the loop only, not on the end time or the events. -/
theorem positionLoop_startTime_congr (c : Externals) (score : Score)
    (currentSystemIndex : Nat) (system : System) (staff : Staff) (voice i systemIndex : Nat)
    (guitar : Guitar) (positions : List Position) (j j2 : Nat) (st st2 : VoiceLoopState)
    (h : st.startTime = st2.startTime) :
    (positionLoop c score currentSystemIndex system staff voice i systemIndex guitar j
        positions st).startTime =
      (positionLoop c score currentSystemIndex system staff voice i systemIndex guitar j2
        positions st2).startTime := by
  induction positions generalizing j j2 st st2 with
  | nil => exact h
  | cons p rest ih =>
    refine ih (j + 1) (j2 + 1) _ _ ?_
    rw [positionLoopBody_startTime, positionLoopBody_startTime, h]

/-- The end time after the loop over the positions of a voice is the greatest of the end time
before the loop and of the running start times after the positions that are not rests. -/
theorem positionLoop_endTime (c : Externals) (score : Score) (currentSystemIndex : Nat)
    (system : System) (staff : Staff) (voice i systemIndex : Nat) (guitar : Guitar)
    (positions : List Position) (j : Nat) (st : VoiceLoopState) :
    st.endTime ≤
        (positionLoop c score currentSystemIndex system staff voice i systemIndex guitar j
          positions st).endTime ∧
      (∀ k p, positions[k]? = some p → p.isRest = false →
        (positionLoop c score currentSystemIndex system staff voice i systemIndex guitar j
          (positions.take (k + 1)) st).startTime ≤
        (positionLoop c score currentSystemIndex system staff voice i systemIndex guitar j
          positions st).endTime) ∧
      ((positionLoop c score currentSystemIndex system staff voice i systemIndex guitar j
          positions st).endTime = st.endTime ∨
        ∃ k p, positions[k]? = some p ∧ p.isRest = false ∧
          (positionLoop c score currentSystemIndex system staff voice i systemIndex guitar j
            positions st).endTime =
          (positionLoop c score currentSystemIndex system staff voice i systemIndex guitar j
            (positions.take (k + 1)) st).startTime) := by
  induction positions using List.reverseRecOn with
  | nil =>
    refine ⟨le_refl _, ?_, Or.inl rfl⟩
    intro k p hk
    simp at hk
  | append_singleton ps p ih =>
    obtain ⟨ih1, ih2, ih3⟩ := ih
    have hin : ∀ k q, (ps ++ [p])[k]? = some q →
        (k < ps.length ∧ ps[k]? = some q ∧ (ps ++ [p]).take (k + 1) = ps.take (k + 1)) ∨
        (k = ps.length ∧ q = p ∧ (ps ++ [p]).take (k + 1) = ps ++ [p]) := by
      intro k q hk
      rcases Nat.lt_trichotomy k ps.length with hlt | heq | hgt
      · left
        rw [List.getElem?_append_left hlt] at hk
        exact ⟨hlt, hk, List.take_append_of_le_length (by omega)⟩
      · right
        subst heq
        rw [List.getElem?_append_right (le_refl _)] at hk
        simp only [Nat.sub_self, List.getElem?_cons_zero, Option.some.injEq] at hk
        refine ⟨rfl, hk.symm, ?_⟩
        rw [List.take_of_length_le]
        simp
      · rw [List.getElem?_eq_none (by simp; omega)] at hk
        exact Option.noConfusion hk
    have hout : ∀ k q, ps[k]? = some q →
        (ps ++ [p])[k]? = some q ∧ (ps ++ [p]).take (k + 1) = ps.take (k + 1) := by
      intro k q hk
      have hlt : k < ps.length := by
        by_contra hge
        rw [List.getElem?_eq_none (by omega)] at hk
        exact Option.noConfusion hk
      exact ⟨by rw [List.getElem?_append_left hlt]; exact hk,
        List.take_append_of_le_length (by omega)⟩
    have hlast : (ps ++ [p])[ps.length]? = some p ∧
        (ps ++ [p]).take (ps.length + 1) = ps ++ [p] := by
      refine ⟨by simp, ?_⟩
      rw [List.take_of_length_le]
      simp
    have hE := positionLoopBody_endTime c score currentSystemIndex system staff voice i
      systemIndex guitar
      (positionLoop c score currentSystemIndex system staff voice i systemIndex guitar j ps st)
      (j + ps.length) p
    rw [← positionLoop_snoc] at hE
    cases hrest : p.isRest with
    | true =>
      rw [hrest, if_pos rfl] at hE
      rw [hE]
      refine ⟨ih1, ?_, ?_⟩
      · intro k q hk hq
        rcases hin k q hk with ⟨_, hk2, htake⟩ | ⟨_, hqp, _⟩
        · rw [htake]
          exact ih2 k q hk2 hq
        · rw [hqp, hrest] at hq
          exact absurd hq (by simp)
      · rcases ih3 with h | ⟨k, q, hk, hq, h⟩
        · exact Or.inl h
        · obtain ⟨hk2, htake⟩ := hout k q hk
          exact Or.inr ⟨k, q, hk2, hq, by rw [htake]; exact h⟩
    | false =>
      rw [hrest, if_neg (by simp)] at hE
      rw [hE]
      refine ⟨le_trans ih1 (le_max_left _ _), ?_, ?_⟩
      · intro k q hk hq
        rcases hin k q hk with ⟨_, hk2, htake⟩ | ⟨_, _, htake⟩
        · rw [htake]
          exact le_trans (ih2 k q hk2 hq) (le_max_left _ _)
        · rw [htake]
          exact le_max_right _ _
      · rcases max_cases
          (positionLoop c score currentSystemIndex system staff voice i systemIndex guitar j
            ps st).endTime
          (positionLoop c score currentSystemIndex system staff voice i systemIndex guitar j
            (ps ++ [p]) st).startTime with ⟨hmax, _⟩ | ⟨hmax, _⟩
        · rw [hmax]
          rcases ih3 with h | ⟨k, q, hk, hq, h⟩
          · exact Or.inl h
          · obtain ⟨hk2, htake⟩ := hout k q hk
            exact Or.inr ⟨k, q, hk2, hq, by rw [htake]; exact h⟩
        · rw [hmax]
          exact Or.inr ⟨ps.length, p, hlast.1, hrest, by rw [hlast.2]⟩


/-- The end time after one pass of the loop over the voices is the greatest of the end time
before the pass and of the running start times after the positions of the voice that are
not rests. -/
theorem voiceLoopBody_endTime (c : Externals) (score : Score) (currentSystemIndex : Nat)
    (system : System) (staff : Staff) (i systemIndex : Nat) (guitar : Guitar)
    (systemStartTime : ℚ) (acc : ℚ × List MidiEvent) (voice : Nat) :
    acc.1 ≤
        (voiceLoopBody c score currentSystemIndex system staff i systemIndex guitar
          systemStartTime acc voice).1 ∧
      (∀ j p, (staff.positionArrays voice)[j]? = some p → p.isRest = false →
        runningStartTime c score currentSystemIndex system staff voice i systemIndex guitar
          systemStartTime (j + 1) ≤
        (voiceLoopBody c score currentSystemIndex system staff i systemIndex guitar
          systemStartTime acc voice).1) ∧
      ((voiceLoopBody c score currentSystemIndex system staff i systemIndex guitar
          systemStartTime acc voice).1 = acc.1 ∨
        ∃ j p, (staff.positionArrays voice)[j]? = some p ∧ p.isRest = false ∧
          (voiceLoopBody c score currentSystemIndex system staff i systemIndex guitar
            systemStartTime acc voice).1 =
          runningStartTime c score currentSystemIndex system staff voice i systemIndex guitar
            systemStartTime (j + 1)) := by
  obtain ⟨h1, h2, h3⟩ := positionLoop_endTime c score currentSystemIndex system staff voice i
    systemIndex guitar (staff.positionArrays voice) 0
    { startTime := systemStartTime, endTime := acc.1, eventList := acc.2 }
  have hrun : ∀ n,
      (positionLoop c score currentSystemIndex system staff voice i systemIndex guitar 0
        ((staff.positionArrays voice).take n)
        { startTime := systemStartTime, endTime := acc.1, eventList := acc.2 }).startTime =
      runningStartTime c score currentSystemIndex system staff voice i systemIndex guitar
        systemStartTime n :=
    fun n => positionLoop_startTime_congr c score currentSystemIndex system staff voice i
      systemIndex guitar _ 0 0 _ _ rfl
  refine ⟨h1, ?_, ?_⟩
  · intro j p hj hp
    rw [← hrun]
    exact h2 j p hj hp
  · rcases h3 with h | ⟨j, p, hj, hp, h⟩
    · exact Or.inl h
    · refine Or.inr ⟨j, p, hj, hp, ?_⟩
      rw [← hrun]
      exact h

/-- The end time after the loop over a list of voices of a staff. -/
theorem voiceLoop_endTime (c : Externals) (score : Score) (currentSystemIndex : Nat)
    (system : System) (staff : Staff) (i systemIndex : Nat) (guitar : Guitar)
    (systemStartTime : ℚ) (voices : List Nat) (acc : ℚ × List MidiEvent) :
    acc.1 ≤
        (voices.foldl
          (voiceLoopBody c score currentSystemIndex system staff i systemIndex guitar
            systemStartTime) acc).1 ∧
      (∀ voice ∈ voices, ∀ j p, (staff.positionArrays voice)[j]? = some p →
        p.isRest = false →
        runningStartTime c score currentSystemIndex system staff voice i systemIndex guitar
          systemStartTime (j + 1) ≤
        (voices.foldl
          (voiceLoopBody c score currentSystemIndex system staff i systemIndex guitar
            systemStartTime) acc).1) ∧
      ((voices.foldl
          (voiceLoopBody c score currentSystemIndex system staff i systemIndex guitar
            systemStartTime) acc).1 = acc.1 ∨
        ∃ voice ∈ voices, ∃ j p, (staff.positionArrays voice)[j]? = some p ∧
          p.isRest = false ∧
          (voices.foldl
            (voiceLoopBody c score currentSystemIndex system staff i systemIndex guitar
              systemStartTime) acc).1 =
          runningStartTime c score currentSystemIndex system staff voice i systemIndex guitar
            systemStartTime (j + 1)) := by
  induction voices generalizing acc with
  | nil =>
    exact ⟨le_refl _, fun voice h => absurd h (List.not_mem_nil _), Or.inl rfl⟩
  | cons v rest ih =>
    rw [List.foldl_cons]
    obtain ⟨ih1, ih2, ih3⟩ := ih
      (voiceLoopBody c score currentSystemIndex system staff i systemIndex guitar
        systemStartTime acc v)
    obtain ⟨b1, b2, b3⟩ := voiceLoopBody_endTime c score currentSystemIndex system staff i
      systemIndex guitar systemStartTime acc v
    refine ⟨le_trans b1 ih1, ?_, ?_⟩
    · intro voice hmem j p hj hp
      rcases List.mem_cons.mp hmem with rfl | hin
      · exact le_trans (b2 j p hj hp) ih1
      · exact ih2 voice hin j p hj hp
    · rcases ih3 with h | ⟨voice, hin, j, p, hj, hp, h⟩
      · rcases b3 with hb | ⟨j, p, hj, hp, hb⟩
        · exact Or.inl (h.trans hb)
        · exact Or.inr ⟨v, List.mem_cons_self _ _, j, p, hj, hp, h.trans hb⟩
      · exact Or.inr ⟨voice, List.mem_cons_of_mem _ hin, j, p, hj, hp, h⟩

/-- The end time after the loop over a list of staves with their indices. -/
theorem staffLoop_endTime (c : Externals) (score : Score) (currentSystemIndex : Nat)
    (system : System) (systemIndex : Nat) (systemStartTime : ℚ)
    (staves : List (Nat × Staff)) (acc : ℚ × List MidiEvent) :
    acc.1 ≤
        (staves.foldl
          (staffLoopBody c score currentSystemIndex system systemIndex systemStartTime)
          acc).1 ∧
      (∀ indexed ∈ staves, ∀ voice, voice < c.NUM_STAFF_VOICES →
        ∀ j p, (indexed.2.positionArrays voice)[j]? = some p → p.isRest = false →
        runningStartTime c score currentSystemIndex system indexed.2 voice indexed.1
          systemIndex (score.guitar indexed.1) systemStartTime (j + 1) ≤
        (staves.foldl
          (staffLoopBody c score currentSystemIndex system systemIndex systemStartTime)
          acc).1) ∧
      ((staves.foldl
          (staffLoopBody c score currentSystemIndex system systemIndex systemStartTime)
          acc).1 = acc.1 ∨
        ∃ indexed ∈ staves, ∃ voice, voice < c.NUM_STAFF_VOICES ∧
          ∃ j p, (indexed.2.positionArrays voice)[j]? = some p ∧ p.isRest = false ∧
          (staves.foldl
            (staffLoopBody c score currentSystemIndex system systemIndex systemStartTime)
            acc).1 =
          runningStartTime c score currentSystemIndex system indexed.2 voice indexed.1
            systemIndex (score.guitar indexed.1) systemStartTime (j + 1)) := by
  induction staves generalizing acc with
  | nil =>
    exact ⟨le_refl _, fun indexed h => absurd h (List.not_mem_nil _), Or.inl rfl⟩
  | cons s rest ih =>
    rw [List.foldl_cons]
    obtain ⟨ih1, ih2, ih3⟩ := ih
      (staffLoopBody c score currentSystemIndex system systemIndex systemStartTime acc s)
    obtain ⟨b1, b2, b3⟩ := voiceLoop_endTime c score currentSystemIndex system s.2 s.1
      systemIndex (score.guitar s.1) systemStartTime (List.range c.NUM_STAFF_VOICES) acc
    refine ⟨le_trans b1 ih1, ?_, ?_⟩
    · intro indexed hmem voice hvoice j p hj hp
      rcases List.mem_cons.mp hmem with rfl | hin
      · exact le_trans (b2 voice (List.mem_range.mpr hvoice) j p hj hp) ih1
      · exact ih2 indexed hin voice hvoice j p hj hp
    · rcases ih3 with h | ⟨indexed, hin, voice, hvoice, j, p, hj, hp, h⟩
      · rcases b3 with hb | ⟨voice, hvoice, j, p, hj, hp, hb⟩
        · exact Or.inl (h.trans hb)
        · exact Or.inr ⟨s, List.mem_cons_self _ _, voice, List.mem_range.mp hvoice, j, p, hj,
            hp, h.trans hb⟩
      · exact Or.inr ⟨indexed, List.mem_cons_of_mem _ hin, voice, hvoice, j, p, hj, hp, h⟩

/-- C25, as the code has it: the running start time of a voice begins at the start time `t0`
of the system and advances with every position of the voice: by the duration of a rest
(the duration of the bar for a whole rest that is alone in its bar), by nothing for a grace
note, and by the duration of another position. The end time that `generateEventsForSystem`
returns is the greatest of `t0` and of the running start times after the positions that are
not rests, over all staves and voices: it is at least `t0` and at least each of these
times, and it is `t0` or one of these times. The running start time after a rest is not
among them. -/
theorem generateEventsForSystem_endTime (c : Externals) (score : Score)
    (currentSystemIndex : Nat) (system : System) (systemIndex : Nat) (systemStartTime : ℚ)
    (eventList : List MidiEvent) :
    (∀ (staff : Staff) (voice i : Nat) (guitar : Guitar),
      runningStartTime c score currentSystemIndex system staff voice i systemIndex guitar
        systemStartTime 0 = systemStartTime) ∧
      (∀ (staff : Staff) (voice i : Nat) (guitar : Guitar) (n : Nat) (p : Position),
        (staff.positionArrays voice)[n]? = some p →
        runningStartTime c score currentSystemIndex system staff voice i systemIndex guitar
          systemStartTime (n + 1) =
        runningStartTime c score currentSystemIndex system staff voice i systemIndex guitar
          systemStartTime n +
          (if p.isRest = true then
            (if p.durationType = 1 then
              getWholeRestDuration c score currentSystemIndex system staff p
                (calculateNoteDuration c score currentSystemIndex p)
            else calculateNoteDuration c score currentSystemIndex p)
          else if p.isAcciaccatura = true then 0
          else calculateNoteDuration c score currentSystemIndex p)) ∧
      systemStartTime ≤
        (generateEventsForSystem c score currentSystemIndex system systemIndex
          systemStartTime eventList).1 ∧
      (∀ (i : Nat) (staff : Staff) (voice j : Nat) (p : Position),
        system.staffArray[i]? = some staff → voice < c.NUM_STAFF_VOICES →
        (staff.positionArrays voice)[j]? = some p → p.isRest = false →
        runningStartTime c score currentSystemIndex system staff voice i systemIndex
          (score.guitar i) systemStartTime (j + 1) ≤
        (generateEventsForSystem c score currentSystemIndex system systemIndex
          systemStartTime eventList).1) ∧
      ((generateEventsForSystem c score currentSystemIndex system systemIndex
          systemStartTime eventList).1 = systemStartTime ∨
        ∃ (i : Nat) (staff : Staff) (voice j : Nat) (p : Position),
          system.staffArray[i]? = some staff ∧ voice < c.NUM_STAFF_VOICES ∧
          (staff.positionArrays voice)[j]? = some p ∧ p.isRest = false ∧
          (generateEventsForSystem c score currentSystemIndex system systemIndex
            systemStartTime eventList).1 =
          runningStartTime c score currentSystemIndex system staff voice i systemIndex
            (score.guitar i) systemStartTime (j + 1)) := by
  obtain ⟨h1, h2, h3⟩ := staffLoop_endTime c score currentSystemIndex system systemIndex
    systemStartTime system.staffArray.enum (systemStartTime, eventList)
  refine ⟨?_, ?_, h1, ?_, ?_⟩
  · intro staff voice i guitar
    simp [runningStartTime, positionLoop]
  · intro staff voice i guitar n p hn
    have hlt : n < (staff.positionArrays voice).length := by
      by_contra hge
      rw [List.getElem?_eq_none (by omega)] at hn
      exact Option.noConfusion hn
    have htake : (staff.positionArrays voice).take (n + 1) =
        (staff.positionArrays voice).take n ++ [p] := by
      rw [List.take_succ, hn]
      rfl
    unfold runningStartTime
    rw [htake, positionLoop_snoc, positionLoopBody_startTime]
  · intro i staff voice j p hstaff hvoice hj hp
    exact h2 (i, staff) (List.mk_mem_enum_iff_getElem?.mpr hstaff) voice hvoice j p hj hp
  · rcases h3 with h | ⟨indexed, hin, voice, hvoice, j, p, hj, hp, h⟩
    · exact Or.inl h
    · exact Or.inr ⟨indexed.1, indexed.2, voice, j, p,
        List.mk_mem_enum_iff_getElem?.mp hin, hvoice, hj, hp, h⟩

set_option maxRecDepth 1000000 in
/-- The end time of `restSystem` from the start time 0 on, and the running start time of the
first voice of `restStaff` after its only position, a whole rest of 2000 milliseconds. -/
theorem generateEventsForSystem_restScore :
    generateEventsForSystem sampleExternals restScore 0 restSystem 0 0 [] = (0, []) ∧
      runningStartTime sampleExternals restScore 0 restSystem restStaff 0 0 0 standardGuitar
        0 1 = 2000 := by
  constructor <;> with_unfolding_all rfl

/-- C25, counterexample: the only staff of `restSystem` has a whole rest as the only position
of its first voice and nothing in its second voice. From the start time 0 on, the final
running start time of the first voice is 2000, and `generateEventsForSystem` returns the end
time 0: the rest does not count for the end time of the system. -/
theorem generateEventsForSystem_rest_not_in_endTime :
    restSystem.staffArray = [restStaff] ∧
      (restStaff.positionArrays 0).length = 1 ∧
      runningStartTime sampleExternals restScore 0 restSystem restStaff 0 0 0
        (restScore.guitar 0) 0 (restStaff.positionArrays 0).length = 2000 ∧
      (generateEventsForSystem sampleExternals restScore 0 restSystem 0 0 []).1 = 0 ∧
      (generateEventsForSystem sampleExternals restScore 0 restSystem 0 0 []).1 ≠
        max 0 (runningStartTime sampleExternals restScore 0 restSystem restStaff 0 0 0
          (restScore.guitar 0) 0 (restStaff.positionArrays 0).length) := by
  have hrun : runningStartTime sampleExternals restScore 0 restSystem restStaff 0 0 0
      (restScore.guitar 0) 0 (restStaff.positionArrays 0).length = 2000 :=
    generateEventsForSystem_restScore.2
  refine ⟨rfl, rfl, hrun, ?_, ?_⟩
  · rw [generateEventsForSystem_restScore.1]
  · rw [hrun, generateEventsForSystem_restScore.1]
    norm_num


/-- Witness of `generateEventsForSystem_endTime`: the end time of `twoVoiceSystem` from the
start time 0 on is at least 0. -/
theorem generateEventsForSystem_endTime_witness :
    (0 : ℚ) ≤ (generateEventsForSystem sampleExternals twoVoiceScore 0 twoVoiceSystem 0 0 []).1 :=
  (generateEventsForSystem_endTime sampleExternals twoVoiceScore 0 twoVoiceSystem 0 0 []).2.2.1


/-! ## Theorems: the end bar in a file -/

/-- The type and the repeat count are read back from the byte that holds them. -/
theorem endBar_byte_round_trip :
    ∀ t < 8, ∀ r < 32,
      ((((t <<< 5) ||| r) % 256 &&& 0xe0) >>> 5) % 256 = t ∧
        ((((t <<< 5) ||| r) % 256) &&& 0x1f) % 256 = r := by
  decide

/-- C38: the byte of the end bar round-trips. For an end bar whose type is below 8 and whose
repeat count is below 32, the byte that `Serialize` writes is `t * 32 + r`, and the type and
the repeat count that `Deserialize` reads from that byte, for a file of version 1.5 and up,
are the type and the repeat count of the end bar. -/
theorem deserializedEndBar_serializedEndBar (s : System) (ht : s.endBar.type.val < 8)
    (hr : s.endBar.repeatCount.val < 32) :
    deserializedEndBar s.serializedEndBar = (s.endBar.type, s.endBar.repeatCount) := by
  obtain ⟨h1, h2⟩ := endBar_byte_round_trip s.endBar.type.val ht s.endBar.repeatCount.val hr
  unfold deserializedEndBar System.serializedEndBar
  refine Prod.ext (Fin.ext ?_) (Fin.ext ?_)
  · exact h1
  · exact h2

/-- Witness of `deserializedEndBar_serializedEndBar`: the end bar of `repeatEndSystem`, of type
3 and repeat count 2. -/
theorem deserializedEndBar_serializedEndBar_witness :
    deserializedEndBar repeatEndSystem.serializedEndBar = (3, 2) :=
  deserializedEndBar_serializedEndBar repeatEndSystem (by decide) (by decide)

/-! ## Theorems: the metronome -/

/-- The loop over the pulses of a bar, from the pulse `j` on: the start time after the loop
and the events that it pushes, a `MetronomeEvent` and a `StopNoteEvent` one pulse later for
each pulse. -/
theorem pulseLoop_eq (c : Externals) (duration : ℚ) (position systemIndex : Nat)
    (n j : Nat) (startTime : ℚ) (eventList : List MidiEvent) :
    pulseLoop c duration position systemIndex j n startTime eventList =
      (startTime + (n : ℚ) * duration,
        eventList ++ (List.range n).flatMap (fun k =>
          [⟨c.METRONOME_CHANNEL, startTime + (k : ℚ) * duration, some duration, position,
              systemIndex,
              .metronome (if j + k = 0 then c.STRONG_ACCENT else c.WEAK_ACCENT)⟩,
            ⟨c.METRONOME_CHANNEL, startTime + ((k : ℚ) + 1) * duration, none, position,
              systemIndex, .stopNote c.METRONOME_PITCH⟩])) := by
  induction n generalizing j startTime eventList with
  | zero => simp [pulseLoop]
  | succ n ih =>
    rw [pulseLoop, ih, List.range_succ_eq_map, List.flatMap_cons, List.flatMap_map]
    refine Prod.ext ?_ ?_
    · simp only
      push_cast
      ring
    · simp only [List.append_assoc, List.singleton_append, Nat.add_zero, Nat.cast_zero,
        zero_mul, add_zero, zero_add, one_mul, List.cons_append, List.nil_append]
      congr 3
      refine List.flatMap_congr ?_
      intro k _
      have h1 : startTime + duration + (k : ℚ) * duration =
          startTime + ((k + 1 : Nat) : ℚ) * duration := by
        push_cast
        ring
      have h2 : startTime + duration + ((k : ℚ) + 1) * duration =
          startTime + (((k + 1 : Nat) : ℚ) + 1) * duration := by
        push_cast
        ring
      have h3 : j + 1 + k = j + (k + 1) := by omega
      rw [h1, h2, h3]


/-- The loop over the barlines of `generateMetronome`, when no bar has zero pulses: the start
time after the loop and the events that it pushes are the ones of the specification. -/
theorem barlineLoop_eq (c : Externals) (score : Score)
    (currentSystemIndex systemIndex : Nat) (barlines : List Barline)
    (h : ∀ b ∈ barlines, b.timeSignature.pulses.val ≠ 0) (startTime : ℚ)
    (eventList : List MidiEvent) :
    barlineLoop c score currentSystemIndex systemIndex barlines startTime eventList =
      some (metronomeEndTime c score currentSystemIndex barlines startTime,
        eventList ++
          metronomeTicksOfBars c score currentSystemIndex systemIndex barlines startTime) := by
  induction barlines generalizing startTime eventList with
  | nil => simp [barlineLoop, metronomeEndTime, metronomeTicksOfBars]
  | cons b rest ih =>
    have hb : b.timeSignature.pulses.val ≠ 0 := h b (List.mem_cons_self _ _)
    have hrest := fun (t : ℚ) (evs : List MidiEvent) =>
      ih (fun b2 hb2 => h b2 (List.mem_cons_of_mem _ hb2)) t evs
    simp only [barlineLoop, hb, if_false, pulseLoop_eq, hrest, metronomeEndTime,
      metronomeTicksOfBars, metronomeTicks, metronomePulseDuration, Nat.zero_add,
      List.append_assoc]

/-- The number of the metronome ticks of a list of bars: two events for each pulse. -/
theorem metronomeTicksOfBars_length (c : Externals) (score : Score)
    (currentSystemIndex systemIndex : Nat) (barlines : List Barline) (startTime : ℚ) :
    (metronomeTicksOfBars c score currentSystemIndex systemIndex barlines startTime).length =
      2 * (barlines.map (fun b => b.timeSignature.pulses.val)).sum := by
  induction barlines generalizing startTime with
  | nil => rfl
  | cons b rest ih =>
    have hticks : ∀ (d : ℚ) (p s n : Nat) (t : ℚ),
        (metronomeTicks c d p s n t).length = 2 * n := by
      intro d p s n t
      unfold metronomeTicks
      induction n with
      | zero => rfl
      | succ n ihn =>
        rw [List.range_succ, List.flatMap_append, List.length_append, ihn]
        simp
        omega
    simp only [metronomeTicksOfBars, List.length_append, hticks, ih, List.map_cons,
      List.sum_cons]
    omega

/-- The metronome of a system in which no bar (no barline other than the end bar) has a
time signature of zero pulses: `generateMetronome` returns, and it appends to the
event list the metronome ticks of the bars, for the start bar and then the internal barlines
in their order, and then one `StopNoteEvent` of the metronome pitch on the metronome channel
at the position of the end bar, at the time at which the ticks end. The ticks of a bar are,
for each of its `numPulses` pulses, a `MetronomeEvent` (with the strong accent for the pulse
0 and the weak accent for the others) and a `StopNoteEvent` of the metronome pitch one
pulse later; the number of events that are appended is twice the sum of the numbers of
pulses, plus one. -/
theorem generateMetronome_eq (c : Externals) (score : Score) (currentSystemIndex : Nat)
    (system : System) (systemIndex : Nat) (startTime : ℚ) (eventList : List MidiEvent)
    (h : ∀ b ∈ system.startBar :: system.barlineArray, b.timeSignature.pulses.val ≠ 0) :
    system.GetBarlines.dropLast = system.startBar :: system.barlineArray ∧
      generateMetronome c score currentSystemIndex system systemIndex startTime eventList =
        some (eventList ++
          (metronomeTicksOfBars c score currentSystemIndex systemIndex
              (system.startBar :: system.barlineArray) startTime ++
            [⟨c.METRONOME_CHANNEL,
              metronomeEndTime c score currentSystemIndex
                (system.startBar :: system.barlineArray) startTime,
              none, system.endBar.position, systemIndex,
              .stopNote c.METRONOME_PITCH⟩])) ∧
      (metronomeTicksOfBars c score currentSystemIndex systemIndex
            (system.startBar :: system.barlineArray) startTime ++
          ([⟨c.METRONOME_CHANNEL,
            metronomeEndTime c score currentSystemIndex
              (system.startBar :: system.barlineArray) startTime,
            none, system.endBar.position, systemIndex,
            .stopNote c.METRONOME_PITCH⟩] : List MidiEvent)).length =
        2 * ((system.startBar :: system.barlineArray).map
          (fun b => b.timeSignature.pulses.val)).sum + 1 := by
  have hbars : system.GetBarlines.dropLast = system.startBar :: system.barlineArray := by
    unfold System.GetBarlines
    rw [List.dropLast_concat]
    rfl
  refine ⟨hbars, ?_, ?_⟩
  · unfold generateMetronome
    simp only [hbars]
    rw [barlineLoop_eq c score currentSystemIndex systemIndex _ h]
    simp only [List.append_assoc]
  · rw [List.length_append, metronomeTicksOfBars_length]
    rfl

/-- Witness of `generateMetronome_eq`: the metronome of `twoVoiceSystem`, whose only bar has
one pulse. -/
theorem generateMetronome_eq_witness :
    (metronomeTicksOfBars sampleExternals twoVoiceScore 0 0
          (twoVoiceSystem.startBar :: twoVoiceSystem.barlineArray) 0 ++
        ([⟨sampleExternals.METRONOME_CHANNEL,
          metronomeEndTime sampleExternals twoVoiceScore 0
            (twoVoiceSystem.startBar :: twoVoiceSystem.barlineArray) 0,
          none, twoVoiceSystem.endBar.position, 0,
          .stopNote sampleExternals.METRONOME_PITCH⟩] : List MidiEvent)).length =
      2 * ((twoVoiceSystem.startBar :: twoVoiceSystem.barlineArray).map
        (fun b => b.timeSignature.pulses.val)).sum + 1 :=
  (generateMetronome_eq sampleExternals twoVoiceScore 0 twoVoiceSystem 0 0 []
    (by decide)).2.2

/-- C31, failing input: the only bar of `noPulseSystem` has a time signature of zero pulses,
for which no metronome tick and one closing `StopNoteEvent` are to be appended, one event
in all. The quotient `beatsPerMeasure / numPulses` of `generateMetronome` is a quotient of
integers whose divisor is zero: the call does not return an event list. -/
theorem generateMetronome_zero_pulses :
    noPulseSystem.GetBarlines.dropLast = [noPulseSystem.startBar] ∧
      noPulseSystem.startBar.timeSignature.pulses.val = 0 ∧
      2 * ((noPulseSystem.GetBarlines.dropLast).map
        (fun b => b.timeSignature.pulses.val)).sum + 1 = 1 ∧
      generateMetronome sampleExternals twoVoiceScore 0 noPulseSystem 0 0 [] = none := by
  refine ⟨rfl, rfl, rfl, rfl⟩

set_option maxRecDepth 1000000 in
/-- The metronome of `waltzSystem`, a bar in 3/4 with two pulses, at 120 quarter beats per
minute: the two pulses last 500 milliseconds each. -/
theorem generateMetronome_waltzSystem :
    generateMetronome sampleExternals twoVoiceScore 0 waltzSystem 0 0 [] =
      some
        [⟨15, 0, some 500, 0, 0, .metronome 127⟩,
         ⟨15, 500, none, 0, 0, .stopNote 76⟩,
         ⟨15, 500, some 500, 0, 0, .metronome 80⟩,
         ⟨15, 1000, none, 0, 0, .stopNote 76⟩,
         ⟨15, 1000, none, 3, 0, .stopNote 76⟩] := by
  with_unfolding_all rfl

set_option maxRecDepth 1000000 in
/-- The durations of the bar of `waltzSystem` at 120 quarter beats per minute: a pulse of the
metronome lasts 500 milliseconds, the bar lasts 1500 milliseconds, and so does a whole rest
that is alone in the bar. -/
theorem waltzSystem_durations :
    metronomePulseDuration sampleExternals twoVoiceScore 0 waltzSystem.startBar = 500 ∧
      (waltzSystem.startBar.timeSignature.pulses.val : ℚ) *
        metronomePulseDuration sampleExternals twoVoiceScore 0 waltzSystem.startBar = 1000 ∧
      getCurrentTempo sampleExternals twoVoiceScore 0 waltzSystem.startBar.position * 4 /
          (waltzSystem.startBar.timeSignature.beatAmount.val : ℚ) *
          (waltzSystem.startBar.timeSignature.beatsPerMeasure.val : ℚ) = 1500 ∧
      getWholeRestDuration sampleExternals twoVoiceScore 0 waltzSystem restStaff wholeRest
        (calculateNoteDuration sampleExternals twoVoiceScore 0 wholeRest) = 1500 := by
  refine ⟨?_, ?_, ?_, ?_⟩ <;> with_unfolding_all rfl

/-- C32, failing input: the bar of `waltzSystem` is in 3/4 with two pulses, at 120 quarter beats
per minute. The duration of a pulse is 500 milliseconds, as the quotient 3 / 2 of integers
is 1, so that the two pulses span 1000 milliseconds and the last `StopNoteEvent` of the
metronome is at 1000; the length of the bar is 1500 milliseconds, which is what
`getWholeRestDuration` gives for a whole rest that is alone in the bar. -/
theorem metronomePulseDuration_truncated :
    waltzSystem.startBar.timeSignature.pulses.val = 2 ∧
      metronomePulseDuration sampleExternals twoVoiceScore 0 waltzSystem.startBar = 500 ∧
      (waltzSystem.startBar.timeSignature.pulses.val : ℚ) *
        metronomePulseDuration sampleExternals twoVoiceScore 0 waltzSystem.startBar = 1000 ∧
      getCurrentTempo sampleExternals twoVoiceScore 0 waltzSystem.startBar.position * 4 /
          (waltzSystem.startBar.timeSignature.beatAmount.val : ℚ) *
          (waltzSystem.startBar.timeSignature.beatsPerMeasure.val : ℚ) = 1500 ∧
      getWholeRestDuration sampleExternals twoVoiceScore 0 waltzSystem restStaff wholeRest
        (calculateNoteDuration sampleExternals twoVoiceScore 0 wholeRest) = 1500 ∧
      (generateMetronome sampleExternals twoVoiceScore 0 waltzSystem 0 0 []).map
          (fun evs => evs.map MidiEvent.startTime) =
        some [0, 500, 500, 1000, 1000] := by
  obtain ⟨h1, h2, h3, h4⟩ := waltzSystem_durations
  refine ⟨rfl, h1, h2, h3, h4, ?_⟩
  rw [generateMetronome_waltzSystem]
  rfl

/-! ## Theorems: rests -/

/-- C33: one pass of the loop over the positions for a rest, whatever notes and flags the
position has: the event list after the pass is the event list before it, so that no event
is pushed for the rest; the running start time advances by the duration of the rest, which
is the duration of the bar for a whole rest that is alone in its bar and the duration of
the position otherwise; and the end time is as before. -/
theorem positionLoopBody_rest (c : Externals) (score : Score) (currentSystemIndex : Nat)
    (system : System) (staff : Staff) (voice i systemIndex : Nat) (guitar : Guitar)
    (st : VoiceLoopState) (j : Nat) (position : Position) (hrest : position.isRest = true) :
    (positionLoopBody c score currentSystemIndex system staff voice i systemIndex guitar
        st j position).eventList = st.eventList ∧
      (positionLoopBody c score currentSystemIndex system staff voice i systemIndex guitar
        st j position).startTime =
        st.startTime +
          (if position.durationType = 1 then
            getWholeRestDuration c score currentSystemIndex system staff position
              (calculateNoteDuration c score currentSystemIndex position)
          else calculateNoteDuration c score currentSystemIndex position) ∧
      (position.durationType = 1 → c.IsOnlyPositionInBar staff position system = false →
        (positionLoopBody c score currentSystemIndex system staff voice i systemIndex guitar
          st j position).startTime =
          st.startTime + calculateNoteDuration c score currentSystemIndex position) ∧
      (positionLoopBody c score currentSystemIndex system staff voice i systemIndex guitar
        st j position).endTime = st.endTime := by
  simp only [positionLoopBody, hrest, if_true]
  refine ⟨trivial, trivial, ?_, trivial⟩
  intro hwhole honly
  simp only [hwhole, if_true, getWholeRestDuration, honly]

/-- Witness of `positionLoopBody_rest`: a quarter rest with a vibrato flag and a note, at the
running start time 1000. -/
theorem positionLoopBody_rest_witness :
    (positionLoopBody sampleExternals twoVoiceScore 0 twoVoiceSystem twoVoiceStaff 0 0 0
        standardGuitar { startTime := 1000, endTime := 1000, eventList := [] } 0
        { quarterRest with hasVibrato := true, notes := [noteX] }).eventList = [] :=
  (positionLoopBody_rest sampleExternals twoVoiceScore 0 twoVoiceSystem twoVoiceStaff 0 0 0
    standardGuitar { startTime := 1000, endTime := 1000, eventList := [] } 0
    { quarterRest with hasVibrato := true, notes := [noteX] } rfl).1

/-! ## Theorems: the passes of the playback loop -/

/-- C34: a pass of the loop of `playMidiEvents` on an event that is not skipped, in which
`checkForRepeat` redirects to `(newSystem, newPos)`. The event under the cursor is not handed
to the MIDI transport; after the pass the cursor is on the first event of the list, the
resume point is `(newSystem, newPos)`, and the tracked system and position are 0; and the
signals of the pass end with `playbackSystemChanged(newSystem)` followed by
`playbackPositionChanged(newPos)`, after the signals for the change of position and of
system that the event itself may have caused. The event list is an argument that the pass
only reads. -/
theorem playbackIteration_redirect {σ : Type}
    (checkForRepeat : σ → Nat → Nat → σ × Option (Nat × Nat)) (eventList : List MidiEvent)
    (st : PlaybackState σ) (activeEvent : MidiEvent) (controller : σ) (newSystem newPos : Nat)
    (hcur : eventList[st.playbackPos]? = some activeEvent)
    (hskip : skippedBeforeResume st.startSystem st.startPos activeEvent = false)
    (hcheck : checkForRepeat st.repeatController
        (if activeEvent.systemIndex ≠ st.currentSystem then activeEvent.systemIndex
          else st.currentSystem)
        (if activeEvent.systemIndex ≠ st.currentSystem then 0
          else if activeEvent.positionIndex > st.currentPosition then
            activeEvent.positionIndex
          else st.currentPosition) =
      (controller, some (newSystem, newPos))) :
    ∃ before,
      playbackIteration checkForRepeat eventList true st =
        .next
          { playbackPos := 0
            startSystem := newSystem
            startPos := newPos
            currentPosition := 0
            currentSystem := 0
            repeatController := controller }
          (before ++
            [Signal.playbackSystemChanged newSystem, Signal.playbackPositionChanged newPos]) ∧
      before =
        (if activeEvent.positionIndex > st.currentPosition then
          [Signal.playbackPositionChanged activeEvent.positionIndex] else []) ++
        (if activeEvent.systemIndex ≠ st.currentSystem then
          [Signal.playbackSystemChanged activeEvent.systemIndex] else []) ∧
      performedEvents
        (before ++
          [Signal.playbackSystemChanged newSystem, Signal.playbackPositionChanged newPos]) =
        [] := by
  have h : ¬ (activeEvent.systemIndex < st.startSystem ∨
      activeEvent.positionIndex < st.startPos) := by
    simpa [skippedBeforeResume] using hskip
  refine ⟨_, ?_, rfl, ?_⟩
  · simp only [playbackIteration, hcur, h, if_false, Bool.true_eq_false]
    by_cases hsys : activeEvent.systemIndex = st.currentSystem <;>
      by_cases hpos : activeEvent.positionIndex > st.currentPosition <;>
      simp [hsys, hpos] at hcheck ⊢ <;> simp [hcheck]
  · simp only [performedEvents_append]
    by_cases hsys : activeEvent.systemIndex = st.currentSystem <;>
      by_cases hpos : activeEvent.positionIndex > st.currentPosition <;>
      simp [hsys, hpos, performedEvents]

/-- Witness of `playbackIteration_redirect`: the first event of `twoVoiceEvents` with a
controller that redirects to the position 4 of the system 1. -/
theorem playbackIteration_redirect_witness :
    ∃ before,
      playbackIteration alwaysRepeat twoVoiceEvents true
          { playbackPos := 0, startSystem := 0, startPos := 0, currentPosition := 0,
            currentSystem := 0, repeatController := () } =
        .next
          { playbackPos := 0
            startSystem := 1
            startPos := 4
            currentPosition := 0
            currentSystem := 0
            repeatController := () }
          (before ++ [Signal.playbackSystemChanged 1, Signal.playbackPositionChanged 4]) ∧
      before =
        (if (0 : Nat) > 0 then [Signal.playbackPositionChanged 0] else []) ++
        (if (0 : Nat) ≠ 0 then [Signal.playbackSystemChanged 0] else []) ∧
      performedEvents
        (before ++ [Signal.playbackSystemChanged 1, Signal.playbackPositionChanged 4]) =
        [] :=
  playbackIteration_redirect alwaysRepeat twoVoiceEvents
    { playbackPos := 0, startSystem := 0, startPos := 0, currentPosition := 0,
      currentSystem := 0, repeatController := () }
    ⟨0, 0, some 500, 0, 0, .playNote 64 standardGuitar false 127⟩ () 1 4 rfl rfl rfl

/-- C35, as the code has it: a pass of the loop of `playMidiEvents` on an event that is not
skipped, in which `checkForRepeat` does not redirect. The signal `playbackPositionChanged`
is emitted, with the position index of the event, when that index is greater than the
tracked position, and not when it is smaller; then the signal `playbackSystemChanged` is
emitted, with the system index of the event, when that index differs from the tracked
system. After the pass the tracked system is the system index of the event; the tracked
position is 0 when the system changed, the position index of the event when the system
did not change and the index is greater than the tracked position, and as before
otherwise. -/
theorem playbackIteration_tracking {σ : Type}
    (checkForRepeat : σ → Nat → Nat → σ × Option (Nat × Nat)) (eventList : List MidiEvent)
    (st : PlaybackState σ) (activeEvent : MidiEvent) (controller : σ)
    (hcur : eventList[st.playbackPos]? = some activeEvent)
    (hskip : skippedBeforeResume st.startSystem st.startPos activeEvent = false)
    (hcheck : checkForRepeat st.repeatController
        (if activeEvent.systemIndex ≠ st.currentSystem then activeEvent.systemIndex
          else st.currentSystem)
        (if activeEvent.systemIndex ≠ st.currentSystem then 0
          else if activeEvent.positionIndex > st.currentPosition then
            activeEvent.positionIndex
          else st.currentPosition) =
      (controller, none)) :
    ∃ st1 sleep,
      playbackIteration checkForRepeat eventList true st =
        .next st1
          ((if activeEvent.positionIndex > st.currentPosition then
              [Signal.playbackPositionChanged activeEvent.positionIndex] else []) ++
            (if activeEvent.systemIndex ≠ st.currentSystem then
              [Signal.playbackSystemChanged activeEvent.systemIndex] else []) ++
            [Signal.performEvent activeEvent, sleep]) ∧
      (sleep = Signal.usleepDuration activeEvent.duration ∨
        ∃ d, sleep = Signal.usleepUntilNext d) ∧
      st1.currentSystem = activeEvent.systemIndex ∧
      st1.currentPosition =
        (if activeEvent.systemIndex ≠ st.currentSystem then 0
          else if activeEvent.positionIndex > st.currentPosition then
            activeEvent.positionIndex
          else st.currentPosition) := by
  have h : ¬ (activeEvent.systemIndex < st.startSystem ∨
      activeEvent.positionIndex < st.startPos) := by
    simpa [skippedBeforeResume] using hskip
  have hsleep : ∀ sleep : Signal,
      sleep = (match eventList[st.playbackPos + 1]? with
        | some nextEvent =>
          Signal.usleepUntilNext
            (truncateToInt (nextEvent.startTime - activeEvent.startTime))
        | none => Signal.usleepDuration activeEvent.duration) →
      (sleep = Signal.usleepDuration activeEvent.duration ∨
        ∃ d, sleep = Signal.usleepUntilNext d) := by
    intro sleep hs
    cases hnext : eventList[st.playbackPos + 1]? with
    | none =>
      rw [hnext] at hs
      exact Or.inl hs
    | some nextEvent =>
      rw [hnext] at hs
      exact Or.inr ⟨_, hs⟩
  refine ⟨{ playbackPos := st.playbackPos + 1
            startSystem := 0
            startPos := 0
            currentPosition :=
              if activeEvent.systemIndex ≠ st.currentSystem then 0
              else if activeEvent.positionIndex > st.currentPosition then
                activeEvent.positionIndex
              else st.currentPosition
            currentSystem :=
              if activeEvent.systemIndex ≠ st.currentSystem then activeEvent.systemIndex
              else st.currentSystem
            repeatController := controller },
    (match eventList[st.playbackPos + 1]? with
      | some nextEvent =>
        Signal.usleepUntilNext (truncateToInt (nextEvent.startTime - activeEvent.startTime))
      | none => Signal.usleepDuration activeEvent.duration),
    ?_, hsleep _ rfl, ?_, rfl⟩
  · simp only [playbackIteration, hcur, h, if_false, Bool.true_eq_false]
    by_cases hsys : activeEvent.systemIndex = st.currentSystem <;>
      by_cases hpos : activeEvent.positionIndex > st.currentPosition <;>
      simp [hsys, hpos] at hcheck ⊢ <;> simp [hcheck]
  · by_cases hsys : activeEvent.systemIndex = st.currentSystem <;> simp [hsys]


set_option maxRecDepth 1000000 in
/-- The loop of `run` over the systems of `twoSystemScore` generates the list
`twoSystemGenerated`. -/
theorem systemLoop_twoSystemScore :
    systemLoop sampleExternals twoSystemScore 0 twoSystemScore.systems 0 [] =
      some twoSystemGenerated := by
  with_unfolding_all rfl

/-- The sort of `twoSystemGenerated` with `CompareEvents` is the list `twoSystemEvents`. -/
theorem listSort_twoSystemGenerated :
    listSort (CompareEvents sampleExternals) twoSystemGenerated = twoSystemEvents := by
  norm_num [listSort, List.insertionSort, List.orderedInsert, CompareEvents, MidiEvent.lt,
    MidiEvent.kindRank, twoSystemGenerated, twoSystemEvents]

/-- The run on `twoSystemScore` passes the list `twoSystemEvents` to `playMidiEvents`. -/
theorem runEventList_twoSystemScore :
    runEventList sampleExternals twoSystemScore = some twoSystemEvents := by
  unfold runEventList
  rw [systemLoop_twoSystemScore]
  exact congrArg some listSort_twoSystemGenerated

/-- Witness of `playbackIteration_tracking`: two passes of the playback of `twoSystemEvents`,
the event list that `run` builds for `twoSystemScore`, at the states in which the playback
from the start comes to them, with a controller that never redirects. The pass on the
event of index 3, at the position 1 of the system 0, when the tracked position is 0 and the
tracked system 0: `playbackPositionChanged(1)` is emitted and the tracked position becomes
1. The pass on the event of index 5, at the position 0 of the system 1, when the tracked
position is 1 and the tracked system 0: no `playbackPositionChanged` is emitted,
`playbackSystemChanged(1)` is emitted, the tracked system becomes 1 and the tracked
position 0. -/
theorem playbackIteration_tracking_witness :
    runEventList sampleExternals twoSystemScore = some twoSystemEvents ∧
    (∃ st1 sleep,
      playbackIteration neverRepeat twoSystemEvents true
          { playbackPos := 3, startSystem := 0, startPos := 0, currentPosition := 0,
            currentSystem := 0, repeatController := () } =
        .next st1
          ([Signal.playbackPositionChanged 1] ++ [] ++
            [Signal.performEvent
              ⟨0, 500, some 500, 1, 0, .playNote 64 standardGuitar false 127⟩, sleep]) ∧
      (sleep = Signal.usleepDuration (some 500) ∨ ∃ d, sleep = Signal.usleepUntilNext d) ∧
      st1.currentSystem = 0 ∧ st1.currentPosition = 1) ∧
    (∃ st1 sleep,
      playbackIteration neverRepeat twoSystemEvents true
          { playbackPos := 5, startSystem := 0, startPos := 0, currentPosition := 1,
            currentSystem := 0, repeatController := () } =
        .next st1
          ([] ++ [Signal.playbackSystemChanged 1] ++
            [Signal.performEvent
              ⟨0, 1000, some 500, 0, 1, .playNote 64 standardGuitar false 127⟩, sleep]) ∧
      (sleep = Signal.usleepDuration (some 500) ∨ ∃ d, sleep = Signal.usleepUntilNext d) ∧
      st1.currentSystem = 1 ∧ st1.currentPosition = 0) :=
  ⟨runEventList_twoSystemScore,
    playbackIteration_tracking neverRepeat twoSystemEvents
      { playbackPos := 3, startSystem := 0, startPos := 0, currentPosition := 0,
        currentSystem := 0, repeatController := () }
      ⟨0, 500, some 500, 1, 0, .playNote 64 standardGuitar false 127⟩ () rfl rfl rfl,
    playbackIteration_tracking neverRepeat twoSystemEvents
      { playbackPos := 5, startSystem := 0, startPos := 0, currentPosition := 1,
        currentSystem := 0, repeatController := () }
      ⟨0, 1000, some 500, 0, 1, .playNote 64 standardGuitar false 127⟩ () rfl rfl rfl⟩

set_option maxRecDepth 1000000 in
/-- The playback of `twoVoiceEvents` from the start, with a controller that never
redirects. -/
theorem playMidiEvents_twoVoiceEvents :
    playMidiEvents neverRepeat () (fun _ => true) twoVoiceEvents 0 0 8 =
      ([Signal.performEvent ⟨0, 0, some 500, 0, 0, .playNote 64 standardGuitar false 127⟩,
        Signal.usleepUntilNext 0,
        Signal.performEvent ⟨15, 0, some 2000, 0, 0, .metronome 127⟩,
        Signal.usleepUntilNext 500,
        Signal.performEvent ⟨0, 500, none, 0, 0, .stopNote 64⟩,
        Signal.usleepUntilNext 0,
        Signal.playbackPositionChanged 1,
        Signal.performEvent ⟨0, 500, some 500, 1, 0, .playNote 64 standardGuitar false 127⟩,
        Signal.usleepUntilNext 500,
        Signal.performEvent ⟨0, 1000, none, 1, 0, .stopNote 64⟩,
        Signal.usleepUntilNext 1000,
        Signal.performEvent ⟨15, 2000, none, 0, 0, .stopNote 76⟩,
        Signal.usleepUntilNext 0,
        Signal.playbackPositionChanged 2,
        Signal.performEvent ⟨15, 2000, none, 2, 0, .stopNote 76⟩,
        Signal.usleepDuration none], .finished) := by
  with_unfolding_all rfl

set_option maxRecDepth 1000000 in
/-- The pass of the playback of `twoVoiceEvents` on the event of index 5, when the tracked
position is 1. -/
theorem playbackIteration_twoVoiceEvents_five :
    playbackIteration neverRepeat twoVoiceEvents true
        { playbackPos := 5, startSystem := 0, startPos := 0, currentPosition := 1,
          currentSystem := 0, repeatController := () } =
      .next
        { playbackPos := 6, startSystem := 0, startPos := 0, currentPosition := 1,
          currentSystem := 0, repeatController := () }
        [Signal.performEvent ⟨15, 2000, none, 0, 0, .stopNote 76⟩,
          Signal.usleepUntilNext 0] := by
  with_unfolding_all rfl

/-- C35, counterexample: the playback of `twoVoiceEvents`, the event list that `run` builds
for `twoVoiceScore`, from the start, with a controller that never redirects. When the pass
comes to the event of index 5, the `StopNoteEvent` of the metronome at the position 0 of the
system 0, the tracked position is 1: the position index of the event differs from the
tracked position, no `playbackPositionChanged` is emitted for it, and the tracked position
stays 1. In the whole run `playbackPositionChanged` is emitted with 1 and with 2 only. -/
theorem playMidiEvents_position_not_tracked_backwards :
    runEventList sampleExternals twoVoiceScore = some twoVoiceEvents ∧
      twoVoiceEvents[5]? = some ⟨15, 2000, none, 0, 0, .stopNote 76⟩ ∧
      (∃ st1 out,
        playbackIteration neverRepeat twoVoiceEvents true
            { playbackPos := 5, startSystem := 0, startPos := 0, currentPosition := 1,
              currentSystem := 0, repeatController := () } = .next st1 out ∧
          st1.currentPosition = 1 ∧
          out = [Signal.performEvent ⟨15, 2000, none, 0, 0, .stopNote 76⟩,
            Signal.usleepUntilNext 0]) ∧
      (playMidiEvents neverRepeat () (fun _ => true) twoVoiceEvents 0 0 8).1 =
        [Signal.performEvent ⟨0, 0, some 500, 0, 0, .playNote 64 standardGuitar false 127⟩,
          Signal.usleepUntilNext 0,
          Signal.performEvent ⟨15, 0, some 2000, 0, 0, .metronome 127⟩,
          Signal.usleepUntilNext 500,
          Signal.performEvent ⟨0, 500, none, 0, 0, .stopNote 64⟩,
          Signal.usleepUntilNext 0,
          Signal.playbackPositionChanged 1,
          Signal.performEvent
            ⟨0, 500, some 500, 1, 0, .playNote 64 standardGuitar false 127⟩,
          Signal.usleepUntilNext 500,
          Signal.performEvent ⟨0, 1000, none, 1, 0, .stopNote 64⟩,
          Signal.usleepUntilNext 1000,
          Signal.performEvent ⟨15, 2000, none, 0, 0, .stopNote 76⟩,
          Signal.usleepUntilNext 0,
          Signal.playbackPositionChanged 2,
          Signal.performEvent ⟨15, 2000, none, 2, 0, .stopNote 76⟩,
          Signal.usleepDuration none] := by
  refine ⟨runEventList_twoVoiceScore, rfl,
    ⟨_, _, playbackIteration_twoVoiceEvents_five, rfl, rfl⟩, ?_⟩
  rw [playMidiEvents_twoVoiceEvents]

/-- The length of a beat is not negative. -/
theorem getCurrentTempo_nonneg (c : Externals) (score : Score)
    (currentSystemIndex positionIndex : Nat) :
    0 ≤ getCurrentTempo c score currentSystemIndex positionIndex := by
  unfold getCurrentTempo
  cases getCurrentTempoMarker score currentSystemIndex positionIndex with
  | none =>
    simp only
    positivity
  | some marker =>
    simp only
    positivity

/-- The duration of a position whose notated duration is not negative is not negative. -/
theorem calculateNoteDuration_nonneg (c : Externals) (score : Score)
    (currentSystemIndex : Nat) (position : Position) (h : 0 ≤ position.duration) :
    0 ≤ calculateNoteDuration c score currentSystemIndex position := by
  unfold calculateNoteDuration
  exact mul_nonneg h (getCurrentTempo_nonneg c score currentSystemIndex position.position)

/-- The duration of a whole rest is not negative when its notated duration is not. -/
theorem getWholeRestDuration_nonneg (c : Externals) (score : Score)
    (currentSystemIndex : Nat) (system : System) (staff : Staff) (position : Position)
    (originalDuration : ℚ) (h : 0 ≤ originalDuration) :
    0 ≤ getWholeRestDuration c score currentSystemIndex system staff position
      originalDuration := by
  unfold getWholeRestDuration
  have htempo := getCurrentTempo_nonneg c score currentSystemIndex position.position
  simp only
  split
  · exact h
  · positivity

/-- The duration of a pulse of the metronome is not negative. -/
theorem metronomePulseDuration_nonneg (c : Externals) (score : Score)
    (currentSystemIndex : Nat) (barline : Barline) :
    0 ≤ metronomePulseDuration c score currentSystemIndex barline := by
  unfold metronomePulseDuration
  have htempo := getCurrentTempo_nonneg c score currentSystemIndex barline.position
  simp only
  positivity

/-- The events of a note of an arpeggio do not start before the arpeggio: with `t` the start
time and `d` the duration of the notes of the position, the events of the `k`-th note,
which starts at `t + k * a` and lasts `d - k * a`, are at `t` or later. -/
theorem noteEvents_lower_bound (c : Externals) (staff : Staff)
    (voice j i systemIndex : Nat) (guitar : Guitar) (position : Position) (t d a : ℚ)
    (k : Nat) (note : Note) (ha : 0 ≤ a) (hd : 0 ≤ d) (e : MidiEvent)
    (he : e ∈ noteEvents c staff voice j i systemIndex guitar position (t + (k : ℚ) * a)
      (d - (k : ℚ) * a) note) :
    t ≤ e.startTime := by
  have hk : 0 ≤ (k : ℚ) * a := mul_nonneg (Nat.cast_nonneg k) ha
  rw [mem_noteEvents] at he
  rcases he with ⟨_, h⟩ | ⟨_, h | h⟩ | ⟨_, _, h⟩
  · subst h
    simp only
    linarith
  · subst h
    simp only
    linarith
  · subst h
    simp only
    linarith
  · subst h
    simp only
    split <;> linarith

/-- One pass of the loop over the positions, for a position whose notated duration is not
negative: the events that the pass pushes are not earlier than the running start time
before the pass, less `g`, where `g` is at least the duration of a grace note when the
position is a grace note; and the running start time does not decrease. -/
theorem positionLoopBody_lower_bound (c : Externals) (score : Score)
    (currentSystemIndex : Nat) (system : System) (staff : Staff) (voice i systemIndex : Nat)
    (guitar : Guitar) (st : VoiceLoopState) (j : Nat) (position : Position) (g : ℚ)
    (hA : 0 ≤ c.ARPEGGIO_OFFSET) (hG : 0 ≤ c.GRACE_NOTE_DURATION) (hg : 0 ≤ g)
    (hduration : 0 ≤ position.duration)
    (hgrace : position.isRest = false → position.isAcciaccatura = true →
      c.GRACE_NOTE_DURATION ≤ g) :
    st.startTime ≤
        (positionLoopBody c score currentSystemIndex system staff voice i systemIndex guitar
          st j position).startTime ∧
      ∃ new,
        (positionLoopBody c score currentSystemIndex system staff voice i systemIndex guitar
          st j position).eventList = st.eventList ++ new ∧
        ∀ e ∈ new, st.startTime - g ≤ e.startTime := by
  have hcalc := calculateNoteDuration_nonneg c score currentSystemIndex position hduration
  cases hrest : position.isRest with
  | true =>
    refine ⟨?_, [], ?_, ?_⟩
    · rw [positionLoopBody_startTime, hrest, if_pos rfl]
      have hwhole := getWholeRestDuration_nonneg c score currentSystemIndex system staff
        position _ hcalc
      split <;> linarith
    · simp only [positionLoopBody, hrest, if_true, List.append_nil]
    · intro e he
      exact absurd he (List.not_mem_nil _)
  | false =>
    have ha : 0 ≤ (if (position.hasArpeggioDown || position.hasArpeggioUp) = true then
        c.ARPEGGIO_OFFSET else 0) := by
      split
      · exact hA
      · exact le_refl _
    have hd : 0 ≤ (if position.isAcciaccatura = true then c.GRACE_NOTE_DURATION
        else calculateNoteDuration c score currentSystemIndex position) := by
      split
      · exact hG
      · exact hcalc
    have ht : st.startTime - g ≤
        (if position.isAcciaccatura = true then st.startTime - c.GRACE_NOTE_DURATION
          else st.startTime) := by
      split
      · rename_i hacc
        have := hgrace hrest hacc
        linarith
      · linarith
    obtain ⟨h1, _, _⟩ := positionLoopBody_exact c score currentSystemIndex system staff voice
      i systemIndex guitar st j position hrest _ _ _ rfl rfl rfl
    refine ⟨?_, _, h1, ?_⟩
    · rw [positionLoopBody_startTime, hrest, if_neg (by simp)]
      split <;> linarith
    · intro e he
      rw [List.mem_flatMap] at he
      obtain ⟨kn, _, hmem⟩ := he
      exact le_trans ht
        (noteEvents_lower_bound c staff voice j i systemIndex guitar
          position.sortForArpeggio _ _ _ kn.1 kn.2 ha hd e hmem)

/-- The loop over the positions of a voice, when the notated durations of the positions are
not negative and the running start time is at least `t0`: the events that the loop pushes
are not earlier than `t0 - g`. -/
theorem positionLoop_lower_bound (c : Externals) (score : Score) (currentSystemIndex : Nat)
    (system : System) (staff : Staff) (voice i systemIndex : Nat) (guitar : Guitar) (t0 g : ℚ)
    (hA : 0 ≤ c.ARPEGGIO_OFFSET) (hG : 0 ≤ c.GRACE_NOTE_DURATION) (hg : 0 ≤ g)
    (positions : List Position)
    (hpositions : ∀ p ∈ positions, 0 ≤ p.duration ∧
      (p.isRest = false → p.isAcciaccatura = true → c.GRACE_NOTE_DURATION ≤ g))
    (j : Nat) (st : VoiceLoopState) (hst : t0 ≤ st.startTime) :
    ∃ new,
      (positionLoop c score currentSystemIndex system staff voice i systemIndex guitar j
        positions st).eventList = st.eventList ++ new ∧
      ∀ e ∈ new, t0 - g ≤ e.startTime := by
  induction positions generalizing j st with
  | nil => exact ⟨[], by simp [positionLoop], fun e he => absurd he (List.not_mem_nil _)⟩
  | cons p rest ih =>
    obtain ⟨hp1, hp2⟩ := hpositions p (List.mem_cons_self _ _)
    obtain ⟨hstart, new1, heq1, hnew1⟩ := positionLoopBody_lower_bound c score
      currentSystemIndex system staff voice i systemIndex guitar st j p g hA hG hg hp1 hp2
    obtain ⟨new2, heq2, hnew2⟩ := ih (fun q hq => hpositions q (List.mem_cons_of_mem _ hq))
      (j + 1)
      (positionLoopBody c score currentSystemIndex system staff voice i systemIndex guitar
        st j p) (le_trans hst hstart)
    refine ⟨new1 ++ new2, ?_, ?_⟩
    · rw [positionLoop, heq2, heq1, List.append_assoc]
    · intro e he
      rcases List.mem_append.mp he with h | h
      · have := hnew1 e h
        linarith
      · exact hnew2 e h

/-- The loop over a list of voices of a staff: the events that it pushes are not earlier
than the start time of the system less `g`. -/
theorem voiceLoop_lower_bound (c : Externals) (score : Score) (currentSystemIndex : Nat)
    (system : System) (staff : Staff) (i systemIndex : Nat) (guitar : Guitar) (t0 g : ℚ)
    (hA : 0 ≤ c.ARPEGGIO_OFFSET) (hG : 0 ≤ c.GRACE_NOTE_DURATION) (hg : 0 ≤ g)
    (voices : List Nat)
    (hpositions : ∀ voice ∈ voices, ∀ p ∈ staff.positionArrays voice, 0 ≤ p.duration ∧
      (p.isRest = false → p.isAcciaccatura = true → c.GRACE_NOTE_DURATION ≤ g))
    (acc : ℚ × List MidiEvent) :
    ∃ new,
      (voices.foldl
        (voiceLoopBody c score currentSystemIndex system staff i systemIndex guitar t0)
        acc).2 = acc.2 ++ new ∧
      ∀ e ∈ new, t0 - g ≤ e.startTime := by
  induction voices generalizing acc with
  | nil => exact ⟨[], by simp, fun e he => absurd he (List.not_mem_nil _)⟩
  | cons v rest ih =>
    obtain ⟨new1, heq1, hnew1⟩ := positionLoop_lower_bound c score currentSystemIndex system
      staff v i systemIndex guitar t0 g hA hG hg (staff.positionArrays v)
      (hpositions v (List.mem_cons_self _ _)) 0
      { startTime := t0, endTime := acc.1, eventList := acc.2 } (le_refl _)
    obtain ⟨new2, heq2, hnew2⟩ :=
      ih (fun voice hv => hpositions voice (List.mem_cons_of_mem _ hv))
        (voiceLoopBody c score currentSystemIndex system staff i systemIndex guitar t0 acc v)
    refine ⟨new1 ++ new2, ?_, ?_⟩
    · rw [List.foldl_cons, heq2, ← List.append_assoc]
      congr 1
    · intro e he
      rcases List.mem_append.mp he with h | h
      · exact hnew1 e h
      · exact hnew2 e h

/-- The loop over a list of staves with their indices: the events that it pushes are not
earlier than the start time of the system less `g`. -/
theorem staffLoop_lower_bound (c : Externals) (score : Score) (currentSystemIndex : Nat)
    (system : System) (systemIndex : Nat) (t0 g : ℚ)
    (hA : 0 ≤ c.ARPEGGIO_OFFSET) (hG : 0 ≤ c.GRACE_NOTE_DURATION) (hg : 0 ≤ g)
    (staves : List (Nat × Staff))
    (hpositions : ∀ indexed ∈ staves, ∀ voice, voice < c.NUM_STAFF_VOICES →
      ∀ p ∈ indexed.2.positionArrays voice, 0 ≤ p.duration ∧
        (p.isRest = false → p.isAcciaccatura = true → c.GRACE_NOTE_DURATION ≤ g))
    (acc : ℚ × List MidiEvent) :
    ∃ new,
      (staves.foldl (staffLoopBody c score currentSystemIndex system systemIndex t0)
        acc).2 = acc.2 ++ new ∧
      ∀ e ∈ new, t0 - g ≤ e.startTime := by
  induction staves generalizing acc with
  | nil => exact ⟨[], by simp, fun e he => absurd he (List.not_mem_nil _)⟩
  | cons s rest ih =>
    obtain ⟨new1, heq1, hnew1⟩ := voiceLoop_lower_bound c score currentSystemIndex system
      s.2 s.1 systemIndex (score.guitar s.1) t0 g hA hG hg (List.range c.NUM_STAFF_VOICES)
      (fun voice hv => hpositions s (List.mem_cons_self _ _) voice (List.mem_range.mp hv))
      acc
    obtain ⟨new2, heq2, hnew2⟩ :=
      ih (fun indexed hin => hpositions indexed (List.mem_cons_of_mem _ hin))
        (staffLoopBody c score currentSystemIndex system systemIndex t0 acc s)
    refine ⟨new1 ++ new2, ?_, ?_⟩
    · rw [List.foldl_cons, heq2, ← List.append_assoc]
      congr 1
    · intro e he
      rcases List.mem_append.mp he with h | h
      · exact hnew1 e h
      · exact hnew2 e h

/-- The events of the metronome ticks of a bar are not earlier than the start of the bar. -/
theorem metronomeTicks_lower_bound (c : Externals) (duration : ℚ)
    (position systemIndex numPulses : Nat) (startTime : ℚ) (hduration : 0 ≤ duration)
    (e : MidiEvent)
    (he : e ∈ metronomeTicks c duration position systemIndex numPulses startTime) :
    startTime ≤ e.startTime := by
  unfold metronomeTicks at he
  rw [List.mem_flatMap] at he
  obtain ⟨k, _, hmem⟩ := he
  have hk : 0 ≤ (k : ℚ) * duration := mul_nonneg (Nat.cast_nonneg k) hduration
  simp only [List.mem_cons, List.mem_singleton, List.not_mem_nil, or_false] at hmem
  rcases hmem with h | h
  · subst h
    simp only
    linarith
  · subst h
    simp only
    nlinarith

/-- The loop over the barlines of `generateMetronome`, when it returns: the start time does
not decrease, and the events that the loop pushes are not earlier than the start time
before the loop. -/
theorem barlineLoop_lower_bound (c : Externals) (score : Score)
    (currentSystemIndex systemIndex : Nat) (barlines : List Barline) (startTime : ℚ)
    (eventList : List MidiEvent) (r : ℚ × List MidiEvent)
    (h : barlineLoop c score currentSystemIndex systemIndex barlines startTime eventList =
      some r) :
    startTime ≤ r.1 ∧ ∃ new, r.2 = eventList ++ new ∧ ∀ e ∈ new, startTime ≤ e.startTime := by
  induction barlines generalizing startTime eventList with
  | nil =>
    simp only [barlineLoop, Option.some.injEq] at h
    subst h
    exact ⟨le_refl _, [], by simp, fun e he => absurd he (List.not_mem_nil _)⟩
  | cons b rest ih =>
    by_cases hb : b.timeSignature.pulses.val = 0
    · simp [barlineLoop, hb] at h
    · simp only [barlineLoop, hb, if_false, pulseLoop_eq] at h
      obtain ⟨h1, new2, heq2, hnew2⟩ := ih _ _ h
      have hd := metronomePulseDuration_nonneg c score currentSystemIndex b
      unfold metronomePulseDuration at hd
      simp only at hd
      have hn : 0 ≤ (b.timeSignature.pulses.val : ℚ) *
          (getCurrentTempo c score currentSystemIndex b.position * 4 /
            (b.timeSignature.beatAmount.val : ℚ) *
            ((b.timeSignature.beatsPerMeasure.val / b.timeSignature.pulses.val : Nat) : ℚ)) :=
        mul_nonneg (Nat.cast_nonneg _) hd
      refine ⟨by linarith, _, by rw [heq2, List.append_assoc], ?_⟩
      intro e he
      rcases List.mem_append.mp he with hm | hm
      · have := metronomeTicks_lower_bound c _ b.position systemIndex
          b.timeSignature.pulses.val startTime hd e (by
            unfold metronomeTicks
            simpa only [Nat.zero_add] using hm)
        exact this
      · have := hnew2 e hm
        linarith


/-- C37, as the code has it: for a system whose positions have notated durations that are not
negative, with constants `ARPEGGIO_OFFSET` and `GRACE_NOTE_DURATION` that are not negative,
and for every start time `t0` of the system. The events that `generateMetronome` appends,
when it returns, are at `t0` or later. The events that `generateEventsForSystem` appends are
at `t0 - GRACE_NOTE_DURATION` or later; and they are at `t0` or later when no position of
the system that is not a rest is a grace note. -/
theorem generated_events_lower_bound (c : Externals) (score : Score)
    (currentSystemIndex : Nat) (system : System) (systemIndex : Nat) (t0 : ℚ)
    (eventList : List MidiEvent)
    (hA : 0 ≤ c.ARPEGGIO_OFFSET) (hG : 0 ≤ c.GRACE_NOTE_DURATION)
    (hduration : ∀ staff ∈ system.staffArray, ∀ voice, voice < c.NUM_STAFF_VOICES →
      ∀ p ∈ staff.positionArrays voice, 0 ≤ p.duration) :
    (∀ out,
      generateMetronome c score currentSystemIndex system systemIndex t0 eventList =
        some out →
      ∃ new, out = eventList ++ new ∧ ∀ e ∈ new, t0 ≤ e.startTime) ∧
      ∃ new,
        (generateEventsForSystem c score currentSystemIndex system systemIndex t0
          eventList).2 = eventList ++ new ∧
        (∀ e ∈ new, t0 - c.GRACE_NOTE_DURATION ≤ e.startTime) ∧
        ((∀ staff ∈ system.staffArray, ∀ voice, voice < c.NUM_STAFF_VOICES →
            ∀ p ∈ staff.positionArrays voice, p.isRest = false →
              p.isAcciaccatura = false) →
          ∀ e ∈ new, t0 ≤ e.startTime) := by
  have hmem : ∀ indexed ∈ system.staffArray.enum, indexed.2 ∈ system.staffArray := by
    intro indexed hin
    obtain ⟨_, hget⟩ := List.getElem?_eq_some.mp (List.mk_mem_enum_iff_getElem?.mp hin)
    rw [← hget]
    exact List.getElem_mem _
  constructor
  · intro out hout
    unfold generateMetronome at hout
    simp only at hout
    cases hloop : barlineLoop c score currentSystemIndex systemIndex
        system.GetBarlines.dropLast t0 eventList with
    | none =>
      rw [hloop] at hout
      exact Option.noConfusion hout
    | some r =>
      rw [hloop] at hout
      simp only [Option.some.injEq] at hout
      obtain ⟨h1, new, heq, hnew⟩ := barlineLoop_lower_bound c score currentSystemIndex
        systemIndex _ t0 eventList r hloop
      refine ⟨new ++ [⟨c.METRONOME_CHANNEL, r.1, none, system.endBar.position, systemIndex,
        .stopNote c.METRONOME_PITCH⟩], ?_, ?_⟩
      · rw [← hout, heq, List.append_assoc]
      · intro e he
        rcases List.mem_append.mp he with h | h
        · exact hnew e h
        · rw [List.mem_singleton] at h
          subst h
          exact h1
  · obtain ⟨new, heq, hnew⟩ := staffLoop_lower_bound c score currentSystemIndex system
      systemIndex t0 c.GRACE_NOTE_DURATION hA hG hG system.staffArray.enum
      (fun indexed hin voice hvoice p hp =>
        ⟨hduration indexed.2 (hmem indexed hin) voice hvoice p hp, fun _ _ => le_refl _⟩)
      (t0, eventList)
    refine ⟨new, heq, hnew, ?_⟩
    intro hnograce
    obtain ⟨new0, heq0, hnew0⟩ := staffLoop_lower_bound c score currentSystemIndex system
      systemIndex t0 0 hA hG (le_refl _) system.staffArray.enum
      (fun indexed hin voice hvoice p hp =>
        ⟨hduration indexed.2 (hmem indexed hin) voice hvoice p hp, fun hrest hacc => by
          rw [hnograce indexed.2 (hmem indexed hin) voice hvoice p hp hrest] at hacc
          exact absurd hacc (by simp)⟩)
      (t0, eventList)
    have hsame : new = new0 := by
      have h := heq.symm.trans heq0
      exact List.append_cancel_left h
    rw [hsame]
    intro e he
    have := hnew0 e he
    linarith

/-- Witness of `generated_events_lower_bound`: the events of `graceSystem` from the start time
0 on are at -60 or later. -/
theorem generated_events_lower_bound_witness :
    ∃ new,
      (generateEventsForSystem sampleExternals graceScore 0 graceSystem 0 0 []).2 =
        [] ++ new ∧
      (∀ e ∈ new, 0 - sampleExternals.GRACE_NOTE_DURATION ≤ e.startTime) ∧
      ((∀ staff ∈ graceSystem.staffArray, ∀ voice,
          voice < sampleExternals.NUM_STAFF_VOICES →
          ∀ p ∈ staff.positionArrays voice, p.isRest = false →
            p.isAcciaccatura = false) →
        ∀ e ∈ new, 0 ≤ e.startTime) :=
  (generated_events_lower_bound sampleExternals graceScore 0 graceSystem 0 0 []
    (by simp [sampleExternals]) (by simp [sampleExternals])
    (by
      intro staff hstaff voice hvoice p hp
      simp only [graceSystem, List.mem_singleton] at hstaff
      subst hstaff
      have hv : voice = 0 ∨ voice = 1 := by
        have : voice < 2 := hvoice
        omega
      rcases hv with rfl | rfl
      · simp only [graceStaff, if_true, List.mem_singleton] at hp
        subst hp
        simp [graceNote]
      · simp [graceStaff] at hp)).2

set_option maxRecDepth 1000000 in
/-- The events of `graceSystem` from the start time 0 on: the grace note is played at -60 for
60 milliseconds and stopped at 0. -/
theorem generateEventsForSystem_graceScore_zero :
    generateEventsForSystem sampleExternals graceScore 0 graceSystem 0 0 [] =
      (0,
        [⟨0, -60, some 60, 0, 0, .playNote 64 standardGuitar false 127⟩,
         ⟨0, 0, none, 0, 0, .stopNote 64⟩]) := by
  with_unfolding_all rfl

/-- C37, counterexample: the first position of the first voice of the staff of `graceSystem`
is a grace note. From the start time 0 on, `generateEventsForSystem` pushes a `PlayNoteEvent`
at -60 milliseconds: its start time is negative, and earlier than the start time of the
system. -/
theorem generateEventsForSystem_negative_start_time :
    (graceStaff.positionArrays 0).head? = some graceNote ∧
      graceNote.isAcciaccatura = true ∧
      ∃ e ∈ (generateEventsForSystem sampleExternals graceScore 0 graceSystem 0 0 []).2,
        e.isPlayNote = true ∧ e.startTime = -60 ∧ e.startTime < 0 := by
  refine ⟨rfl, rfl, ?_⟩
  rw [generateEventsForSystem_graceScore_zero]
  refine ⟨⟨0, -60, some 60, 0, 0, .playNote 64 standardGuitar false 127⟩, by simp, rfl, rfl,
    ?_⟩
  norm_num

end PowerTab
